import Mathlib

/-!
Verification of the geometry/topology core of a Qt-based node-diagram editor
("modeller"): border intersection, orthogonal edge routing, node containment
and reparenting, z-ordering, the undo/redo command log, and the JSON
(de)serializer.  All definitions are shallow embeddings of the Python source
(`node.py`, `edge.py`); floating-point coordinates are modelled as rationals.
-/

namespace Modeller

/-- A 2D point (models `QPointF`). -/
structure Pt where
  x : ℚ
  y : ℚ
deriving DecidableEq, Repr

/-- An axis-aligned rectangle given by top-left corner and size
(models `QRectF(x, y, w, h)`); `y` grows downwards as in Qt. -/
structure Rect where
  x : ℚ
  y : ℚ
  w : ℚ
  h : ℚ
deriving DecidableEq, Repr

namespace Rect

def left (r : Rect) : ℚ := r.x
def top (r : Rect) : ℚ := r.y
def right (r : Rect) : ℚ := r.x + r.w
def bottom (r : Rect) : ℚ := r.y + r.h
/-- `QRectF.center()`. -/
def center (r : Rect) : Pt := ⟨r.x + r.w / 2, r.y + r.h / 2⟩

/-- `QRectF.adjusted(dx1, dy1, dx2, dy2)`: moves the left/top edge by
`dx1`/`dy1` and the right/bottom edge by `dx2`/`dy2`. -/
def adjusted (r : Rect) (dx1 dy1 dx2 dy2 : ℚ) : Rect :=
  ⟨r.x + dx1, r.y + dy1, r.w - dx1 + dx2, r.h - dy1 + dy2⟩

end Rect

/-- The epsilon used by `Node.get_border_intersection` to avoid division by
near-zero direction components (`1e-6` in the source). -/
def eps : ℚ := 1 / 1000000

/-- Squared Euclidean distance, the key used by
`min(valid_intersections, key=...)` in `get_border_intersection`. -/
def distSq (a b : Pt) : ℚ := (a.x - b.x) ^ 2 + (a.y - b.y) ^ 2

/-- Python's `min(...)` over a nonempty list with a key function: the first
element with the minimal key is returned (later ties do not replace it). -/
def minByDist (c : Pt) (p : Pt) (ps : List Pt) : Pt :=
  ps.foldl (fun best q => if distSq c q < distSq c best then q else best) p

/-- Candidate for a vertical side at `x = sx` whose y-span is `[lo, hi]`:
present when `abs(dx) > 1e-6` and the y-coordinate of the intersection lies
within the span; carries the ray parameter `t = (sx - c.x) / dx`. -/
def vertCandidate (c point : Pt) (sx lo hi : ℚ) : List (ℚ × Pt) :=
  if eps < |point.x - c.x| then
    if lo ≤ c.y + (sx - c.x) / (point.x - c.x) * (point.y - c.y) ∧
        c.y + (sx - c.x) / (point.x - c.x) * (point.y - c.y) ≤ hi then
      [((sx - c.x) / (point.x - c.x),
        ⟨sx, c.y + (sx - c.x) / (point.x - c.x) * (point.y - c.y)⟩)]
    else []
  else []

/-- Candidate for a horizontal side at `y = sy` whose x-span is `[lo, hi]`. -/
def horizCandidate (c point : Pt) (sy lo hi : ℚ) : List (ℚ × Pt) :=
  if eps < |point.y - c.y| then
    if lo ≤ c.x + (sy - c.y) / (point.y - c.y) * (point.x - c.x) ∧
        c.x + (sy - c.y) / (point.y - c.y) * (point.x - c.x) ≤ hi then
      [((sy - c.y) / (point.y - c.y),
        ⟨c.x + (sy - c.y) / (point.y - c.y) * (point.x - c.x), sy⟩)]
    else []
  else []

/-- The per-side ray/side intersection candidates collected by
`Node.get_border_intersection`, in source order: right, left, bottom, top.
Each entry is `(t, point)` where `t` is the ray parameter from the center. -/
def borderCandidates (rect : Rect) (point : Pt) : List (ℚ × Pt) :=
  vertCandidate rect.center point rect.right rect.top rect.bottom ++
  vertCandidate rect.center point rect.left rect.top rect.bottom ++
  horizCandidate rect.center point rect.bottom rect.left rect.right ++
  horizCandidate rect.center point rect.top rect.left rect.right

/-- `Node.get_border_intersection(point)`, as a pure function of the node's
bounding rectangle: the first crossing of the ray from the rectangle's
center toward `point` with one of the four sides, falling back to the
midpoint of the right side when `point` is the center or no candidate with
positive ray parameter exists. -/
def getBorderIntersection (rect : Rect) (point : Pt) : Pt :=
  let c := rect.center
  if point = c then ⟨rect.right, c.y⟩
  else
    let valid := ((borderCandidates rect point).filter (fun tp => 0 < tp.1)).map Prod.snd
    match valid with
    | [] => ⟨rect.right, c.y⟩
    | p :: ps => minByDist c p ps

/-- The point lies on the rectangle's boundary. -/
def onBoundary (r : Rect) (p : Pt) : Prop :=
  ((p.x = r.left ∨ p.x = r.right) ∧ r.top ≤ p.y ∧ p.y ≤ r.bottom) ∨
  ((p.y = r.top ∨ p.y = r.bottom) ∧ r.left ≤ p.x ∧ p.x ≤ r.right)

/-- The point lies strictly outside the rectangle. -/
def strictlyOutside (r : Rect) (p : Pt) : Prop :=
  p.x < r.left ∨ r.right < p.x ∨ p.y < r.top ∨ r.bottom < p.y

instance (r : Rect) (p : Pt) : Decidable (onBoundary r p) := by
  unfold onBoundary; infer_instance

instance (r : Rect) (p : Pt) : Decidable (strictlyOutside r p) := by
  unfold strictlyOutside; infer_instance

lemma minByDist_cons (c p q : Pt) (qs : List Pt) :
    minByDist c p (q :: qs) =
      minByDist c (if distSq c q < distSq c p then q else p) qs := rfl

lemma minByDist_mem (c : Pt) (p : Pt) (ps : List Pt) :
    minByDist c p ps ∈ p :: ps := by
  induction ps generalizing p with
  | nil => simp [minByDist]
  | cons q qs ih =>
    rw [minByDist_cons]
    rcases List.mem_cons.mp (ih (if distSq c q < distSq c p then q else p)) with h | h
    · rw [h]
      by_cases hc : distSq c q < distSq c p
      · simp [hc]
      · simp [hc]
    · exact List.mem_cons.mpr (Or.inr (List.mem_cons.mpr (Or.inr h)))

lemma mem_vertCandidate {c point : Pt} {sx lo hi : ℚ} {tq : ℚ × Pt}
    (h : tq ∈ vertCandidate c point sx lo hi) :
    eps < |point.x - c.x| ∧
    tq.1 = (sx - c.x) / (point.x - c.x) ∧
    tq.2 = ⟨sx, c.y + tq.1 * (point.y - c.y)⟩ ∧
    lo ≤ tq.2.y ∧ tq.2.y ≤ hi := by
  unfold vertCandidate at h
  split at h
  · split at h
    · rename_i h1 h2
      rcases List.mem_singleton.mp h with rfl
      exact ⟨h1, rfl, rfl, h2.1, h2.2⟩
    · simp at h
  · simp at h

lemma mem_horizCandidate {c point : Pt} {sy lo hi : ℚ} {tq : ℚ × Pt}
    (h : tq ∈ horizCandidate c point sy lo hi) :
    eps < |point.y - c.y| ∧
    tq.1 = (sy - c.y) / (point.y - c.y) ∧
    tq.2 = ⟨c.x + tq.1 * (point.x - c.x), sy⟩ ∧
    lo ≤ tq.2.x ∧ tq.2.x ≤ hi := by
  unfold horizCandidate at h
  split at h
  · split at h
    · rename_i h1 h2
      rcases List.mem_singleton.mp h with rfl
      exact ⟨h1, rfl, rfl, h2.1, h2.2⟩
    · simp at h
  · simp at h

lemma vertCandidate_self_mem {c point : Pt} {sx lo hi : ℚ}
    (h1 : eps < |point.x - c.x|)
    (h2 : lo ≤ c.y + (sx - c.x) / (point.x - c.x) * (point.y - c.y))
    (h3 : c.y + (sx - c.x) / (point.x - c.x) * (point.y - c.y) ≤ hi) :
    ((sx - c.x) / (point.x - c.x),
      (⟨sx, c.y + (sx - c.x) / (point.x - c.x) * (point.y - c.y)⟩ : Pt)) ∈
      vertCandidate c point sx lo hi := by
  unfold vertCandidate
  rw [if_pos h1, if_pos ⟨h2, h3⟩]
  exact List.mem_singleton.mpr rfl

lemma eps_pos : (0 : ℚ) < eps := by norm_num [eps]

/-- Every side candidate lies on the rectangle's boundary and on the ray
from the center toward the target, at its stored ray parameter. -/
lemma candidate_onBoundary_ray {rect : Rect} {point : Pt} {tq : ℚ × Pt}
    (h : tq ∈ borderCandidates rect point) :
    onBoundary rect tq.2 ∧
    tq.2.x = rect.center.x + tq.1 * (point.x - rect.center.x) ∧
    tq.2.y = rect.center.y + tq.1 * (point.y - rect.center.y) := by
  unfold borderCandidates at h
  have vcase : ∀ sx : ℚ, tq ∈ vertCandidate rect.center point sx rect.top rect.bottom →
      (tq.2.x = sx ∧ rect.top ≤ tq.2.y ∧ tq.2.y ≤ rect.bottom) ∧
      tq.2.x = rect.center.x + tq.1 * (point.x - rect.center.x) ∧
      tq.2.y = rect.center.y + tq.1 * (point.y - rect.center.y) := by
    intro sx hm
    obtain ⟨h1, ht, hq, hlo, hhi⟩ := mem_vertCandidate hm
    have hdx : point.x - rect.center.x ≠ 0 := by
      intro h0
      rw [h0] at h1
      exact absurd (lt_trans eps_pos h1) (by norm_num)
    have hx : tq.2.x = sx := by rw [hq]
    refine ⟨⟨hx, hlo, hhi⟩, ?_, ?_⟩
    · rw [hx, ht, div_mul_cancel₀ _ hdx]
      ring
    · rw [hq]
  have hcase : ∀ sy : ℚ, tq ∈ horizCandidate rect.center point sy rect.left rect.right →
      (tq.2.y = sy ∧ rect.left ≤ tq.2.x ∧ tq.2.x ≤ rect.right) ∧
      tq.2.x = rect.center.x + tq.1 * (point.x - rect.center.x) ∧
      tq.2.y = rect.center.y + tq.1 * (point.y - rect.center.y) := by
    intro sy hm
    obtain ⟨h1, ht, hq, hlo, hhi⟩ := mem_horizCandidate hm
    have hdy : point.y - rect.center.y ≠ 0 := by
      intro h0
      rw [h0] at h1
      exact absurd (lt_trans eps_pos h1) (by norm_num)
    have hy : tq.2.y = sy := by rw [hq]
    refine ⟨⟨hy, hlo, hhi⟩, ?_, ?_⟩
    · rw [hq]
    · rw [hy, ht, div_mul_cancel₀ _ hdy]
      ring
  rcases List.mem_append.mp h with h' | h'
  · rcases List.mem_append.mp h' with h'' | h''
    · rcases List.mem_append.mp h'' with hm | hm
      · obtain ⟨⟨hx, hlo, hhi⟩, hrx, hry⟩ := vcase rect.right hm
        exact ⟨Or.inl ⟨Or.inr hx, hlo, hhi⟩, hrx, hry⟩
      · obtain ⟨⟨hx, hlo, hhi⟩, hrx, hry⟩ := vcase rect.left hm
        exact ⟨Or.inl ⟨Or.inl hx, hlo, hhi⟩, hrx, hry⟩
    · obtain ⟨⟨hy, hlo, hhi⟩, hrx, hry⟩ := hcase rect.bottom h''
      exact ⟨Or.inr ⟨Or.inr hy, hlo, hhi⟩, hrx, hry⟩
  · obtain ⟨⟨hy, hlo, hhi⟩, hrx, hry⟩ := hcase rect.top h'
    exact ⟨Or.inr ⟨Or.inl hy, hlo, hhi⟩, hrx, hry⟩

/-- A boundary point on the ray with positive parameter sits strictly
before the target whenever the target is strictly outside. -/
lemma candidate_t_lt_one {rect : Rect} {point : Pt} {t : ℚ} {q : Pt}
    (hw : 0 ≤ rect.w) (hh : 0 ≤ rect.h)
    (hb : onBoundary rect q)
    (hqx : q.x = rect.center.x + t * (point.x - rect.center.x))
    (hqy : q.y = rect.center.y + t * (point.y - rect.center.y))
    (hout : strictlyOutside rect point) : t < 1 := by
  by_contra hle
  push_neg at hle
  obtain ⟨X, Y, W, H⟩ := rect
  obtain ⟨qx, qy⟩ := q
  obtain ⟨px, py⟩ := point
  simp only [Rect.left, Rect.top, Rect.right, Rect.bottom, Rect.center,
    onBoundary, strictlyOutside] at hb hout hqx hqy hw hh ⊢
  have hqxb : X ≤ qx ∧ qx ≤ X + W := by
    rcases hb with ⟨hx, _, _⟩ | ⟨_, hx1, hx2⟩
    · rcases hx with hx | hx <;> exact ⟨by linarith, by linarith⟩
    · exact ⟨hx1, hx2⟩
  have hqyb : Y ≤ qy ∧ qy ≤ Y + H := by
    rcases hb with ⟨_, hy1, hy2⟩ | ⟨hy, _, _⟩
    · exact ⟨hy1, hy2⟩
    · rcases hy with hy | hy <;> exact ⟨by linarith, by linarith⟩
  have hpx : X ≤ px ∧ px ≤ X + W := by
    constructor
    · rcases le_or_lt (X + W / 2) px with hc | hc
      · linarith
      · nlinarith [mul_nonneg (by linarith : (0:ℚ) ≤ t - 1)
          (by linarith : (0:ℚ) ≤ X + W / 2 - px)]
    · rcases le_or_lt px (X + W / 2) with hc | hc
      · linarith
      · nlinarith [mul_nonneg (by linarith : (0:ℚ) ≤ t - 1)
          (by linarith : (0:ℚ) ≤ px - (X + W / 2))]
  have hpy : Y ≤ py ∧ py ≤ Y + H := by
    constructor
    · rcases le_or_lt (Y + H / 2) py with hc | hc
      · linarith
      · nlinarith [mul_nonneg (by linarith : (0:ℚ) ≤ t - 1)
          (by linarith : (0:ℚ) ≤ Y + H / 2 - py)]
    · rcases le_or_lt py (Y + H / 2) with hc | hc
      · linarith
      · nlinarith [mul_nonneg (by linarith : (0:ℚ) ≤ t - 1)
          (by linarith : (0:ℚ) ≤ py - (Y + H / 2))]
  rcases hout with h | h | h | h <;> linarith [hpx.1, hpx.2, hpy.1, hpy.2]

lemma horizCandidate_self_mem {c point : Pt} {sy lo hi : ℚ}
    (h1 : eps < |point.y - c.y|)
    (h2 : lo ≤ c.x + (sy - c.y) / (point.y - c.y) * (point.x - c.x))
    (h3 : c.x + (sy - c.y) / (point.y - c.y) * (point.x - c.x) ≤ hi) :
    ((sy - c.y) / (point.y - c.y),
      (⟨c.x + (sy - c.y) / (point.y - c.y) * (point.x - c.x), sy⟩ : Pt)) ∈
      horizCandidate c point sy lo hi := by
  unfold horizCandidate
  rw [if_pos h1, if_pos ⟨h2, h3⟩]
  exact List.mem_singleton.mpr rfl

lemma bc_right_mem {rect : Rect} {point : Pt} {tq : ℚ × Pt}
    (h : tq ∈ vertCandidate rect.center point rect.right rect.top rect.bottom) :
    tq ∈ borderCandidates rect point :=
  List.mem_append.mpr (Or.inl (List.mem_append.mpr (Or.inl (List.mem_append.mpr (Or.inl h)))))

lemma bc_left_mem {rect : Rect} {point : Pt} {tq : ℚ × Pt}
    (h : tq ∈ vertCandidate rect.center point rect.left rect.top rect.bottom) :
    tq ∈ borderCandidates rect point :=
  List.mem_append.mpr (Or.inl (List.mem_append.mpr (Or.inl (List.mem_append.mpr (Or.inr h)))))

lemma bc_bottom_mem {rect : Rect} {point : Pt} {tq : ℚ × Pt}
    (h : tq ∈ horizCandidate rect.center point rect.bottom rect.left rect.right) :
    tq ∈ borderCandidates rect point :=
  List.mem_append.mpr (Or.inl (List.mem_append.mpr (Or.inr h)))

lemma bc_top_mem {rect : Rect} {point : Pt} {tq : ℚ × Pt}
    (h : tq ∈ horizCandidate rect.center point rect.top rect.left rect.right) :
    tq ∈ borderCandidates rect point :=
  List.mem_append.mpr (Or.inr h)

lemma qa_t_lt_one_neg {n u : ℚ} (hu : u < 0) (hlt : u < n) : n / u < 1 := by
  have h1 : (n - u) / u < 0 := div_neg_of_pos_of_neg (by linarith) hu
  have h2 : (n - u) / u = n / u - 1 := by
    rw [sub_div, div_self (ne_of_lt hu)]
  linarith

lemma qa_neg_of_mul_neg {t v : ℚ} (ht : 0 < t) (h : t * v < 0) : v < 0 := by
  by_contra hcon
  push_neg at hcon
  nlinarith [mul_nonneg ht.le hcon]

lemma qa_pos_of_mul_pos {t v : ℚ} (ht : 0 < t) (h : 0 < t * v) : 0 < v := by
  by_contra hcon
  push_neg at hcon
  nlinarith [mul_nonpos_of_nonneg_of_nonpos ht.le hcon]

lemma qa_exceed {t v m : ℚ} (ht0 : 0 < t) (ht1 : t < 1) (hm : 0 < m)
    (h : m < t * v) : m < v := by
  have hv : 0 < v := qa_pos_of_mul_pos ht0 (by linarith)
  nlinarith [mul_pos (by linarith : (0:ℚ) < 1 - t) hv]

lemma qa_exceed_neg {t v m : ℚ} (ht0 : 0 < t) (ht1 : t < 1) (hm : m < 0)
    (h : t * v < m) : v < m := by
  have hv : v < 0 := qa_neg_of_mul_neg ht0 (by linarith)
  nlinarith [mul_pos (by linarith : (0:ℚ) < 1 - t) (by linarith : (0:ℚ) < -v)]

lemma qa_gt_of_mul_lt_neg {a b v : ℚ} (h : a * v < b * v) (hv : v < 0) : b < a := by
  by_contra hcon
  push_neg at hcon
  nlinarith [mul_nonneg (by linarith : (0:ℚ) ≤ b - a) (by linarith : (0:ℚ) ≤ -v)]

lemma qa_deflect_low {l c u t1 t2 : ℚ} (h1 : t1 * u = l - c) (h2 : t2 < t1)
    (hu : u < 0) : l ≤ c + t2 * u := by
  nlinarith [mul_pos (by linarith : (0:ℚ) < t1 - t2) (by linarith : (0:ℚ) < -u)]

lemma qa_deflect_high {c r u t : ℚ} (ht : 0 < t) (hu : u < 0) (hcr : c ≤ r) :
    c + t * u ≤ r := by
  nlinarith [mul_pos ht (by linarith : (0:ℚ) < -u)]

lemma qa_deflect_high' {r c u t1 t2 : ℚ} (h1 : t1 * u = r - c) (h2 : t2 < t1)
    (hu : 0 < u) : c + t2 * u ≤ r := by
  nlinarith [mul_pos (by linarith : (0:ℚ) < t1 - t2) hu]

lemma qa_deflect_low' {l c u t : ℚ} (ht : 0 < t) (hu : 0 < u) (hlc : l ≤ c) :
    l ≤ c + t * u := by
  nlinarith [mul_pos ht hu]

lemma qa_strip {t u w2 : ℚ} (ht0 : 0 < t) (ht1 : t < 1) (hu : |u| ≤ w2) :
    |t * u| ≤ w2 := by
  rw [abs_mul, abs_of_pos ht0]
  calc t * |u| ≤ 1 * |u| := mul_le_mul_of_nonneg_right ht1.le (abs_nonneg _)
    _ = |u| := one_mul _
    _ ≤ w2 := hu

/-- For a rectangle whose sides exceed the `2e-6` epsilon scale and a target
strictly outside it, at least one side candidate has a positive ray
parameter (the ray from the center leaves the rectangle through a side). -/
lemma exists_pos_candidate (rect : Rect) (point : Pt)
    (hw : 2 * eps ≤ rect.w) (hh : 2 * eps ≤ rect.h)
    (hout : strictlyOutside rect point) :
    ∃ tq ∈ borderCandidates rect point, 0 < tq.1 := by
  have he := eps_pos
  have hW : 0 < rect.w := by linarith
  have hH : 0 < rect.h := by linarith
  have hcl : rect.center.x - rect.left = rect.w / 2 := by
    simp only [Rect.center, Rect.left]; ring
  have hcr : rect.right - rect.center.x = rect.w / 2 := by
    simp only [Rect.center, Rect.right]; ring
  have hct : rect.center.y - rect.top = rect.h / 2 := by
    simp only [Rect.center, Rect.top]; ring
  have hcb : rect.bottom - rect.center.y = rect.h / 2 := by
    simp only [Rect.center, Rect.bottom]; ring
  rcases lt_or_le point.x rect.left with hA | hxl
  · -- target left of the rectangle
    have hdx : point.x - rect.center.x < 0 := by linarith
    have habs : eps < |point.x - rect.center.x| := by
      rw [abs_of_neg hdx]; linarith
    have hdxne : point.x - rect.center.x ≠ 0 := ne_of_lt hdx
    have htL : (rect.left - rect.center.x) / (point.x - rect.center.x) *
        (point.x - rect.center.x) = rect.left - rect.center.x :=
      div_mul_cancel₀ _ hdxne
    have htLpos : 0 < (rect.left - rect.center.x) / (point.x - rect.center.x) :=
      div_pos_iff.mpr (Or.inr ⟨by linarith, hdx⟩)
    have htLlt1 : (rect.left - rect.center.x) / (point.x - rect.center.x) < 1 :=
      qa_t_lt_one_neg hdx (by linarith)
    by_cases hy : rect.top ≤ rect.center.y +
          (rect.left - rect.center.x) / (point.x - rect.center.x) * (point.y - rect.center.y) ∧
        rect.center.y +
          (rect.left - rect.center.x) / (point.x - rect.center.x) * (point.y - rect.center.y) ≤
          rect.bottom
    · exact ⟨_, bc_left_mem (vertCandidate_self_mem habs hy.1 hy.2), htLpos⟩
    · rcases not_and_or.mp hy with hy1 | hy2
      · -- the left-side crossing misses the span above: exit through the top
        push_neg at hy1
        have hyT : (rect.left - rect.center.x) / (point.x - rect.center.x) *
            (point.y - rect.center.y) < -(rect.h / 2) := by linarith
        have hdyneg : point.y - rect.center.y < 0 :=
          qa_neg_of_mul_neg htLpos (by linarith)
        have hdyne : point.y - rect.center.y ≠ 0 := ne_of_lt hdyneg
        have hdyh : point.y - rect.center.y < -(rect.h / 2) :=
          qa_exceed_neg htLpos htLlt1 (by linarith) hyT
        have habsy : eps < |point.y - rect.center.y| := by
          rw [abs_of_neg hdyneg]; linarith
        have htT : (rect.top - rect.center.y) / (point.y - rect.center.y) *
            (point.y - rect.center.y) = rect.top - rect.center.y :=
          div_mul_cancel₀ _ hdyne
        have htTpos : 0 < (rect.top - rect.center.y) / (point.y - rect.center.y) :=
          div_pos_iff.mpr (Or.inr ⟨by linarith, hdyneg⟩)
        have htTltL : (rect.top - rect.center.y) / (point.y - rect.center.y) <
            (rect.left - rect.center.x) / (point.x - rect.center.x) :=
          qa_gt_of_mul_lt_neg (by rw [htT]; linarith) hdyneg
        have hx1 : rect.left ≤ rect.center.x +
            (rect.top - rect.center.y) / (point.y - rect.center.y) *
              (point.x - rect.center.x) :=
          qa_deflect_low htL htTltL hdx
        have hx2 : rect.center.x +
            (rect.top - rect.center.y) / (point.y - rect.center.y) *
              (point.x - rect.center.x) ≤ rect.right :=
          qa_deflect_high htTpos hdx (by linarith)
        exact ⟨_, bc_top_mem (horizCandidate_self_mem habsy hx1 hx2), htTpos⟩
      · -- the left-side crossing misses the span below: exit through the bottom
        push_neg at hy2
        have hyB : rect.h / 2 < (rect.left - rect.center.x) / (point.x - rect.center.x) *
            (point.y - rect.center.y) := by linarith
        have hdypos : 0 < point.y - rect.center.y :=
          qa_pos_of_mul_pos htLpos (by linarith)
        have hdyne : point.y - rect.center.y ≠ 0 := ne_of_gt hdypos
        have hdyh : rect.h / 2 < point.y - rect.center.y :=
          qa_exceed htLpos htLlt1 (by linarith) hyB
        have habsy : eps < |point.y - rect.center.y| := by
          rw [abs_of_pos hdypos]; linarith
        have htB : (rect.bottom - rect.center.y) / (point.y - rect.center.y) *
            (point.y - rect.center.y) = rect.bottom - rect.center.y :=
          div_mul_cancel₀ _ hdyne
        have htBpos : 0 < (rect.bottom - rect.center.y) / (point.y - rect.center.y) :=
          div_pos (by linarith) hdypos
        have htBltL : (rect.bottom - rect.center.y) / (point.y - rect.center.y) <
            (rect.left - rect.center.x) / (point.x - rect.center.x) :=
          lt_of_mul_lt_mul_right (by rw [htB]; linarith) hdypos.le
        have hx1 : rect.left ≤ rect.center.x +
            (rect.bottom - rect.center.y) / (point.y - rect.center.y) *
              (point.x - rect.center.x) :=
          qa_deflect_low htL htBltL hdx
        have hx2 : rect.center.x +
            (rect.bottom - rect.center.y) / (point.y - rect.center.y) *
              (point.x - rect.center.x) ≤ rect.right :=
          qa_deflect_high htBpos hdx (by linarith)
        exact ⟨_, bc_bottom_mem (horizCandidate_self_mem habsy hx1 hx2), htBpos⟩
  · rcases lt_or_le rect.right point.x with hB | hxr
    · -- target right of the rectangle
      have hdx : 0 < point.x - rect.center.x := by linarith
      have habs : eps < |point.x - rect.center.x| := by
        rw [abs_of_pos hdx]; linarith
      have hdxne : point.x - rect.center.x ≠ 0 := ne_of_gt hdx
      have htR : (rect.right - rect.center.x) / (point.x - rect.center.x) *
          (point.x - rect.center.x) = rect.right - rect.center.x :=
        div_mul_cancel₀ _ hdxne
      have htRpos : 0 < (rect.right - rect.center.x) / (point.x - rect.center.x) :=
        div_pos (by linarith) hdx
      have htRlt1 : (rect.right - rect.center.x) / (point.x - rect.center.x) < 1 :=
        (div_lt_one hdx).mpr (by linarith)
      by_cases hy : rect.top ≤ rect.center.y +
            (rect.right - rect.center.x) / (point.x - rect.center.x) *
              (point.y - rect.center.y) ∧
          rect.center.y +
            (rect.right - rect.center.x) / (point.x - rect.center.x) *
              (point.y - rect.center.y) ≤ rect.bottom
      · exact ⟨_, bc_right_mem (vertCandidate_self_mem habs hy.1 hy.2), htRpos⟩
      · rcases not_and_or.mp hy with hy1 | hy2
        · push_neg at hy1
          have hyT : (rect.right - rect.center.x) / (point.x - rect.center.x) *
              (point.y - rect.center.y) < -(rect.h / 2) := by linarith
          have hdyneg : point.y - rect.center.y < 0 :=
            qa_neg_of_mul_neg htRpos (by linarith)
          have hdyne : point.y - rect.center.y ≠ 0 := ne_of_lt hdyneg
          have hdyh : point.y - rect.center.y < -(rect.h / 2) :=
            qa_exceed_neg htRpos htRlt1 (by linarith) hyT
          have habsy : eps < |point.y - rect.center.y| := by
            rw [abs_of_neg hdyneg]; linarith
          have htT : (rect.top - rect.center.y) / (point.y - rect.center.y) *
              (point.y - rect.center.y) = rect.top - rect.center.y :=
            div_mul_cancel₀ _ hdyne
          have htTpos : 0 < (rect.top - rect.center.y) / (point.y - rect.center.y) :=
            div_pos_iff.mpr (Or.inr ⟨by linarith, hdyneg⟩)
          have htTltR : (rect.top - rect.center.y) / (point.y - rect.center.y) <
              (rect.right - rect.center.x) / (point.x - rect.center.x) :=
            qa_gt_of_mul_lt_neg (by rw [htT]; linarith) hdyneg
          have hx1 : rect.left ≤ rect.center.x +
              (rect.top - rect.center.y) / (point.y - rect.center.y) *
                (point.x - rect.center.x) :=
            qa_deflect_low' htTpos hdx (by linarith)
          have hx2 : rect.center.x +
              (rect.top - rect.center.y) / (point.y - rect.center.y) *
                (point.x - rect.center.x) ≤ rect.right :=
            qa_deflect_high' htR htTltR hdx
          exact ⟨_, bc_top_mem (horizCandidate_self_mem habsy hx1 hx2), htTpos⟩
        · push_neg at hy2
          have hyB : rect.h / 2 < (rect.right - rect.center.x) / (point.x - rect.center.x) *
              (point.y - rect.center.y) := by linarith
          have hdypos : 0 < point.y - rect.center.y :=
            qa_pos_of_mul_pos htRpos (by linarith)
          have hdyne : point.y - rect.center.y ≠ 0 := ne_of_gt hdypos
          have hdyh : rect.h / 2 < point.y - rect.center.y :=
            qa_exceed htRpos htRlt1 (by linarith) hyB
          have habsy : eps < |point.y - rect.center.y| := by
            rw [abs_of_pos hdypos]; linarith
          have htB : (rect.bottom - rect.center.y) / (point.y - rect.center.y) *
              (point.y - rect.center.y) = rect.bottom - rect.center.y :=
            div_mul_cancel₀ _ hdyne
          have htBpos : 0 < (rect.bottom - rect.center.y) / (point.y - rect.center.y) :=
            div_pos (by linarith) hdypos
          have htBltR : (rect.bottom - rect.center.y) / (point.y - rect.center.y) <
              (rect.right - rect.center.x) / (point.x - rect.center.x) :=
            lt_of_mul_lt_mul_right (by rw [htB]; linarith) hdypos.le
          have hx1 : rect.left ≤ rect.center.x +
              (rect.bottom - rect.center.y) / (point.y - rect.center.y) *
                (point.x - rect.center.x) :=
            qa_deflect_low' htBpos hdx (by linarith)
          have hx2 : rect.center.x +
              (rect.bottom - rect.center.y) / (point.y - rect.center.y) *
                (point.x - rect.center.x) ≤ rect.right :=
            qa_deflect_high' htR htBltR hdx
          exact ⟨_, bc_bottom_mem (horizCandidate_self_mem habsy hx1 hx2), htBpos⟩
    · -- target within the horizontal span: it is above or below the rectangle
      have hdxabs : |point.x - rect.center.x| ≤ rect.w / 2 := by
        rw [abs_le]; constructor <;> linarith
      rcases hout with h | h | h | h
      · exact absurd h (not_lt.mpr hxl)
      · exact absurd h (not_lt.mpr hxr)
      · -- above the top: exit through the top side directly
        have hdyneg : point.y - rect.center.y < 0 := by linarith
        have hdyne : point.y - rect.center.y ≠ 0 := ne_of_lt hdyneg
        have habsy : eps < |point.y - rect.center.y| := by
          rw [abs_of_neg hdyneg]; linarith
        have htTpos : 0 < (rect.top - rect.center.y) / (point.y - rect.center.y) :=
          div_pos_iff.mpr (Or.inr ⟨by linarith, hdyneg⟩)
        have htTlt1 : (rect.top - rect.center.y) / (point.y - rect.center.y) < 1 :=
          qa_t_lt_one_neg hdyneg (by linarith)
        have hb1 : |(rect.top - rect.center.y) / (point.y - rect.center.y) *
            (point.x - rect.center.x)| ≤ rect.w / 2 :=
          qa_strip htTpos htTlt1 hdxabs
        have hb2 := abs_le.mp hb1
        have hx1 : rect.left ≤ rect.center.x +
            (rect.top - rect.center.y) / (point.y - rect.center.y) *
              (point.x - rect.center.x) := by linarith [hb2.1]
        have hx2 : rect.center.x +
            (rect.top - rect.center.y) / (point.y - rect.center.y) *
              (point.x - rect.center.x) ≤ rect.right := by linarith [hb2.2]
        exact ⟨_, bc_top_mem (horizCandidate_self_mem habsy hx1 hx2), htTpos⟩
      · -- below the bottom: exit through the bottom side directly
        have hdypos : 0 < point.y - rect.center.y := by linarith
        have hdyne : point.y - rect.center.y ≠ 0 := ne_of_gt hdypos
        have habsy : eps < |point.y - rect.center.y| := by
          rw [abs_of_pos hdypos]; linarith
        have htBpos : 0 < (rect.bottom - rect.center.y) / (point.y - rect.center.y) :=
          div_pos (by linarith) hdypos
        have htBlt1 : (rect.bottom - rect.center.y) / (point.y - rect.center.y) < 1 :=
          (div_lt_one hdypos).mpr (by linarith)
        have hb1 : |(rect.bottom - rect.center.y) / (point.y - rect.center.y) *
            (point.x - rect.center.x)| ≤ rect.w / 2 :=
          qa_strip htBpos htBlt1 hdxabs
        have hb2 := abs_le.mp hb1
        have hx1 : rect.left ≤ rect.center.x +
            (rect.bottom - rect.center.y) / (point.y - rect.center.y) *
              (point.x - rect.center.x) := by linarith [hb2.1]
        have hx2 : rect.center.x +
            (rect.bottom - rect.center.y) / (point.y - rect.center.y) *
              (point.x - rect.center.x) ≤ rect.right := by linarith [hb2.2]
        exact ⟨_, bc_bottom_mem (horizCandidate_self_mem habsy hx1 hx2), htBpos⟩

lemma center_not_outside (rect : Rect) (hw : 0 < rect.w) (hh : 0 < rect.h) :
    ¬ strictlyOutside rect rect.center := by
  intro h
  rcases h with h | h | h | h <;>
    simp only [Rect.center, Rect.left, Rect.top, Rect.right, Rect.bottom] at h <;> linarith

/-- Main geometric content of the border-intersection contract: for a target
strictly outside, the returned point is on the boundary and strictly between
the center and the target. -/
lemma borderIntersection_exit (rect : Rect) (point : Pt)
    (hw : 2 * eps ≤ rect.w) (hh : 2 * eps ≤ rect.h)
    (hout : strictlyOutside rect point) :
    onBoundary rect (getBorderIntersection rect point) ∧
    ∃ s : ℚ, 0 < s ∧ s < 1 ∧
      (getBorderIntersection rect point).x = rect.center.x + s * (point.x - rect.center.x) ∧
      (getBorderIntersection rect point).y = rect.center.y + s * (point.y - rect.center.y) := by
  have he := eps_pos
  have hne : point ≠ rect.center := by
    intro h
    exact center_not_outside rect (by linarith) (by linarith) (h ▸ hout)
  obtain ⟨tq, htq_mem, htq_pos⟩ := exists_pos_candidate rect point hw hh hout
  have hvalid_mem : tq.2 ∈
      ((borderCandidates rect point).filter fun tp => 0 < tp.1).map Prod.snd :=
    List.mem_map_of_mem _ (List.mem_filter.mpr ⟨htq_mem, by simpa using htq_pos⟩)
  simp only [getBorderIntersection, if_neg hne]
  cases hv : ((borderCandidates rect point).filter fun tp => 0 < tp.1).map Prod.snd with
  | nil =>
    rw [hv] at hvalid_mem
    simp at hvalid_mem
  | cons p ps =>
    have hmem := minByDist_mem rect.center p ps
    rw [← hv] at hmem
    obtain ⟨tq', htq'c, htq'eq⟩ := List.mem_map.mp hmem
    obtain ⟨htq'mem, htq'pos⟩ := List.mem_filter.mp htq'c
    have hpos' : 0 < tq'.1 := by simpa using htq'pos
    obtain ⟨hb, hx, hy⟩ := candidate_onBoundary_ray htq'mem
    rw [htq'eq] at hb hx hy
    exact ⟨hb, tq'.1, hpos',
      candidate_t_lt_one (by linarith) (by linarith) hb hx hy hout, hx, hy⟩

/-- C3: the border-intersection function.  (a) When the target equals the
center it returns the midpoint of the right side.  (b) When no candidate
with positive ray parameter exists it falls back to the same point.
(c) For any rectangle whose sides are non-degenerate (beyond the 1e-6
epsilon scale tolerated by the source) and any target strictly outside it,
the returned point lies on the rectangle's boundary and strictly between
the center and the target on the segment joining them — i.e. it is the
crossing of the ray from the center toward the target with the boundary. -/
theorem C3_border_intersection :
    (∀ rect : Rect, getBorderIntersection rect rect.center =
      ⟨rect.right, rect.center.y⟩) ∧
    (∀ (rect : Rect) (point : Pt), point ≠ rect.center →
      ((borderCandidates rect point).filter fun tp => 0 < tp.1) = [] →
      getBorderIntersection rect point = ⟨rect.right, rect.center.y⟩) ∧
    (∀ (rect : Rect) (point : Pt), 2 * eps ≤ rect.w → 2 * eps ≤ rect.h →
      strictlyOutside rect point →
      onBoundary rect (getBorderIntersection rect point) ∧
      ∃ s : ℚ, 0 < s ∧ s < 1 ∧
        (getBorderIntersection rect point).x =
          rect.center.x + s * (point.x - rect.center.x) ∧
        (getBorderIntersection rect point).y =
          rect.center.y + s * (point.y - rect.center.y)) := by
  refine ⟨?_, ?_, ?_⟩
  · intro rect
    simp [getBorderIntersection]
  · intro rect point hne hempty
    simp only [getBorderIntersection, if_neg hne, hempty, List.map_nil]
  · intro rect point hw hh hout
    exact borderIntersection_exit rect point hw hh hout

/-- Witness for C3 at the concrete rectangle `(0,0,200,100)` and target
`(300, 50)`: the hypotheses hold and the returned point `(200, 50)` lies on
the boundary, halfway between center `(100, 50)` and target. -/
theorem C3_border_intersection_witness :
    (2 * eps ≤ (200:ℚ) ∧ 2 * eps ≤ (100:ℚ) ∧
      strictlyOutside ⟨0, 0, 200, 100⟩ ⟨300, 50⟩) ∧
    (onBoundary ⟨0, 0, 200, 100⟩
        (getBorderIntersection ⟨0, 0, 200, 100⟩ ⟨300, 50⟩) ∧
      ∃ s : ℚ, 0 < s ∧ s < 1 ∧
        (getBorderIntersection ⟨0, 0, 200, 100⟩ ⟨300, 50⟩).x =
          (Rect.center ⟨0, 0, 200, 100⟩).x + s * (300 - (Rect.center ⟨0, 0, 200, 100⟩).x) ∧
        (getBorderIntersection ⟨0, 0, 200, 100⟩ ⟨300, 50⟩).y =
          (Rect.center ⟨0, 0, 200, 100⟩).y + s * (50 - (Rect.center ⟨0, 0, 200, 100⟩).y)) :=
  ⟨⟨by norm_num [eps], by norm_num [eps],
      by norm_num [strictlyOutside, Rect.left, Rect.right, Rect.top, Rect.bottom]⟩,
    C3_border_intersection.2.2 ⟨0, 0, 200, 100⟩ ⟨300, 50⟩
      (by norm_num [eps]) (by norm_num [eps])
      (by norm_num [strictlyOutside, Rect.left, Rect.right, Rect.top, Rect.bottom])⟩

/-! ## Edge routing (`edge.py`, `Edge.update_path`) -/

/-- The padding `Node.boundingRect` adds around `Node.rect`:
`max(2, border_width / 2 + 2)` with `border_width = 3`. -/
def nodePad : ℚ := 7 / 2

/-- `Node.boundingRect()`: the node rect adjusted outwards by the padding. -/
def nodeBoundingRect (r : Rect) : Rect :=
  r.adjusted (-nodePad) (-nodePad) nodePad nodePad

/-- The data of a node an edge endpoint can bind to: its scene position
(`scenePos()`, the origin of its local coordinate system) and its local
rectangle. -/
structure ENode where
  pos : Pt
  rect : Rect
deriving DecidableEq, Repr

/-- `QGraphicsItem.mapToScene` for an untransformed item. -/
def ENode.mapToScene (n : ENode) (p : Pt) : Pt := ⟨n.pos.x + p.x, n.pos.y + p.y⟩

/-- `QGraphicsItem.mapFromScene` for an untransformed item. -/
def ENode.mapFromScene (n : ENode) (p : Pt) : Pt := ⟨p.x - n.pos.x, p.y - n.pos.y⟩

/-- The state of an `Edge` relevant to path computation: raw endpoint
positions, optionally bound nodes, stored endpoint offsets
(`start_offset` / `end_offset`), control-point offsets (`None` when the
control points have not been created), and the waypoint ratio. -/
structure EdgeSt where
  startPos : Pt
  endPos : Pt
  startNode : Option ENode
  endNode : Option ENode
  startOff : Option Pt
  endOff : Option Pt
  startCtl : Option Pt
  endCtl : Option Pt
  waypointRatio : ℚ
deriving Repr

/-- `Edge.get_connection_point(is_start)`.  A control-point offset is used
when the control exists and its offset is truthy (PyQt's `QPointF` is falsy
exactly when it is the null point `(0, 0)`); otherwise the stored offset;
otherwise the border intersection toward the other endpoint. -/
def getConnectionPoint (e : EdgeSt) (isStart : Bool) : Pt :=
  let node? := if isStart then e.startNode else e.endNode
  let offset0 := if isStart then e.startOff else e.endOff
  let ctl := if isStart then e.startCtl else e.endCtl
  let otherNode := if isStart then e.endNode else e.startNode
  match node? with
  | none => if isStart then e.startPos else e.endPos
  | some node =>
    let offset := match ctl with
      | some q => if q ≠ ⟨0, 0⟩ then some q else offset0
      | none => offset0
    match offset with
    | some off => node.mapToScene off
    | none =>
      let otherCenter := match otherNode with
        | some other => other.pos
        | none => if isStart then e.endPos else e.startPos
      node.mapToScene
        (getBorderIntersection (nodeBoundingRect node.rect)
          (node.mapFromScene otherCenter))

/-- `Edge.update_path()`: the polyline actually set on the
`QGraphicsPathItem`.  Orthogonal 4-point routing when BOTH nodes are
connected; otherwise a straight 2-point line whose start is the start
node's border intersection when (and only when) the start node is bound. -/
def updatePath (e : EdgeSt) : List Pt :=
  let endPos := match e.endNode with | some n => n.pos | none => e.endPos
  match e.startNode, e.endNode with
  | some _, some _ =>
    let p0 := getConnectionPoint e true
    let p1 := getConnectionPoint e false
    let midX := p0.x + (p1.x - p0.x) * e.waypointRatio
    [p0, ⟨midX, p0.y⟩, ⟨midX, p1.y⟩, p1]
  | _, _ =>
    let actualStart := match e.startNode with
      | some n =>
        n.mapToScene
          (getBorderIntersection (nodeBoundingRect n.rect) (n.mapFromScene endPos))
      | none => e.startPos
    [actualStart, endPos]

/-- C1 (amended): (a) when both endpoints are bound to nodes, the rendered
path is exactly the 4-point polyline `P0 → (mx, P0.y) → (mx, P1.y) → P1`
with `mx = P0.x + waypoint_ratio * (P1.x - P0.x)` over the two connection
points `P0`, `P1` — the path is a pure function of the current edge state,
hence identical whenever it is recomputed after a move; (b) when the start
endpoint is bound and the end is free, the path is the 2-point straight
line from the start node's border intersection (toward the free end point)
to the free end point; (c) when the start endpoint is unbound, the path is
the straight line from the raw start point to the end position (the bound
end node's origin when the end is bound) with no border intersection
applied. -/
theorem C1_update_path :
    (∀ (e : EdgeSt) (sn en : ENode), e.startNode = some sn → e.endNode = some en →
      updatePath e =
        [getConnectionPoint e true,
         ⟨(getConnectionPoint e true).x +
            e.waypointRatio *
              ((getConnectionPoint e false).x - (getConnectionPoint e true).x),
          (getConnectionPoint e true).y⟩,
         ⟨(getConnectionPoint e true).x +
            e.waypointRatio *
              ((getConnectionPoint e false).x - (getConnectionPoint e true).x),
          (getConnectionPoint e false).y⟩,
         getConnectionPoint e false]) ∧
    (∀ (e : EdgeSt) (sn : ENode), e.startNode = some sn → e.endNode = none →
      updatePath e =
        [sn.mapToScene
            (getBorderIntersection (nodeBoundingRect sn.rect)
              (sn.mapFromScene e.endPos)),
         e.endPos]) ∧
    (∀ (e : EdgeSt) (en : ENode), e.startNode = none → e.endNode = some en →
      updatePath e = [e.startPos, en.pos]) ∧
    (∀ e : EdgeSt, e.startNode = none → e.endNode = none →
      updatePath e = [e.startPos, e.endPos]) := by
  refine ⟨?_, ?_, ?_, ?_⟩
  · intro e sn en h1 h2
    obtain ⟨sp, ep, sn', en', so, eo, sc, ec, r⟩ := e
    simp only at h1 h2
    subst h1; subst h2
    simp only [updatePath, Pt.mk.injEq, List.cons.injEq, and_true, true_and]
    constructor <;> ring
  · intro e sn h1 h2
    obtain ⟨sp, ep, sn', en', so, eo, sc, ec, r⟩ := e
    simp only at h1 h2
    subst h1; subst h2
    rfl
  · intro e en h1 h2
    obtain ⟨sp, ep, sn', en', so, eo, sc, ec, r⟩ := e
    simp only at h1 h2
    subst h1; subst h2
    rfl
  · intro e h1 h2
    obtain ⟨sp, ep, sn', en', so, eo, sc, ec, r⟩ := e
    simp only at h1 h2
    subst h1; subst h2
    rfl

/-- Witness for C1 at a fully connected edge realizing the spec's own
scenario: nodes at `(0,0)` (200×100) and `(300,0)`, connection points
pinned at `(200,50)` and `(0,50)` local, ratio `1/2`; the rendered path is
`(200,50) → (250,50) → (250,50) → (300,50)`. -/
theorem C1_update_path_witness :
    (EdgeSt.startNode
        ⟨⟨0, 0⟩, ⟨0, 0⟩, some ⟨⟨0, 0⟩, ⟨0, 0, 200, 100⟩⟩,
          some ⟨⟨300, 0⟩, ⟨0, 0, 200, 100⟩⟩, some ⟨200, 50⟩, some ⟨0, 50⟩,
          some ⟨200, 50⟩, some ⟨0, 50⟩, 1/2⟩ =
        some ⟨⟨0, 0⟩, ⟨0, 0, 200, 100⟩⟩) ∧
    updatePath
        ⟨⟨0, 0⟩, ⟨0, 0⟩, some ⟨⟨0, 0⟩, ⟨0, 0, 200, 100⟩⟩,
          some ⟨⟨300, 0⟩, ⟨0, 0, 200, 100⟩⟩, some ⟨200, 50⟩, some ⟨0, 50⟩,
          some ⟨200, 50⟩, some ⟨0, 50⟩, 1/2⟩ =
      [⟨200, 50⟩, ⟨250, 50⟩, ⟨250, 50⟩, ⟨300, 50⟩] := by
  constructor
  · rfl
  · rw [C1_update_path.1 _ ⟨⟨0, 0⟩, ⟨0, 0, 200, 100⟩⟩ ⟨⟨300, 0⟩, ⟨0, 0, 200, 100⟩⟩ rfl rfl]
    norm_num [getConnectionPoint, ENode.mapToScene, Pt.mk.injEq]

/-- Counterexample to C1 as stated: for an edge whose START is unbound and
whose END is bound (to a node at `(300,0)` with rect 200×100), the source
renders the straight line from the raw free start point `(0,50)` to the end
node's ORIGIN `(300,0)` — not the 2-point line between the bound endpoint's
border intersection `(593/2, 50)` and the free point, in either order. -/
theorem C1_routing_counterexample :
    updatePath
        ⟨⟨0, 50⟩, ⟨0, 50⟩, none, some ⟨⟨300, 0⟩, ⟨0, 0, 200, 100⟩⟩,
          none, none, none, none, 1/2⟩ = [⟨0, 50⟩, ⟨300, 0⟩] ∧
    ENode.mapToScene ⟨⟨300, 0⟩, ⟨0, 0, 200, 100⟩⟩
        (getBorderIntersection (nodeBoundingRect ⟨0, 0, 200, 100⟩)
          (ENode.mapFromScene ⟨⟨300, 0⟩, ⟨0, 0, 200, 100⟩⟩ ⟨0, 50⟩)) =
      ⟨593/2, 50⟩ ∧
    updatePath
        ⟨⟨0, 50⟩, ⟨0, 50⟩, none, some ⟨⟨300, 0⟩, ⟨0, 0, 200, 100⟩⟩,
          none, none, none, none, 1/2⟩ ≠ [⟨593/2, 50⟩, ⟨0, 50⟩] ∧
    updatePath
        ⟨⟨0, 50⟩, ⟨0, 50⟩, none, some ⟨⟨300, 0⟩, ⟨0, 0, 200, 100⟩⟩,
          none, none, none, none, 1/2⟩ ≠ [⟨0, 50⟩, ⟨593/2, 50⟩] := by
  refine ⟨rfl, ?_, ?_, ?_⟩
  · norm_num [ENode.mapToScene, ENode.mapFromScene, getBorderIntersection,
      borderCandidates, vertCandidate, horizCandidate, nodeBoundingRect, nodePad,
      Rect.adjusted, Rect.center, Rect.left, Rect.right, Rect.top, Rect.bottom,
      eps, minByDist, distSq, Pt.mk.injEq]
  · intro h
    rw [show updatePath
        ⟨⟨0, 50⟩, ⟨0, 50⟩, none, some ⟨⟨300, 0⟩, ⟨0, 0, 200, 100⟩⟩,
          none, none, none, none, 1/2⟩ = [⟨0, 50⟩, ⟨300, 0⟩] from rfl] at h
    simp only [List.cons.injEq, Pt.mk.injEq] at h
    norm_num at h
  · intro h
    rw [show updatePath
        ⟨⟨0, 50⟩, ⟨0, 50⟩, none, some ⟨⟨300, 0⟩, ⟨0, 0, 200, 100⟩⟩,
          none, none, none, none, 1/2⟩ = [⟨0, 50⟩, ⟨300, 0⟩] from rfl] at h
    simp only [List.cons.injEq, Pt.mk.injEq] at h
    norm_num at h

/-! ## Editor state: nodes, edges and the undo/redo log (`node.py`) -/

/-- Node types (`node_type`: `None | "StateMachine" | "State"`). -/
inductive NType where
  | stateMachine
  | state
deriving DecidableEq, Repr

/-- A live `Node` object: identity (`id()`), title, local position
(parent-relative for children, scene for roots), type, flags, local
rectangle, parent reference (by identity) and z-value. -/
structure NodeData where
  nid : ℕ
  title : String
  pos : Pt
  ntype : Option NType
  isInitial : Bool
  isContainer : Bool
  rect : Rect
  parent : Option ℕ
  z : ℚ
deriving DecidableEq, Repr

/-- A live fully-connected `Edge` object in `scene.edges`: identity, the two
endpoint node identities, title, waypoint ratio, the stored endpoint
offsets (`start_offset`/`end_offset`), the control-point offsets (`none`
while control points have not been created) and the raw `_start_pos` /
`_end_pos` fields. -/
structure EdgeData where
  eid : ℕ
  startId : ℕ
  endId : ℕ
  title : String
  ratio : ℚ
  startOff : Option Pt
  endOff : Option Pt
  startCtl : Option Pt
  endCtl : Option Pt
  startPosRaw : Pt
  endPosRaw : Pt
deriving DecidableEq, Repr

/-- The `node_data` snapshot captured by `record_node_deletion`.  Note that
it does NOT include `is_container` or the z-value. -/
structure NodeSnapshot where
  title : String
  position : Pt
  ntype : Option NType
  isInitial : Bool
  rect : Rect
  parent : Option ℕ
  nodeId : ℕ
deriving DecidableEq, Repr

/-- The `edge_data` snapshot captured by `record_edge_deletion` (edges in
`scene.edges` are always bound at both ends, so the ids are plain). -/
structure EdgeSnapshot where
  startId : ℕ
  endId : ℕ
  title : String
  ratio : ℚ
  startOff : Option Pt
  endOff : Option Pt
deriving DecidableEq, Repr

/-- Undo/redo action records (the dictionaries pushed on `undo_stack`).
`nodeDelete`/`edgeDelete` carry the `restored_node`/`restored_edge`
reference added during undo; `nodeCreate`/`edgeCreate` reference the live
object by identity. -/
inductive UAction where
  | nodeMove (nid : ℕ) (oldPos newPos : Pt)
  | nodeCreate (nid : ℕ) (parent : Option ℕ) (position : Pt)
  | nodeDelete (data : NodeSnapshot) (restored : Option ℕ)
  | nodeTypeChange (nid : ℕ) (oldType newType : Option NType) (oldTitle : String)
  | nodeResize (nid : ℕ) (oldRect newRect : Rect)
  | nodeTitleChange (nid : ℕ) (oldTitle newTitle : String)
  | nodeInitialChange (nid : ℕ) (wasInitial isInitial : Bool)
  | nodeReparent (nid : ℕ) (oldParent newParent : Option ℕ)
      (oldPos : Option Pt) (newPos : Pt)
  | edgeCreate (eid : ℕ) (startId endId : ℕ)
  | edgeDelete (data : EdgeSnapshot) (restored : Option ℕ)
  | edgeConnectionChange (eid : ℕ) (isStart : Bool) (oldOff newOff : Pt)
  | edgeWaypointChange (eid : ℕ) (oldRatio newRatio : ℚ)
  | edgeTitleChange (eid : ℕ) (oldTitle newTitle : String)
deriving DecidableEq, Repr

/-- The editor session state.  `nodes`/`edges` are the LIVE objects (in the
scene); `nodesLimbo`/`edgesLimbo` hold objects removed from the scene but
still referenced by action records (Python objects stay alive while
referenced).  Stacks are newest-first (Python appends to the end and trims
with `pop(0)`; here push is cons and trim drops the last element).
`fresh` supplies identities for objects created by undo (models `id()`
returning addresses unused by any live or recorded object). -/
structure EditorState where
  nodes : List NodeData
  edges : List EdgeData
  nodesLimbo : List NodeData
  edgesLimbo : List EdgeData
  undoStack : List UAction
  redoStack : List UAction
  fresh : ℕ
  msg : String
deriving Repr

/-- `max_undo_stack_size`. -/
def MAX_UNDO : ℕ := 50

/-- `append` plus `if len(stack) > max: stack.pop(0)`. -/
def trimStack (l : List UAction) : List UAction :=
  if l.length > MAX_UNDO then l.dropLast else l

def lookupNode (nodes : List NodeData) (nid : ℕ) : Option NodeData :=
  nodes.find? (fun n => n.nid == nid)

def lookupEdge (edges : List EdgeData) (eid : ℕ) : Option EdgeData :=
  edges.find? (fun e => e.eid == eid)

def nodeExists (s : EditorState) (nid : ℕ) : Bool :=
  s.nodes.any (fun n => n.nid == nid)

def edgeExists (s : EditorState) (eid : ℕ) : Bool :=
  s.edges.any (fun e => e.eid == eid)

def updateNode (nodes : List NodeData) (nid : ℕ) (f : NodeData → NodeData) :
    List NodeData :=
  nodes.map (fun n => if n.nid = nid then f n else n)

def updateEdge (edges : List EdgeData) (eid : ℕ) (f : EdgeData → EdgeData) :
    List EdgeData :=
  edges.map (fun e => if e.eid = eid then f e else e)

/-- `node.child_nodes` (the flat state records parenthood by pointer; the
child list is its inverse, in scene-list order). -/
def childrenOf (nodes : List NodeData) (pid : ℕ) : List NodeData :=
  nodes.filter (fun n => n.parent == some pid)

/-! ### Record functions (`record_*` in `NodeEditorWindow`). -/

/-- Push an entry and trim; shared tail of every record function. -/
def pushUndoEntry (s : EditorState) (a : UAction) : EditorState :=
  { s with undoStack := trimStack (a :: s.undoStack) }

def recordNodeMovement (s : EditorState) (nid : ℕ) (oldPos newPos : Pt) :
    EditorState :=
  let s := pushUndoEntry s (.nodeMove nid oldPos newPos)
  { s with redoStack := [] }

def recordNodeCreation (s : EditorState) (nid : ℕ) (parent : Option ℕ)
    (position : Pt) : EditorState :=
  let s := pushUndoEntry s (.nodeCreate nid parent position)
  { s with redoStack := [] }

def recordNodeDeletion (s : EditorState) (node : NodeData) : EditorState :=
  let s := pushUndoEntry s (.nodeDelete
    ⟨node.title, node.pos, node.ntype, node.isInitial, node.rect,
      node.parent, node.nid⟩ none)
  { s with redoStack := [] }

def recordNodeTypeChange (s : EditorState) (nid : ℕ)
    (oldType newType : Option NType) (oldTitle : String) : EditorState :=
  let s := pushUndoEntry s (.nodeTypeChange nid oldType newType oldTitle)
  { s with redoStack := [] }

def recordNodeResize (s : EditorState) (nid : ℕ) (oldRect newRect : Rect) :
    EditorState :=
  let s := pushUndoEntry s (.nodeResize nid oldRect newRect)
  { s with redoStack := [] }

def recordEdgeCreation (s : EditorState) (eid startId endId : ℕ) : EditorState :=
  let s := pushUndoEntry s (.edgeCreate eid startId endId)
  { s with redoStack := [] }

/-- The scene position of a node: its own position plus all ancestors'
(child coordinates are relative to the parent's origin).  Fuel-bounded walk
up the parent chain; the fuel is instantiated with the node count, which
bounds the depth of any well-formed forest. -/
def scenePosAux (nodes : List NodeData) : ℕ → ℕ → Pt
  | 0, _ => ⟨0, 0⟩
  | fuel + 1, nid =>
    match lookupNode nodes nid with
    | none => ⟨0, 0⟩
    | some n =>
      match n.parent with
      | none => n.pos
      | some p =>
        let pp := scenePosAux nodes fuel p
        ⟨pp.x + n.pos.x, pp.y + n.pos.y⟩

def scenePos (nodes : List NodeData) (nid : ℕ) : Pt :=
  scenePosAux nodes nodes.length nid

/-- `Edge.get_endpoint_offset(is_start)`: control-point offset if the
control exists (its offset is never `None`), else the cached offset, else
the border intersection toward the opposite endpoint's scene position. -/
def getEndpointOffset (s : EditorState) (e : EdgeData) (isStart : Bool) :
    Option Pt :=
  let nid := if isStart then e.startId else e.endId
  let otherId := if isStart then e.endId else e.startId
  match lookupNode s.nodes nid with
  | none => none
  | some node =>
    match (if isStart then e.startCtl else e.endCtl) with
    | some q => some q
    | none =>
      match (if isStart then e.startOff else e.endOff) with
      | some p => some p
      | none =>
        let reference := match lookupNode s.nodes otherId with
          | some _ => scenePos s.nodes otherId
          | none => if isStart then e.endPosRaw else e.startPosRaw
        let nodeScene := scenePos s.nodes nid
        some (getBorderIntersection (nodeBoundingRect node.rect)
          ⟨reference.x - nodeScene.x, reference.y - nodeScene.y⟩)

/-- `record_edge_deletion`: snapshots the edge; note it does NOT clear the
redo stack (unlike every other record function). -/
def recordEdgeDeletion (s : EditorState) (e : EdgeData) : EditorState :=
  pushUndoEntry s (.edgeDelete
    ⟨e.startId, e.endId, e.title, e.ratio,
      getEndpointOffset s e true, getEndpointOffset s e false⟩ none)

def recordEdgeConnectionChange (s : EditorState) (eid : ℕ) (isStart : Bool)
    (oldOff newOff : Pt) : EditorState :=
  let s := pushUndoEntry s (.edgeConnectionChange eid isStart oldOff newOff)
  { s with redoStack := [] }

def recordEdgeWaypointChange (s : EditorState) (eid : ℕ) (oldR newR : ℚ) :
    EditorState :=
  let s := pushUndoEntry s (.edgeWaypointChange eid oldR newR)
  { s with redoStack := [] }

def recordNodeTitleChange (s : EditorState) (nid : ℕ) (oldT newT : String) :
    EditorState :=
  let s := pushUndoEntry s (.nodeTitleChange nid oldT newT)
  { s with redoStack := [] }

def recordEdgeTitleChange (s : EditorState) (eid : ℕ) (oldT newT : String) :
    EditorState :=
  let s := pushUndoEntry s (.edgeTitleChange eid oldT newT)
  { s with redoStack := [] }

def recordNodeInitialChange (s : EditorState) (nid : ℕ) (was isNow : Bool) :
    EditorState :=
  let s := pushUndoEntry s (.nodeInitialChange nid was isNow)
  { s with redoStack := [] }

def recordNodeReparent (s : EditorState) (nid : ℕ) (oldP newP : Option ℕ)
    (oldPos : Option Pt) (newPos : Pt) : EditorState :=
  let s := pushUndoEntry s (.nodeReparent nid oldP newP oldPos newPos)
  { s with redoStack := [] }

lemma trimStack_le {l : List UAction} (h : l.length ≤ MAX_UNDO + 1) :
    (trimStack l).length ≤ MAX_UNDO := by
  unfold trimStack
  split
  · rw [List.length_dropLast]; omega
  · omega

lemma pushUndoEntry_bound (s : EditorState) (a : UAction)
    (h : s.undoStack.length ≤ MAX_UNDO) :
    (pushUndoEntry s a).undoStack.length ≤ MAX_UNDO :=
  trimStack_le (by simpa using Nat.succ_le_succ h)

/-- C4 (amended): from any state whose undo stack is within the bound,
every record function leaves the undo stack with at most 50 entries, and
every record function EXCEPT `record_edge_deletion` empties the redo stack;
`record_edge_deletion` leaves the redo stack unchanged (the source omits
the `redo_stack.clear()` present in all other record functions). -/
theorem C4_record_bounds (s : EditorState)
    (h : s.undoStack.length ≤ MAX_UNDO) :
    (∀ nid oldPos newPos,
      (recordNodeMovement s nid oldPos newPos).undoStack.length ≤ MAX_UNDO ∧
      (recordNodeMovement s nid oldPos newPos).redoStack = []) ∧
    (∀ nid parent position,
      (recordNodeCreation s nid parent position).undoStack.length ≤ MAX_UNDO ∧
      (recordNodeCreation s nid parent position).redoStack = []) ∧
    (∀ node,
      (recordNodeDeletion s node).undoStack.length ≤ MAX_UNDO ∧
      (recordNodeDeletion s node).redoStack = []) ∧
    (∀ nid oldT newT oldTitle,
      (recordNodeTypeChange s nid oldT newT oldTitle).undoStack.length ≤ MAX_UNDO ∧
      (recordNodeTypeChange s nid oldT newT oldTitle).redoStack = []) ∧
    (∀ nid oldR newR,
      (recordNodeResize s nid oldR newR).undoStack.length ≤ MAX_UNDO ∧
      (recordNodeResize s nid oldR newR).redoStack = []) ∧
    (∀ eid sid tid,
      (recordEdgeCreation s eid sid tid).undoStack.length ≤ MAX_UNDO ∧
      (recordEdgeCreation s eid sid tid).redoStack = []) ∧
    (∀ eid isStart oldOff newOff,
      (recordEdgeConnectionChange s eid isStart oldOff newOff).undoStack.length ≤ MAX_UNDO ∧
      (recordEdgeConnectionChange s eid isStart oldOff newOff).redoStack = []) ∧
    (∀ eid oldR newR,
      (recordEdgeWaypointChange s eid oldR newR).undoStack.length ≤ MAX_UNDO ∧
      (recordEdgeWaypointChange s eid oldR newR).redoStack = []) ∧
    (∀ nid oldT newT,
      (recordNodeTitleChange s nid oldT newT).undoStack.length ≤ MAX_UNDO ∧
      (recordNodeTitleChange s nid oldT newT).redoStack = []) ∧
    (∀ eid oldT newT,
      (recordEdgeTitleChange s eid oldT newT).undoStack.length ≤ MAX_UNDO ∧
      (recordEdgeTitleChange s eid oldT newT).redoStack = []) ∧
    (∀ nid was isNow,
      (recordNodeInitialChange s nid was isNow).undoStack.length ≤ MAX_UNDO ∧
      (recordNodeInitialChange s nid was isNow).redoStack = []) ∧
    (∀ nid oldP newP oldPos newPos,
      (recordNodeReparent s nid oldP newP oldPos newPos).undoStack.length ≤ MAX_UNDO ∧
      (recordNodeReparent s nid oldP newP oldPos newPos).redoStack = []) ∧
    (∀ e : EdgeData,
      (recordEdgeDeletion s e).undoStack.length ≤ MAX_UNDO ∧
      (recordEdgeDeletion s e).redoStack = s.redoStack) := by
  refine ⟨?_, ?_, ?_, ?_, ?_, ?_, ?_, ?_, ?_, ?_, ?_, ?_, ?_⟩ <;>
    intros <;>
    exact ⟨pushUndoEntry_bound s _ h, rfl⟩

/-- Witness for C4 at a concrete state with an empty undo stack. -/
theorem C4_record_bounds_witness :
    ((⟨[], [], [], [], [], [], 100, ""⟩ : EditorState).undoStack.length ≤ MAX_UNDO) ∧
    (recordNodeMovement ⟨[], [], [], [], [], [], 100, ""⟩ 1 ⟨0, 0⟩ ⟨5, 5⟩).undoStack.length ≤
      MAX_UNDO ∧
    (recordNodeMovement ⟨[], [], [], [], [], [], 100, ""⟩ 1 ⟨0, 0⟩ ⟨5, 5⟩).redoStack = [] :=
  ⟨by simp [MAX_UNDO],
    (C4_record_bounds ⟨[], [], [], [], [], [], 100, ""⟩ (by simp [MAX_UNDO])).1 1 ⟨0, 0⟩ ⟨5, 5⟩ |>.1,
    (C4_record_bounds ⟨[], [], [], [], [], [], 100, ""⟩ (by simp [MAX_UNDO])).1 1 ⟨0, 0⟩ ⟨5, 5⟩ |>.2⟩

/-- Counterexample to C4 as stated: recording an edge deletion in a state
whose redo stack is nonempty (e.g. right after an undo) leaves the redo
stack nonempty — `record_edge_deletion` does not clear it. -/
theorem C4_record_counterexample :
    (recordEdgeDeletion
        ⟨[], [], [], [], [], [.nodeMove 1 ⟨0, 0⟩ ⟨1, 1⟩], 100, ""⟩
        ⟨5, 1, 2, "EV_1", 1/2, some ⟨200, 50⟩, some ⟨0, 50⟩, some ⟨200, 50⟩,
          some ⟨0, 50⟩, ⟨0, 0⟩, ⟨0, 0⟩⟩).redoStack ≠ [] := by
  simp [recordEdgeDeletion, pushUndoEntry]

/-! ### Deletion, validation and the undo/redo drivers -/

/-- `Edge.delete_edge(record_for_undo)`: optionally record a snapshot (NOT
clearing the redo stack), then remove the edge from the scene (the object
stays referenced by records, modelled by the limbo list). -/
def deleteEdge (s : EditorState) (eid : ℕ) (record : Bool) : EditorState :=
  match lookupEdge s.edges eid with
  | none => s
  | some e =>
    let s := if record then recordEdgeDeletion s e else s
    { s with edges := s.edges.filter (fun x => x.eid ≠ eid),
             edgesLimbo := e :: s.edgesLimbo }

/-- `NodeEditorWindow.delete_node(node, record_for_undo)`: deletes the
connected edges first (recorded individually when `record` is set), records
a snapshot of the node itself (children are NOT recorded), then recursively
deletes all children without recording, and finally removes the node.
Fuel-bounded recursion over the child hierarchy. -/
def deleteNodeFuel : ℕ → EditorState → ℕ → Bool → EditorState
  | 0, s, _, _ => s
  | fuel + 1, s, nid, record =>
    match lookupNode s.nodes nid with
    | none => s
    | some node =>
      let connected := s.edges.filter (fun e => e.startId = nid ∨ e.endId = nid)
      let s := connected.foldl (fun st e => deleteEdge st e.eid record) s
      let s := if record then recordNodeDeletion s node else s
      let children := childrenOf s.nodes nid
      let s := children.foldl (fun st c => deleteNodeFuel fuel st c.nid false) s
      { s with nodes := s.nodes.filter (fun n => n.nid ≠ nid),
               nodesLimbo := node :: s.nodesLimbo }

def deleteNode (s : EditorState) (nid : ℕ) (record : Bool) : EditorState :=
  deleteNodeFuel s.nodes.length s nid record

/-- `validate_undo_action`: only the four node kinds listed in the source
are actually validated; every other kind returns `True`. -/
def validateUndoAction (s : EditorState) (a : UAction) : Bool :=
  match a with
  | .nodeMove nid _ _ => nodeExists s nid
  | .nodeCreate nid parent _ =>
    if !nodeExists s nid then false
    else
      match parent with
      | some p =>
        match lookupNode s.nodes nid with
        | some n => n.parent == some p
        | none => false
      | none => true
  | .nodeDelete data _ => !nodeExists s data.nodeId
  | .nodeTypeChange nid _ _ _ => nodeExists s nid
  | _ => true

/-- `_relink_stored_edge_nodes`: update pending `edge_delete` records (in
both stacks) that reference a deleted-then-recreated node. -/
def relinkStack (stk : List UAction) (oldId newId : ℕ) : List UAction :=
  stk.map fun a =>
    match a with
    | .edgeDelete d r =>
      .edgeDelete
        { d with startId := if d.startId = oldId then newId else d.startId,
                 endId := if d.endId = oldId then newId else d.endId } r
    | other => other

/-- `Node.set_node_type`: sets the type and rewrites the title for the two
named types (the default branch keeps the title). -/
def setNodeTypeData (n : NodeData) (t : Option NType) : NodeData :=
  match t with
  | some .stateMachine => { n with ntype := t, title := "StateMachine" }
  | some .state => { n with ntype := t, title := "State" }
  | none => { n with ntype := none }

/-- The border point `snap_endpoints_to_nodes` computes for an endpoint
with no preferred offset: the intersection toward the other node's scene
position (also the net effect of the control-point construction cascade). -/
def autoOffset (nodes : List NodeData) (node : NodeData) (otherId : ℕ) : Pt :=
  let nodeScene := scenePos nodes node.nid
  let reference := scenePos nodes otherId
  getBorderIntersection (nodeBoundingRect node.rect)
    ⟨reference.x - nodeScene.x, reference.y - nodeScene.y⟩

def pushRedoEntry (s : EditorState) (a : UAction) : EditorState :=
  { s with redoStack := trimStack (a :: s.redoStack) }

/-- One undo branch of `undo_action` (after validation, with the action
already popped).  Failing branches set the status message and return
WITHOUT pushing onto the redo stack; successful branches push the
(possibly updated) action. -/
def applyUndo (s : EditorState) (a : UAction) : EditorState :=
  match a with
  | .nodeMove nid oldPos _ =>
    if nodeExists s nid then
      pushRedoEntry
        { s with nodes := updateNode s.nodes nid (fun n => { n with pos := oldPos }),
                 msg := "Undone: Node moved back to previous position" } a
    else { s with msg := "Cannot undo: Node no longer exists" }
  | .nodeCreate nid _ _ =>
    match lookupNode s.nodes nid with
    | some n =>
      let removed := s.edges.filter (fun e => e.startId = nid ∨ e.endId = nid)
      pushRedoEntry
        { s with edges := s.edges.filter (fun e => ¬(e.startId = nid ∨ e.endId = nid)),
                 edgesLimbo := removed ++ s.edgesLimbo,
                 nodes := s.nodes.filter (fun m => m.nid ≠ nid),
                 nodesLimbo := n :: s.nodesLimbo,
                 msg := "Undone: Node creation deleted" } a
    | none => { s with msg := "Cannot undo: Node already deleted" }
  | .nodeDelete data _ =>
    -- recreate the node (a NEW object with a fresh identity); `is_container`
    -- and the z-value are not in the snapshot and restart at their defaults
    let newId := s.fresh
    let newNode : NodeData :=
      { nid := newId, title := data.title, pos := data.position,
        ntype := data.ntype, isInitial := data.isInitial, isContainer := false,
        rect := data.rect, parent := data.parent, z := 0 }
    let s :=
      match data.parent with
      | some p =>
        if nodeExists s p then
          let ns := updateNode s.nodes p (fun n => { n with isContainer := true }) ++ [newNode]
          { s with nodes := ns, fresh := s.fresh + 1 }
        else
          -- the parent object is gone from the scene: `add_child_node` hangs
          -- the new node under a dead object, so it never becomes visible
          { s with nodesLimbo := newNode :: s.nodesLimbo, fresh := s.fresh + 1 }
      | none => { s with nodes := s.nodes ++ [newNode], fresh := s.fresh + 1 }
    let s := { s with undoStack := relinkStack s.undoStack data.nodeId newId,
                      redoStack := relinkStack s.redoStack data.nodeId newId,
                      msg := "Undone: Node and edge(s) restored" }
    pushRedoEntry s (.nodeDelete data (some newId))
  | .nodeTypeChange nid oldType newType oldTitle =>
    if nodeExists s nid then
      let ns := updateNode s.nodes nid
        (fun n => { setNodeTypeData n oldType with title := oldTitle })
      pushRedoEntry { s with nodes := ns, msg := "Undone: Node type restored" }
        (.nodeTypeChange nid oldType newType oldTitle)
    else { s with msg := "Cannot undo: Node no longer exists" }
  | .nodeResize nid oldRect _ =>
    if nodeExists s nid then
      pushRedoEntry
        { s with nodes := updateNode s.nodes nid (fun n => { n with rect := oldRect }),
                 msg := "Undone: Node resized back" } a
    else { s with msg := "Cannot undo: Node no longer exists" }
  | .nodeInitialChange nid was _ =>
    match lookupNode s.nodes nid with
    | some n =>
      if n.ntype = some .state then
        pushRedoEntry
          { s with nodes := updateNode s.nodes nid (fun m => { m with isInitial := was }),
                   msg := "Undone: Node initial state restored" } a
      else { s with msg := "Cannot undo: Node no longer exists" }
    | none => { s with msg := "Cannot undo: Node no longer exists" }
  | .edgeCreate eid _ _ =>
    match lookupEdge s.edges eid with
    | some e =>
      pushRedoEntry
        { s with edges := s.edges.filter (fun x => x.eid ≠ eid),
                 edgesLimbo := e :: s.edgesLimbo,
                 msg := "Undone: Edge creation deleted" } a
    | none => { s with msg := "Cannot undo: Edge already deleted" }
  | .edgeDelete data _ =>
    match lookupNode s.nodes data.startId, lookupNode s.nodes data.endId with
    | some sn, some en =>
      let newEid := s.fresh
      let sOff := match data.startOff with
        | some p => p
        | none => autoOffset s.nodes sn data.endId
      let eOff := match data.endOff with
        | some p => p
        | none => autoOffset s.nodes en data.startId
      let newEdge : EdgeData :=
        { eid := newEid, startId := data.startId, endId := data.endId,
          title := data.title, ratio := data.ratio,
          startOff := some sOff, endOff := some eOff,
          startCtl := some sOff, endCtl := some eOff,
          startPosRaw := scenePos s.nodes data.startId,
          endPosRaw := scenePos s.nodes data.startId }
      pushRedoEntry
        { s with edges := s.edges ++ [newEdge], fresh := s.fresh + 1,
                 msg := "Undone: Edge restored" } (.edgeDelete data (some newEid))
    | _, _ => { s with msg := "Cannot undo: Connected nodes no longer exist" }
  | .edgeConnectionChange eid isStart oldOff _ =>
    if edgeExists s eid then
      let es := updateEdge s.edges eid (fun e =>
        let e := if isStart then { e with startCtl := some oldOff }
                 else { e with endCtl := some oldOff }
        -- `update_path` re-syncs the cached offset from the (truthy) control
        if oldOff ≠ ⟨0, 0⟩ then
          if isStart then { e with startOff := some oldOff }
          else { e with endOff := some oldOff }
        else e)
      pushRedoEntry
        { s with edges := es, msg := "Undone: Edge connection point restored" } a
    else { s with msg := "Cannot undo: Edge no longer exists" }
  | .edgeWaypointChange eid oldR _ =>
    if edgeExists s eid then
      pushRedoEntry
        { s with edges := updateEdge s.edges eid (fun e => { e with ratio := oldR }),
                 msg := "Undone: Edge waypoint adjusted back" } a
    else { s with msg := "Cannot undo: Edge no longer exists" }
  | .nodeTitleChange nid oldT _ =>
    if nodeExists s nid then
      pushRedoEntry
        { s with nodes := updateNode s.nodes nid (fun n => { n with title := oldT }),
                 msg := "Undone: Node title restored" } a
    else { s with msg := "Cannot undo: Node no longer exists" }
  | .edgeTitleChange eid oldT _ =>
    if edgeExists s eid then
      pushRedoEntry
        { s with edges := updateEdge s.edges eid (fun e => { e with title := oldT }),
                 msg := "Undone: Edge title restored" } a
    else { s with msg := "Cannot undo: Edge no longer exists" }
  | .nodeReparent nid oldParent _ oldPos _ =>
    if nodeExists s nid then
      let s := match oldParent with
        | some p =>
          let ns := updateNode (updateNode s.nodes p (fun n => { n with isContainer := true }))
            nid (fun n => { n with parent := some p })
          { s with nodes := ns }
        | none =>
          { s with nodes := updateNode s.nodes nid (fun n => { n with parent := none }) }
      -- `if old_pos:` — a `QPointF(0, 0)` is falsy, so the position is only
      -- restored for a non-null recorded position
      let s := match oldPos with
        | some op =>
          if op ≠ ⟨0, 0⟩ then
            { s with nodes := updateNode s.nodes nid (fun n => { n with pos := op }) }
          else s
        | none => s
      pushRedoEntry { s with msg := "Undone: Node reparented back" } a
    else { s with msg := "Cannot undo: Node no longer exists" }

/-- `undo_action`: empty stack reports; an invalid top entry is discarded
and the next one is tried (cascading skip); a valid entry is popped and
applied. -/
def undoAction (s : EditorState) : EditorState :=
  match h : s.undoStack with
  | [] => { s with msg := "Nothing to undo" }
  | a :: rest =>
    if validateUndoAction s a then
      applyUndo { s with undoStack := rest } a
    else
      undoAction { s with undoStack := rest,
                          msg := "Cannot undo: References deleted items" }
termination_by s.undoStack.length
decreasing_by simp [h]

/-- One redo branch of `redo_action` (with the action already popped).
Failing branches set the status message and return WITHOUT pushing onto the
undo stack; successful branches push the action back onto the undo stack
(with trimming only — redo does not clear anything). -/
def applyRedo (s : EditorState) (a : UAction) : EditorState :=
  match a with
  | .nodeMove nid _ newPos =>
    if nodeExists s nid then
      pushUndoEntry
        { s with nodes := updateNode s.nodes nid (fun n => { n with pos := newPos }),
                 msg := "Redone: Node moved to new position" } a
    else { s with msg := "Cannot redo: Node no longer exists" }
  | .nodeCreate nid parent position =>
    if nodeExists s nid then { s with msg := "Cannot redo: Node already exists" }
    else
      -- re-add the ORIGINAL node object (still referenced by the record)
      match s.nodesLimbo.find? (fun n => n.nid == nid) with
      | none => { s with msg := "Cannot redo: Node no longer exists" }
      | some n =>
        let n := { n with pos := position }
        let s :=
          match parent with
          | some p =>
            if nodeExists s p then
              let ns := updateNode s.nodes p (fun m => { m with isContainer := true }) ++
                [{ n with parent := some p }]
              { s with nodes := ns,
                       nodesLimbo := s.nodesLimbo.filter (fun m => m.nid ≠ nid) }
            else { s with nodesLimbo := s.nodesLimbo }
          | none =>
            { s with nodes := s.nodes ++ [{ n with parent := none }],
                     nodesLimbo := s.nodesLimbo.filter (fun m => m.nid ≠ nid) }
        pushUndoEntry { s with msg := "Redone: Node creation restored" } a
  | .nodeDelete data restored =>
    match restored with
    | some rid =>
      if nodeExists s rid then
        pushUndoEntry
          { deleteNode s rid false with msg := "Redone: Node deleted again" }
          (.nodeDelete data restored)
      else { s with msg := "Cannot redo: Node no longer exists" }
    | none => { s with msg := "Cannot redo: Node no longer exists" }
  | .nodeTypeChange nid _ newType _ =>
    if nodeExists s nid then
      pushUndoEntry
        { s with nodes := updateNode s.nodes nid (fun n => setNodeTypeData n newType),
                 msg := "Redone: Node type changed" } a
    else { s with msg := "Cannot redo: Node no longer exists" }
  | .nodeResize nid _ newRect =>
    if nodeExists s nid then
      pushUndoEntry
        { s with nodes := updateNode s.nodes nid (fun n => { n with rect := newRect }),
                 msg := "Redone: Node resized" } a
    else { s with msg := "Cannot redo: Node no longer exists" }
  | .nodeInitialChange nid _ isNow =>
    match lookupNode s.nodes nid with
    | some n =>
      if n.ntype = some .state then
        pushUndoEntry
          { s with nodes := updateNode s.nodes nid (fun m => { m with isInitial := isNow }),
                   msg := "Redone: Node initial state set" } a
      else { s with msg := "Cannot redo: Node no longer exists" }
    | none => { s with msg := "Cannot redo: Node no longer exists" }
  | .edgeCreate eid sid tid =>
    if !nodeExists s sid ∨ !nodeExists s tid then
      { s with msg := "Cannot redo: Connected nodes no longer exist" }
    else
      let s :=
        if edgeExists s eid then s
        else
          match s.edgesLimbo.find? (fun e => e.eid == eid) with
          | none => s
          | some e =>
            -- `set_start_node`/`set_end_node` re-register the edge; the
            -- recreated control points pick up the stored offsets, or the
            -- auto-computed border point when none are stored
            let sOff := match e.startOff with
              | some p => some p
              | none =>
                match lookupNode s.nodes sid with
                | some sn => some (autoOffset s.nodes sn tid)
                | none => none
            let eOff := match e.endOff with
              | some p => some p
              | none =>
                match lookupNode s.nodes tid with
                | some en => some (autoOffset s.nodes en sid)
                | none => none
            let es := s.edges ++
              [{ e with startId := sid, endId := tid, startCtl := sOff, endCtl := eOff }]
            { s with edges := es,
                     edgesLimbo := s.edgesLimbo.filter (fun x => x.eid ≠ eid) }
      pushUndoEntry { s with msg := "Redone: Edge creation restored" } a
  | .edgeDelete data restored =>
    match restored with
    | some rid =>
      if edgeExists s rid then
        pushUndoEntry
          { deleteEdge s rid false with msg := "Redone: Edge deleted again" }
          (.edgeDelete data restored)
      else { s with msg := "Cannot redo: Edge no longer exists" }
    | none => { s with msg := "Cannot redo: Edge no longer exists" }
  | .edgeConnectionChange eid isStart _ newOff =>
    if edgeExists s eid then
      let es := updateEdge s.edges eid (fun e =>
        let e := if isStart then { e with startCtl := some newOff }
                 else { e with endCtl := some newOff }
        if newOff ≠ ⟨0, 0⟩ then
          if isStart then { e with startOff := some newOff }
          else { e with endOff := some newOff }
        else e)
      pushUndoEntry
        { s with edges := es, msg := "Redone: Edge connection point changed" } a
    else { s with msg := "Cannot redo: Edge no longer exists" }
  | .edgeWaypointChange eid _ newR =>
    if edgeExists s eid then
      pushUndoEntry
        { s with edges := updateEdge s.edges eid (fun e => { e with ratio := newR }),
                 msg := "Redone: Edge waypoint adjusted" } a
    else { s with msg := "Cannot redo: Edge no longer exists" }
  | .nodeTitleChange nid _ newT =>
    if nodeExists s nid then
      pushUndoEntry
        { s with nodes := updateNode s.nodes nid (fun n => { n with title := newT }),
                 msg := "Redone: Node title changed" } a
    else { s with msg := "Cannot redo: Node no longer exists" }
  | .edgeTitleChange eid _ newT =>
    if edgeExists s eid then
      pushUndoEntry
        { s with edges := updateEdge s.edges eid (fun e => { e with title := newT }),
                 msg := "Redone: Edge title changed" } a
    else { s with msg := "Cannot redo: Edge no longer exists" }
  | .nodeReparent nid _ newParent _ newPos =>
    if nodeExists s nid then
      let s := match newParent with
        | some p =>
          let ns := updateNode (updateNode s.nodes p (fun n => { n with isContainer := true }))
            nid (fun n => { n with parent := some p })
          { s with nodes := ns }
        | none =>
          { s with nodes := updateNode s.nodes nid (fun n => { n with parent := none }) }
      -- `if new_pos:` — `QPointF(0, 0)` is falsy
      let s :=
        if newPos ≠ ⟨0, 0⟩ then
          { s with nodes := updateNode s.nodes nid (fun n => { n with pos := newPos }) }
        else s
      pushUndoEntry { s with msg := "Redone: Node reparented" } a
    else { s with msg := "Cannot redo: Node no longer exists" }

/-- `redo_action`: pops the newest redo entry and reapplies it (no
validation pass and no cascading skip on the redo side). -/
def redoAction (s : EditorState) : EditorState :=
  match s.redoStack with
  | [] => { s with msg := "Nothing to redo" }
  | a :: rest => applyRedo { s with redoStack := rest } a

lemma undoAction_nil (s : EditorState) (h : s.undoStack = []) :
    undoAction s = { s with msg := "Nothing to undo" } := by
  obtain ⟨nodes, edges, nl, el, us, rs, f, m⟩ := s
  simp only at h
  subst h
  rw [undoAction]

lemma undoAction_cons (s : EditorState) (a : UAction) (rest : List UAction)
    (h : s.undoStack = a :: rest) :
    undoAction s =
      if validateUndoAction s a then applyUndo { s with undoStack := rest } a
      else undoAction { s with undoStack := rest,
                               msg := "Cannot undo: References deleted items" } := by
  obtain ⟨nodes, edges, nl, el, us, rs, f, m⟩ := s
  simp only at h
  subst h
  rw [undoAction]

/-- C5 (amended): (a) an entry that fails validation is discarded and the
next-older entry is attempted (cascading skip); (b) an empty stack reports
"Nothing to undo"; (c) `validate_undo_action` only ever validates the four
kinds node-move / node-create / node-delete / node-type-change — for every
other kind it returns `True`, so (d) a stale reference in any other kind
(edge title change shown as representative) makes `undo_action` discard the
entry and STOP with an error, without attempting the next-older entry. -/
theorem C5_undo_stale_handling :
    (∀ (s : EditorState) (a : UAction) (rest : List UAction),
      s.undoStack = a :: rest → validateUndoAction s a = false →
      undoAction s =
        undoAction { s with undoStack := rest,
                            msg := "Cannot undo: References deleted items" }) ∧
    (∀ s : EditorState, s.undoStack = [] →
      undoAction s = { s with msg := "Nothing to undo" }) ∧
    (∀ (s : EditorState) (nid : ℕ) (oldT newT : String),
      validateUndoAction s (.nodeTitleChange nid oldT newT) = true) ∧
    (∀ (s : EditorState) (nid : ℕ) (was isNow : Bool),
      validateUndoAction s (.nodeInitialChange nid was isNow) = true) ∧
    (∀ (s : EditorState) (nid : ℕ) (oldR newR : Rect),
      validateUndoAction s (.nodeResize nid oldR newR) = true) ∧
    (∀ (s : EditorState) (nid : ℕ) (oldP newP : Option ℕ) (oldPos : Option Pt) (newPos : Pt),
      validateUndoAction s (.nodeReparent nid oldP newP oldPos newPos) = true) ∧
    (∀ (s : EditorState) (eid sid tid : ℕ),
      validateUndoAction s (.edgeCreate eid sid tid) = true) ∧
    (∀ (s : EditorState) (d : EdgeSnapshot) (r : Option ℕ),
      validateUndoAction s (.edgeDelete d r) = true) ∧
    (∀ (s : EditorState) (eid : ℕ) (isStart : Bool) (oldOff newOff : Pt),
      validateUndoAction s (.edgeConnectionChange eid isStart oldOff newOff) = true) ∧
    (∀ (s : EditorState) (eid : ℕ) (oldR newR : ℚ),
      validateUndoAction s (.edgeWaypointChange eid oldR newR) = true) ∧
    (∀ (s : EditorState) (eid : ℕ) (oldT newT : String),
      validateUndoAction s (.edgeTitleChange eid oldT newT) = true) ∧
    (∀ (s : EditorState) (eid : ℕ) (oldT newT : String) (rest : List UAction),
      s.undoStack = .edgeTitleChange eid oldT newT :: rest →
      edgeExists s eid = false →
      undoAction s = { s with undoStack := rest,
                              msg := "Cannot undo: Edge no longer exists" }) := by
  refine ⟨?_, ?_, fun _ _ _ _ => rfl, fun _ _ _ _ => rfl, fun _ _ _ _ => rfl,
    fun _ _ _ _ _ _ => rfl, fun _ _ _ _ => rfl, fun _ _ _ => rfl,
    fun _ _ _ _ _ => rfl, fun _ _ _ _ => rfl, fun _ _ _ _ => rfl, ?_⟩
  · intro s a rest hs hval
    rw [undoAction_cons s a rest hs, hval]
    rfl
  · intro s hs
    exact undoAction_nil s hs
  · intro s eid oldT newT rest hs hex
    rw [undoAction_cons s _ rest hs]
    have hv : validateUndoAction s (.edgeTitleChange eid oldT newT) = true := rfl
    rw [hv]
    simp only [if_true]
    have hex' : edgeExists { s with undoStack := rest } eid = false := hex
    rw [applyUndo, hex']
    rfl

/-- Witness for C5 at a concrete state: a stale `node_move` on top of the
stack fails validation and the cascading skip fires. -/
theorem C5_undo_stale_handling_witness :
    ((⟨[], [], [], [], [.nodeMove 1 ⟨0, 0⟩ ⟨5, 5⟩], [], 100, ""⟩ :
        EditorState).undoStack = [.nodeMove 1 ⟨0, 0⟩ ⟨5, 5⟩]) ∧
    validateUndoAction ⟨[], [], [], [], [.nodeMove 1 ⟨0, 0⟩ ⟨5, 5⟩], [], 100, ""⟩
        (.nodeMove 1 ⟨0, 0⟩ ⟨5, 5⟩) = false ∧
    undoAction ⟨[], [], [], [], [.nodeMove 1 ⟨0, 0⟩ ⟨5, 5⟩], [], 100, ""⟩ =
      undoAction ⟨[], [], [], [], [], [], 100,
        "Cannot undo: References deleted items"⟩ :=
  ⟨rfl, rfl,
    C5_undo_stale_handling.1
      ⟨[], [], [], [], [.nodeMove 1 ⟨0, 0⟩ ⟨5, 5⟩], [], 100, ""⟩
      (.nodeMove 1 ⟨0, 0⟩ ⟨5, 5⟩) [] rfl rfl⟩

/-- Counterexample to C5 as stated: with a stale edge-title-change on top
of the stack (edge 9 does not exist) and a perfectly valid node-move below
it, `undo_action` discards the stale entry and STOPS — the node is NOT
moved back and the older entry stays on the stack, contradicting the
claimed cascading skip "for every action kind". -/
theorem C5_undo_counterexample :
    undoAction
        ⟨[⟨1, "Node 1", ⟨7, 8⟩, none, false, false, ⟨0, 0, 200, 100⟩, none, 0⟩], [],
          [], [],
          [.edgeTitleChange 9 "a" "b", .nodeMove 1 ⟨1, 2⟩ ⟨7, 8⟩], [], 100, ""⟩ =
      ⟨[⟨1, "Node 1", ⟨7, 8⟩, none, false, false, ⟨0, 0, 200, 100⟩, none, 0⟩], [],
        [], [],
        [.nodeMove 1 ⟨1, 2⟩ ⟨7, 8⟩], [], 100,
        "Cannot undo: Edge no longer exists"⟩ := by
  rw [undoAction]
  simp only [validateUndoAction, if_true]
  rw [applyUndo]
  rfl

/-- Initial state for the C6 scenario: node A (id 1) and node B (id 2),
one edge A→B (id 3) titled `"EV_1"` with waypoint ratio `7/10` and pinned
endpoint offsets. -/
def c6S0 : EditorState :=
  ⟨[⟨1, "Node 1", ⟨0, 0⟩, none, false, false, ⟨0, 0, 200, 100⟩, none, 0⟩,
    ⟨2, "Node 2", ⟨300, 0⟩, none, false, false, ⟨0, 0, 200, 100⟩, none, 0⟩],
   [⟨3, 1, 2, "EV_1", 7/10, some ⟨200, 50⟩, some ⟨0, 50⟩, some ⟨200, 50⟩,
     some ⟨0, 50⟩, ⟨0, 0⟩, ⟨300, 0⟩⟩],
   [], [], [], [], 10, ""⟩

/-- The record for the edge deletion in the C6 scenario. -/
def c6ED : UAction :=
  .edgeDelete ⟨1, 2, "EV_1", 7/10, some ⟨200, 50⟩, some ⟨0, 50⟩⟩ none

/-- The record for the node deletion in the C6 scenario. -/
def c6ND : UAction :=
  .nodeDelete ⟨"Node 1", ⟨0, 0⟩, none, false, ⟨0, 0, 200, 100⟩, none, 1⟩ none

/-- The edge-deletion record after `_relink_stored_edge_nodes` has pointed
it at the recreated node (identity 10). -/
def c6ED' : UAction :=
  .edgeDelete ⟨10, 2, "EV_1", 7/10, some ⟨200, 50⟩, some ⟨0, 50⟩⟩ none

/-- State after delete + first undo. -/
def c6S2 : EditorState :=
  applyUndo { deleteNode c6S0 1 true with undoStack := [c6ED] } c6ND

/-- State after delete + two undos. -/
def c6S3 : EditorState := applyUndo { c6S2 with undoStack := [] } c6ED'

/-- Counterexample to C6 as stated: after deleting node A (one connected
edge to B), a SINGLE undo recreates A but does NOT restore the edge — the
edge needs a second undo, because `delete_node` records the edge deletion
and the node deletion as two separate entries and the `node_delete` undo
branch only restores edges from a `connected_edges` key that
`record_node_deletion` never writes. -/
theorem C6_single_undo_counterexample :
    (undoAction (deleteNode c6S0 1 true)).edges = [] ∧
    (undoAction (deleteNode c6S0 1 true)).nodes.map NodeData.nid = [2, 10] ∧
    (undoAction (deleteNode c6S0 1 true)).nodes.map NodeData.title =
      ["Node 2", "Node 1"] := by
  have u1 : undoAction (deleteNode c6S0 1 true) = c6S2 := by
    rw [undoAction_cons _ c6ND [c6ED] rfl]
    rfl
  refine ⟨?_, ?_, ?_⟩ <;> rw [u1] <;> rfl

/-- C6 (amended): deleting node A (with one edge A→B) pushes two records;
the FIRST undo recreates A (fresh identity 10, original title), the SECOND
undo restores the edge A→B with its original title `"EV_1"` and waypoint
ratio `7/10` (fresh identity 11, endpoints relinked to the recreated A);
the first redo then deletes the edge again and the second redo deletes A
again. -/
theorem C6_delete_undo_redo :
    (deleteNode c6S0 1 true).nodes.map NodeData.nid = [2] ∧
    (deleteNode c6S0 1 true).edges = [] ∧
    (undoAction (deleteNode c6S0 1 true)).nodes.map NodeData.nid = [2, 10] ∧
    (undoAction (deleteNode c6S0 1 true)).edges = [] ∧
    (undoAction (undoAction (deleteNode c6S0 1 true))).edges.map
        (fun e => (e.startId, e.endId, e.title, e.ratio)) = [(10, 2, "EV_1", 7/10)] ∧
    (redoAction (undoAction (undoAction (deleteNode c6S0 1 true)))).edges = [] ∧
    (redoAction (undoAction (undoAction (deleteNode c6S0 1 true)))).nodes.map
        NodeData.nid = [2, 10] ∧
    (redoAction (redoAction (undoAction (undoAction
        (deleteNode c6S0 1 true))))).nodes.map NodeData.nid = [2] ∧
    (redoAction (redoAction (undoAction (undoAction
        (deleteNode c6S0 1 true))))).edges = [] := by
  have u1 : undoAction (deleteNode c6S0 1 true) = c6S2 := by
    rw [undoAction_cons _ c6ND [c6ED] rfl]
    rfl
  have u2 : undoAction (undoAction (deleteNode c6S0 1 true)) = c6S3 := by
    rw [u1, undoAction_cons _ c6ED' [] rfl]
    rfl
  refine ⟨?_, ?_, ?_, ?_, ?_, ?_, ?_, ?_, ?_⟩ <;>
    first
      | rfl
      | (rw [u1]; rfl)
      | (rw [u2]; rfl)

/-! ### Cascade deletion: structural lemmas for C10 -/

/-- The child hierarchy below `x` has height at most `fuel` (decidable
well-formedness of the forest used to justify the recursion fuel). -/
def subtreeBounded (nodes : List NodeData) : ℕ → ℕ → Bool
  | 0, _ => false
  | fuel + 1, x => (childrenOf nodes x).all (fun c => subtreeBounded nodes fuel c.nid)

/-- Every live node's parent reference points at a live node. -/
def ParentClosed (nodes : List NodeData) : Prop :=
  ∀ m ∈ nodes, ∀ p, m.parent = some p → ∃ q ∈ nodes, q.nid = p

lemma mem_trimStack {a : UAction} {l : List UAction} (h : a ∈ trimStack l) :
    a ∈ l := by
  unfold trimStack at h
  split at h
  · exact (List.dropLast_sublist l).mem h
  · exact h

lemma lookupNode_none {nodes : List NodeData} {x : ℕ}
    (h : lookupNode nodes x = none) : ∀ m ∈ nodes, m.nid ≠ x := by
  intro m hm
  have := List.find?_eq_none.mp h m hm
  simpa using this

lemma lookupNode_isSome_of_mem {nodes : List NodeData} {m : NodeData}
    (hm : m ∈ nodes) : lookupNode nodes m.nid ≠ none := by
  intro h
  exact lookupNode_none h m hm rfl

lemma childrenOf_sublist {l₁ l₂ : List NodeData} (h : l₁.Sublist l₂) (x : ℕ) :
    (childrenOf l₁ x).Sublist (childrenOf l₂ x) :=
  List.Sublist.filter _ h

lemma subtreeBounded_sublist {l₁ l₂ : List NodeData} (h : l₁.Sublist l₂) :
    ∀ (fuel x : ℕ), subtreeBounded l₂ fuel x = true → subtreeBounded l₁ fuel x = true := by
  intro fuel
  induction fuel with
  | zero => intro x hx; simp [subtreeBounded] at hx
  | succ fuel ih =>
    intro x hx
    rw [subtreeBounded, List.all_eq_true] at hx ⊢
    intro c hc
    exact ih c.nid (hx c ((childrenOf_sublist h x).mem hc))

lemma deleteEdge_nodes (s : EditorState) (eid : ℕ) (rec : Bool) :
    (deleteEdge s eid rec).nodes = s.nodes := by
  unfold deleteEdge
  cases lookupEdge s.edges eid <;> [rfl; (cases rec <;> rfl)]

lemma deleteEdge_fresh (s : EditorState) (eid : ℕ) (rec : Bool) :
    (deleteEdge s eid rec).fresh = s.fresh := by
  unfold deleteEdge
  cases lookupEdge s.edges eid <;> [rfl; (cases rec <;> rfl)]

lemma deleteEdge_redo (s : EditorState) (eid : ℕ) (rec : Bool) :
    (deleteEdge s eid rec).redoStack = s.redoStack := by
  unfold deleteEdge
  cases lookupEdge s.edges eid <;> [rfl; (cases rec <;> rfl)]

lemma deleteEdge_undo_false (s : EditorState) (eid : ℕ) :
    (deleteEdge s eid false).undoStack = s.undoStack := by
  unfold deleteEdge
  cases lookupEdge s.edges eid <;> rfl

lemma deleteEdge_undo_mem (s : EditorState) (eid : ℕ) (rec : Bool) :
    ∀ a ∈ (deleteEdge s eid rec).undoStack,
      a ∈ s.undoStack ∨ ∃ d r, a = UAction.edgeDelete d r := by
  unfold deleteEdge
  cases h : lookupEdge s.edges eid with
  | none => intro a ha; exact Or.inl ha
  | some e =>
    cases rec with
    | false => intro a ha; exact Or.inl ha
    | true =>
      intro a ha
      simp only [recordEdgeDeletion, pushUndoEntry] at ha
      rcases List.mem_cons.mp (mem_trimStack ha) with h' | h'
      · exact Or.inr ⟨_, _, h'⟩
      · exact Or.inl h'

lemma recordNodeDeletion_nodes (s : EditorState) (node : NodeData) :
    (recordNodeDeletion s node).nodes = s.nodes := rfl

lemma recordNodeDeletion_redo (s : EditorState) (node : NodeData) :
    (recordNodeDeletion s node).redoStack = [] := rfl

lemma recordNodeDeletion_fresh (s : EditorState) (node : NodeData) :
    (recordNodeDeletion s node).fresh = s.fresh := rfl

lemma foldl_deleteEdge_nodes (es : List EdgeData) (s : EditorState) (rec : Bool) :
    ((es.foldl (fun st e => deleteEdge st e.eid rec) s)).nodes = s.nodes := by
  induction es generalizing s with
  | nil => rfl
  | cons e es ih => rw [List.foldl_cons, ih, deleteEdge_nodes]

lemma foldl_deleteEdge_redo (es : List EdgeData) (s : EditorState) (rec : Bool) :
    ((es.foldl (fun st e => deleteEdge st e.eid rec) s)).redoStack = s.redoStack := by
  induction es generalizing s with
  | nil => rfl
  | cons e es ih => rw [List.foldl_cons, ih, deleteEdge_redo]

lemma foldl_deleteEdge_fresh (es : List EdgeData) (s : EditorState) (rec : Bool) :
    ((es.foldl (fun st e => deleteEdge st e.eid rec) s)).fresh = s.fresh := by
  induction es generalizing s with
  | nil => rfl
  | cons e es ih => rw [List.foldl_cons, ih, deleteEdge_fresh]

lemma foldl_deleteEdge_undo_false (es : List EdgeData) (s : EditorState) :
    ((es.foldl (fun st e => deleteEdge st e.eid false) s)).undoStack = s.undoStack := by
  induction es generalizing s with
  | nil => rfl
  | cons e es ih => rw [List.foldl_cons, ih, deleteEdge_undo_false]

lemma foldl_deleteEdge_undo_mem (es : List EdgeData) (s : EditorState) (rec : Bool) :
    ∀ a ∈ ((es.foldl (fun st e => deleteEdge st e.eid rec) s)).undoStack,
      a ∈ s.undoStack ∨ ∃ d r, a = UAction.edgeDelete d r := by
  induction es generalizing s with
  | nil => intro a ha; exact Or.inl ha
  | cons e es ih =>
    intro a ha
    rw [List.foldl_cons] at ha
    rcases ih (deleteEdge s e.eid rec) a ha with h | h
    · exact deleteEdge_undo_mem s e.eid rec a h
    · exact Or.inr h

lemma deleteNodeFuel_succ_none (fuel : ℕ) (s : EditorState) (x : ℕ) (rec : Bool)
    (h : lookupNode s.nodes x = none) : deleteNodeFuel (fuel + 1) s x rec = s := by
  rw [deleteNodeFuel, h]

lemma deleteNodeFuel_succ_some (fuel : ℕ) (s : EditorState) (x : ℕ) (rec : Bool)
    (node : NodeData) (h : lookupNode s.nodes x = some node) :
    deleteNodeFuel (fuel + 1) s x rec =
      (let s1 := (s.edges.filter (fun e => e.startId = x ∨ e.endId = x)).foldl
        (fun st e => deleteEdge st e.eid rec) s
       let s2 := if rec then recordNodeDeletion s1 node else s1
       let s3 := (childrenOf s2.nodes x).foldl
        (fun st c => deleteNodeFuel fuel st c.nid false) s2
       { s3 with nodes := s3.nodes.filter (fun n => n.nid ≠ x),
                 nodesLimbo := node :: s3.nodesLimbo }) := by
  rw [deleteNodeFuel, h]

lemma nodup_of_sublist {l₁ l₂ : List NodeData} (h : l₁.Sublist l₂)
    (hn : (l₂.map NodeData.nid).Nodup) : (l₁.map NodeData.nid).Nodup :=
  hn.sublist (h.map _)

/-- Core of the cascade: with unique identities, a parent-closed node set
and sufficient fuel, `deleteNodeFuel` removes a sublist of the nodes,
preserves parent-closedness, and leaves no node with identity `x`. -/
lemma deleteNodeFuel_core :
    ∀ (fuel : ℕ) (s : EditorState) (x : ℕ) (rec : Bool),
      (s.nodes.map NodeData.nid).Nodup →
      ParentClosed s.nodes →
      subtreeBounded s.nodes fuel x = true →
      (deleteNodeFuel fuel s x rec).nodes.Sublist s.nodes ∧
      ParentClosed (deleteNodeFuel fuel s x rec).nodes ∧
      ∀ m ∈ (deleteNodeFuel fuel s x rec).nodes, m.nid ≠ x := by
  intro fuel
  induction fuel with
  | zero => intro s x rec _ _ hb; simp [subtreeBounded] at hb
  | succ fuel ih =>
    intro s x rec hnd hcl hb
    cases h : lookupNode s.nodes x with
    | none =>
      rw [deleteNodeFuel_succ_none fuel s x rec h]
      exact ⟨List.Sublist.refl _, hcl, lookupNode_none h⟩
    | some node =>
      rw [deleteNodeFuel_succ_some fuel s x rec node h]
      -- the edge deletions and the optional record leave the nodes untouched
      set s1 := (s.edges.filter (fun e => e.startId = x ∨ e.endId = x)).foldl
        (fun st e => deleteEdge st e.eid rec) s with hs1
      set s2 := if rec then recordNodeDeletion s1 node else s1 with hs2
      have hn2 : s2.nodes = s.nodes := by
        rw [hs2]
        cases rec with
        | false => rw [if_neg (by simp), hs1, foldl_deleteEdge_nodes]
        | true => rw [if_pos rfl, recordNodeDeletion_nodes, hs1, foldl_deleteEdge_nodes]
      have hchild : ∀ c ∈ childrenOf s2.nodes x,
          subtreeBounded s.nodes fuel c.nid = true := by
        rw [hn2]
        rw [subtreeBounded, List.all_eq_true] at hb
        exact hb
      -- fold over the children: invariant sublist + closed + processed ids gone
      have hfold : ∀ (cs : List NodeData) (st : EditorState),
          st.nodes.Sublist s.nodes → ParentClosed st.nodes →
          (∀ c ∈ cs, subtreeBounded s.nodes fuel c.nid = true) →
          (cs.foldl (fun st c => deleteNodeFuel fuel st c.nid false) st).nodes.Sublist st.nodes ∧
          ParentClosed (cs.foldl (fun st c => deleteNodeFuel fuel st c.nid false) st).nodes ∧
          ∀ c ∈ cs, ∀ m ∈ (cs.foldl (fun st c => deleteNodeFuel fuel st c.nid false) st).nodes,
            m.nid ≠ c.nid := by
        intro cs
        induction cs with
        | nil =>
          intro st hsub hclosed _
          exact ⟨List.Sublist.refl _, hclosed, by simp⟩
        | cons c cs ihc =>
          intro st hsub hclosed hbs
          have hstep := ih st c.nid false (nodup_of_sublist hsub hnd) hclosed
            (subtreeBounded_sublist hsub fuel c.nid (hbs c (List.mem_cons_self c cs)))
          obtain ⟨hstepSub, hstepCl, hstepFree⟩ := hstep
          have hrest := ihc (deleteNodeFuel fuel st c.nid false)
            (hstepSub.trans hsub) hstepCl
            (fun c' hc' => hbs c' (List.mem_cons.mpr (Or.inr hc')))
          obtain ⟨hrSub, hrCl, hrFree⟩ := hrest
          rw [List.foldl_cons]
          refine ⟨hrSub.trans hstepSub, hrCl, ?_⟩
          intro c' hc' m hm
          rcases List.mem_cons.mp hc' with hc' | hc'
          · subst hc'
            exact hstepFree m (hrSub.mem hm)
          · exact hrFree c' hc' m hm
      obtain ⟨hfSub, hfCl, hfFree⟩ := hfold (childrenOf s2.nodes x) s2
        (by rw [hn2]) (by rw [hn2]; exact hcl) hchild
      set s3 := (childrenOf s2.nodes x).foldl
        (fun st c => deleteNodeFuel fuel st c.nid false) s2 with hs3
      have hs3sub : s3.nodes.Sublist s.nodes := by
        rw [← hn2]; exact hfSub
      constructor
      · exact (List.filter_sublist s3.nodes).trans hs3sub
      constructor
      · -- parent-closedness of the filtered set
        intro m hm p hp
        have hm3 : m ∈ s3.nodes := (List.filter_sublist s3.nodes).mem hm
        obtain ⟨q, hq, hqid⟩ := hfCl m hm3 p hp
        have hpx : p ≠ x := by
          intro hpx
          have hmchild : m ∈ childrenOf s2.nodes x := by
            refine List.mem_filter.mpr ⟨?_, ?_⟩
            · rw [hn2]
              exact hs3sub.mem hm3
            · rw [hp, hpx]
              simp
          exact hfFree m hmchild m hm3 rfl
        refine ⟨q, List.mem_filter.mpr ⟨hq, ?_⟩, hqid⟩
        simp [hqid, hpx]
      · intro m hm
        have := (List.mem_filter.mp hm).2
        simpa using this

lemma lookupNode_nid {nodes : List NodeData} {x : ℕ} {n : NodeData}
    (h : lookupNode nodes x = some n) : n.nid = x := by
  have := List.find?_some h
  simpa using this

lemma lookupNode_mem {nodes : List NodeData} {x : ℕ} {n : NodeData}
    (h : lookupNode nodes x = some n) : n ∈ nodes :=
  List.mem_of_find?_eq_some h

lemma trimStack_cons (a : UAction) (l : List UAction) :
    ∃ l', trimStack (a :: l) = a :: l' := by
  unfold trimStack
  split
  · rename_i hlen
    cases l with
    | nil => simp [MAX_UNDO] at hlen
    | cons b bs => exact ⟨(b :: bs).dropLast, by rw [List.dropLast_cons₂]⟩
  · exact ⟨l, rfl⟩

lemma deleteNodeFuel_fresh :
    ∀ (fuel : ℕ) (s : EditorState) (x : ℕ) (rec : Bool),
      (deleteNodeFuel fuel s x rec).fresh = s.fresh := by
  intro fuel
  induction fuel with
  | zero => intro s x rec; rfl
  | succ fuel ih =>
    intro s x rec
    cases h : lookupNode s.nodes x with
    | none => rw [deleteNodeFuel_succ_none _ _ _ _ h]
    | some node =>
      rw [deleteNodeFuel_succ_some _ _ _ _ node h]
      have hfold : ∀ (cs : List NodeData) (st : EditorState),
          (cs.foldl (fun st c => deleteNodeFuel fuel st c.nid false) st).fresh =
            st.fresh := by
        intro cs
        induction cs with
        | nil => intro st; rfl
        | cons c cs ihc => intro st; rw [List.foldl_cons, ihc, ih]
      show (_ : EditorState).fresh = s.fresh
      simp only [hfold]
      cases rec with
      | false => rw [if_neg (by simp)]; exact foldl_deleteEdge_fresh _ _ _
      | true =>
        rw [if_pos rfl, recordNodeDeletion_fresh]
        exact foldl_deleteEdge_fresh _ _ _

lemma deleteNodeFuel_stacks_false :
    ∀ (fuel : ℕ) (s : EditorState) (x : ℕ),
      (deleteNodeFuel fuel s x false).undoStack = s.undoStack ∧
      (deleteNodeFuel fuel s x false).redoStack = s.redoStack := by
  intro fuel
  induction fuel with
  | zero => intro s x; exact ⟨rfl, rfl⟩
  | succ fuel ih =>
    intro s x
    cases h : lookupNode s.nodes x with
    | none => rw [deleteNodeFuel_succ_none _ _ _ _ h]; exact ⟨rfl, rfl⟩
    | some node =>
      rw [deleteNodeFuel_succ_some _ _ _ _ node h]
      have hfold : ∀ (cs : List NodeData) (st : EditorState),
          (cs.foldl (fun st c => deleteNodeFuel fuel st c.nid false) st).undoStack =
            st.undoStack ∧
          (cs.foldl (fun st c => deleteNodeFuel fuel st c.nid false) st).redoStack =
            st.redoStack := by
        intro cs
        induction cs with
        | nil => intro st; exact ⟨rfl, rfl⟩
        | cons c cs ihc =>
          intro st
          rw [List.foldl_cons]
          obtain ⟨h1, h2⟩ := ihc (deleteNodeFuel fuel st c.nid false)
          exact ⟨h1.trans (ih st c.nid).1, h2.trans (ih st c.nid).2⟩
      constructor
      · show (_ : EditorState).undoStack = s.undoStack
        simp only [(hfold _ _).1]
        rw [if_neg (by simp)]
        exact foldl_deleteEdge_undo_false _ _
      · show (_ : EditorState).redoStack = s.redoStack
        simp only [(hfold _ _).2]
        rw [if_neg (by simp)]
        exact foldl_deleteEdge_redo _ _ _

/-- Every record pushed by a recorded `delete_node` is the (single)
snapshot of the deleted node itself, or an edge snapshot, or was already on
the stack: children never get a `node_delete` record. -/
lemma deleteNodeFuel_undo_mem_true (fuel : ℕ) (s : EditorState) (x : ℕ) :
    ∀ a ∈ (deleteNodeFuel (fuel + 1) s x true).undoStack,
      a ∈ s.undoStack ∨
      (∃ d r, a = UAction.nodeDelete d r ∧ d.nodeId = x) ∨
      (∃ d r, a = UAction.edgeDelete d r) := by
  cases h : lookupNode s.nodes x with
  | none =>
    rw [deleteNodeFuel_succ_none _ _ _ _ h]
    intro a ha
    exact Or.inl ha
  | some node =>
    rw [deleteNodeFuel_succ_some _ _ _ _ node h]
    have hfold : ∀ (cs : List NodeData) (st : EditorState),
        (cs.foldl (fun st c => deleteNodeFuel fuel st c.nid false) st).undoStack =
          st.undoStack := by
      intro cs
      induction cs with
      | nil => intro st; rfl
      | cons c cs ihc =>
        intro st
        rw [List.foldl_cons]
        exact (ihc _).trans (deleteNodeFuel_stacks_false fuel st c.nid).1
    intro a ha
    rw [show ∀ t : EditorState, ({ t with
        nodes := t.nodes.filter (fun n => n.nid ≠ x),
        nodesLimbo := node :: t.nodesLimbo } : EditorState).undoStack = t.undoStack
      from fun _ => rfl] at ha
    rw [hfold] at ha
    rw [if_pos rfl] at ha
    simp only [recordNodeDeletion, pushUndoEntry] at ha
    rcases List.mem_cons.mp (mem_trimStack ha) with h' | h'
    · exact Or.inr (Or.inl ⟨_, _, h', lookupNode_nid h⟩)
    · rcases foldl_deleteEdge_undo_mem _ _ _ a h' with h'' | h''
      · exact Or.inl h''
      · exact Or.inr (Or.inr h'')

/-- A recorded `delete_node` clears the redo stack (via
`record_node_deletion`) and pushes the node snapshot on top of the undo
stack. -/
lemma deleteNodeFuel_record_shape (fuel : ℕ) (s : EditorState) (x : ℕ)
    (node : NodeData) (h : lookupNode s.nodes x = some node) :
    (deleteNodeFuel (fuel + 1) s x true).redoStack = [] ∧
    ∃ tail, (deleteNodeFuel (fuel + 1) s x true).undoStack =
      UAction.nodeDelete
        ⟨node.title, node.pos, node.ntype, node.isInitial, node.rect,
          node.parent, node.nid⟩ none :: tail := by
  rw [deleteNodeFuel_succ_some _ _ _ _ node h]
  have hfoldU : ∀ (cs : List NodeData) (st : EditorState),
      (cs.foldl (fun st c => deleteNodeFuel fuel st c.nid false) st).undoStack =
        st.undoStack := by
    intro cs
    induction cs with
    | nil => intro st; rfl
    | cons c cs ihc =>
      intro st
      rw [List.foldl_cons]
      exact (ihc _).trans (deleteNodeFuel_stacks_false fuel st c.nid).1
  have hfoldR : ∀ (cs : List NodeData) (st : EditorState),
      (cs.foldl (fun st c => deleteNodeFuel fuel st c.nid false) st).redoStack =
        st.redoStack := by
    intro cs
    induction cs with
    | nil => intro st; rfl
    | cons c cs ihc =>
      intro st
      rw [List.foldl_cons]
      exact (ihc _).trans (deleteNodeFuel_stacks_false fuel st c.nid).2
  constructor
  · show (_ : EditorState).redoStack = []
    simp only [hfoldR]
    rw [if_pos trivial, recordNodeDeletion_redo]
  · show ∃ tail, (_ : EditorState).undoStack = _ :: tail
    simp only [hfoldU]
    rw [if_pos trivial]
    simp only [recordNodeDeletion, pushUndoEntry]
    exact trimStack_cons _ _

/-- Node identity `c` is gone for good: no live node carries it, it is below
the fresh-identity watermark (so no recreation can reuse it), and no pending
`node_create` record for it sits on the redo stack (the only record kind
whose replay re-inserts an existing object). -/
def NeverNode (s : EditorState) (c : ℕ) : Prop :=
  (∀ n ∈ s.nodes, n.nid ≠ c) ∧ c < s.fresh ∧
  (∀ (parent : Option ℕ) (position : Pt),
    UAction.nodeCreate c parent position ∉ s.redoStack)

lemma updateNode_map_nid (l : List NodeData) (k : ℕ) (f : NodeData → NodeData)
    (hf : ∀ n, (f n).nid = n.nid) :
    (updateNode l k f).map NodeData.nid = l.map NodeData.nid := by
  unfold updateNode
  rw [List.map_map]
  apply List.map_congr_left
  intro n _
  by_cases hk : n.nid = k
  · simp [hk, hf]
  · simp [hk]

lemma neverNodes_updateNode (l : List NodeData) (k : ℕ) (f : NodeData → NodeData)
    {c : ℕ} (hf : ∀ n, (f n).nid = n.nid) (h : ∀ n ∈ l, n.nid ≠ c) :
    ∀ n ∈ updateNode l k f, n.nid ≠ c := by
  intro n hn hc
  have h1 : n.nid ∈ (updateNode l k f).map NodeData.nid := List.mem_map_of_mem _ hn
  rw [updateNode_map_nid l k f hf] at h1
  obtain ⟨m, hm, hmn⟩ := List.mem_map.mp h1
  exact h m hm (hmn.trans hc)

lemma nodeCreate_not_mem_relink {stk : List UAction} {c o n : ℕ}
    {p : Option ℕ} {q : Pt}
    (h : UAction.nodeCreate c p q ∈ relinkStack stk o n) :
    UAction.nodeCreate c p q ∈ stk := by
  unfold relinkStack at h
  obtain ⟨b, hb, hbe⟩ := List.mem_map.mp h
  cases b <;> simp_all

lemma deleteNodeFuel_nodes_sublist :
    ∀ (fuel : ℕ) (s : EditorState) (x : ℕ) (rec : Bool),
      (deleteNodeFuel fuel s x rec).nodes.Sublist s.nodes := by
  intro fuel
  induction fuel with
  | zero => intro s x rec; exact List.Sublist.refl _
  | succ fuel ih =>
    intro s x rec
    cases h : lookupNode s.nodes x with
    | none => rw [deleteNodeFuel_succ_none _ _ _ _ h]
    | some node =>
      rw [deleteNodeFuel_succ_some _ _ _ _ node h]
      have hn2 : (if rec then recordNodeDeletion
          ((s.edges.filter (fun e => e.startId = x ∨ e.endId = x)).foldl
            (fun st e => deleteEdge st e.eid rec) s) node
        else (s.edges.filter (fun e => e.startId = x ∨ e.endId = x)).foldl
            (fun st e => deleteEdge st e.eid rec) s).nodes = s.nodes := by
        cases rec with
        | false => rw [if_neg (by simp), foldl_deleteEdge_nodes]
        | true => rw [if_pos rfl, recordNodeDeletion_nodes, foldl_deleteEdge_nodes]
      have hfold : ∀ (cs : List NodeData) (st : EditorState),
          (cs.foldl (fun st c => deleteNodeFuel fuel st c.nid false) st).nodes.Sublist
            st.nodes := by
        intro cs
        induction cs with
        | nil => intro st; exact List.Sublist.refl _
        | cons c cs ihc =>
          intro st
          rw [List.foldl_cons]
          exact (ihc _).trans (ih st c.nid false)
      exact (List.filter_sublist _).trans (hn2 ▸ hfold _ _)

/-- `pushRedoEntry` keeps `NeverNode` as long as the pushed action is not a
`node_create` for the banned identity. -/
lemma neverNode_pushRedo {s : EditorState} {a : UAction} {c : ℕ}
    (h1 : ∀ n ∈ s.nodes, n.nid ≠ c) (h2 : c < s.fresh)
    (h3 : ∀ (parent : Option ℕ) (position : Pt),
      UAction.nodeCreate c parent position ∉ s.redoStack)
    (ha : ∀ (parent : Option ℕ) (position : Pt),
      a ≠ .nodeCreate c parent position) :
    NeverNode (pushRedoEntry s a) c := by
  refine ⟨h1, h2, ?_⟩
  intro parent position hmem
  rcases List.mem_cons.mp (mem_trimStack hmem) with h' | h'
  · exact ha parent position h'.symm
  · exact h3 parent position h'

lemma setNodeTypeData_nid (n : NodeData) (t : Option NType) :
    (setNodeTypeData n t).nid = n.nid := by
  cases t with
  | none => rfl
  | some ty => cases ty <;> rfl

/-- Once an identity is `NeverNode`-dead, no single undo branch can bring it
back: every branch either leaves the node list untouched up to identity-
preserving updates, or appends a node carrying a strictly fresh identity. -/
lemma neverNode_applyUndo (s : EditorState) (a : UAction) (c : ℕ)
    (h : NeverNode s c) : NeverNode (applyUndo s a) c := by
  obtain ⟨h1, h2, h3⟩ := h
  cases a with
  | nodeMove nid oldPos newPos =>
    dsimp only [applyUndo]
    split
    · refine neverNode_pushRedo ?_ h2 h3 ?_
      · exact neverNodes_updateNode s.nodes nid (fun n => { n with pos := oldPos })
          (fun n => rfl) h1
      · intro p q hq; cases hq
    · exact ⟨h1, h2, h3⟩
  | nodeCreate nid parent position =>
    dsimp only [applyUndo]
    cases hlk : lookupNode s.nodes nid with
    | none => exact ⟨h1, h2, h3⟩
    | some n =>
      have hnid : nid ≠ c := by
        rw [← lookupNode_nid hlk]; exact h1 n (lookupNode_mem hlk)
      refine neverNode_pushRedo ?_ h2 h3 ?_
      · intro m hm; exact h1 m ((List.filter_sublist _).mem hm)
      · intro p q hq
        exact hnid (by cases hq; rfl)
  | nodeDelete data restored =>
    dsimp only [applyUndo]
    have h2' : c < s.fresh + 1 := Nat.lt_succ_of_lt h2
    cases hp : data.parent with
    | none =>
      dsimp only
      refine neverNode_pushRedo ?_ h2' ?_ ?_
      · intro n hn
        rcases List.mem_append.mp hn with h' | h'
        · exact h1 n h'
        · cases List.mem_singleton.mp h'; exact Nat.ne_of_gt h2
      · intro p q hmem; exact h3 p q (nodeCreate_not_mem_relink hmem)
      · intro p q hq; cases hq
    | some pp =>
      dsimp only
      split
      · refine neverNode_pushRedo ?_ h2' ?_ ?_
        · intro n hn
          rcases List.mem_append.mp hn with h' | h'
          · exact neverNodes_updateNode s.nodes pp
              (fun n => { n with isContainer := true }) (fun n => rfl) h1 n h'
          · cases List.mem_singleton.mp h'; exact Nat.ne_of_gt h2
        · intro p q hmem; exact h3 p q (nodeCreate_not_mem_relink hmem)
        · intro p q hq; cases hq
      · refine neverNode_pushRedo h1 h2' ?_ ?_
        · intro p q hmem; exact h3 p q (nodeCreate_not_mem_relink hmem)
        · intro p q hq; cases hq
  | nodeTypeChange nid oldType newType oldTitle =>
    dsimp only [applyUndo]
    split
    · refine neverNode_pushRedo ?_ h2 h3 ?_
      · exact neverNodes_updateNode s.nodes nid
          (fun n => { setNodeTypeData n oldType with title := oldTitle })
          (fun n => setNodeTypeData_nid n oldType) h1
      · intro p q hq; cases hq
    · exact ⟨h1, h2, h3⟩
  | nodeResize nid oldRect newRect =>
    dsimp only [applyUndo]
    split
    · refine neverNode_pushRedo ?_ h2 h3 ?_
      · exact neverNodes_updateNode s.nodes nid (fun n => { n with rect := oldRect })
          (fun n => rfl) h1
      · intro p q hq; cases hq
    · exact ⟨h1, h2, h3⟩
  | nodeInitialChange nid was isNow =>
    dsimp only [applyUndo]
    cases hlk : lookupNode s.nodes nid with
    | none => exact ⟨h1, h2, h3⟩
    | some n =>
      dsimp only
      split
      · refine neverNode_pushRedo ?_ h2 h3 ?_
        · exact neverNodes_updateNode s.nodes nid (fun m => { m with isInitial := was })
            (fun n => rfl) h1
        · intro p q hq; cases hq
      · exact ⟨h1, h2, h3⟩
  | edgeCreate eid sid tid =>
    dsimp only [applyUndo]
    cases hlk : lookupEdge s.edges eid with
    | none => exact ⟨h1, h2, h3⟩
    | some e =>
      refine neverNode_pushRedo h1 h2 h3 ?_
      intro p q hq; cases hq
  | edgeDelete data restored =>
    dsimp only [applyUndo]
    cases hs : lookupNode s.nodes data.startId with
    | none => exact ⟨h1, h2, h3⟩
    | some sn =>
      cases he : lookupNode s.nodes data.endId with
      | none => exact ⟨h1, h2, h3⟩
      | some en =>
        refine neverNode_pushRedo h1 (Nat.lt_succ_of_lt h2) h3 ?_
        intro p q hq; cases hq
  | edgeConnectionChange eid isStart oldOff newOff =>
    dsimp only [applyUndo]
    split
    · refine neverNode_pushRedo h1 h2 h3 ?_
      intro p q hq; cases hq
    · exact ⟨h1, h2, h3⟩
  | edgeWaypointChange eid oldR newR =>
    dsimp only [applyUndo]
    split
    · refine neverNode_pushRedo h1 h2 h3 ?_
      intro p q hq; cases hq
    · exact ⟨h1, h2, h3⟩
  | nodeTitleChange nid oldT newT =>
    dsimp only [applyUndo]
    split
    · refine neverNode_pushRedo ?_ h2 h3 ?_
      · exact neverNodes_updateNode s.nodes nid (fun n => { n with title := oldT })
          (fun n => rfl) h1
      · intro p q hq; cases hq
    · exact ⟨h1, h2, h3⟩
  | edgeTitleChange eid oldT newT =>
    dsimp only [applyUndo]
    split
    · refine neverNode_pushRedo h1 h2 h3 ?_
      intro p q hq; cases hq
    · exact ⟨h1, h2, h3⟩
  | nodeReparent nid oldParent newParent oldPos newPos =>
    dsimp only [applyUndo]
    split
    · have base1 : ∀ n ∈ updateNode s.nodes nid (fun n => { n with parent := none }),
          n.nid ≠ c :=
        neverNodes_updateNode s.nodes nid (fun n => { n with parent := none })
          (fun n => rfl) h1
      cases oldParent with
      | some pp =>
        have hA : ∀ n ∈ updateNode s.nodes pp (fun n => { n with isContainer := true }),
            n.nid ≠ c :=
          neverNodes_updateNode s.nodes pp (fun n => { n with isContainer := true })
            (fun n => rfl) h1
        have hB : ∀ n ∈ updateNode
            (updateNode s.nodes pp (fun n => { n with isContainer := true })) nid
            (fun n => { n with parent := some pp }), n.nid ≠ c :=
          neverNodes_updateNode _ nid (fun n => { n with parent := some pp })
            (fun n => rfl) hA
        cases oldPos with
        | some op =>
          dsimp only
          split
          · refine neverNode_pushRedo ?_ h2 h3 ?_
            · exact neverNodes_updateNode _ nid (fun n => { n with pos := op })
                (fun n => rfl) hB
            · intro p q hq; cases hq
          · refine neverNode_pushRedo hB h2 h3 ?_
            intro p q hq; cases hq
        | none =>
          refine neverNode_pushRedo hB h2 h3 ?_
          intro p q hq; cases hq
      | none =>
        cases oldPos with
        | some op =>
          dsimp only
          split
          · refine neverNode_pushRedo ?_ h2 h3 ?_
            · exact neverNodes_updateNode _ nid (fun n => { n with pos := op })
                (fun n => rfl) base1
            · intro p q hq; cases hq
          · refine neverNode_pushRedo base1 h2 h3 ?_
            intro p q hq; cases hq
        | none =>
          refine neverNode_pushRedo base1 h2 h3 ?_
          intro p q hq; cases hq
    · exact ⟨h1, h2, h3⟩

/-- `undo_action` as a whole (including the cascading skip) cannot revive a
`NeverNode`-dead identity. -/
lemma neverNode_undo (c : ℕ) :
    ∀ (s : EditorState), NeverNode s c → NeverNode (undoAction s) c := by
  suffices H : ∀ (l : List UAction) (s : EditorState), s.undoStack = l →
      NeverNode s c → NeverNode (undoAction s) c by
    intro s h; exact H s.undoStack s rfl h
  intro l
  induction l with
  | nil =>
    intro s hs h
    rw [undoAction_nil s hs]
    exact h
  | cons a rest ih =>
    intro s hs h
    rw [undoAction_cons s a rest hs]
    split
    · exact neverNode_applyUndo _ a c h
    · exact ih _ rfl h

/-- A single redo branch cannot revive a dead identity, provided the replayed
action is not a `node_create` record for that identity (which `NeverNode`
rules out for actions drawn from the redo stack). -/
lemma neverNode_applyRedo (s : EditorState) (a : UAction) (c : ℕ)
    (h : NeverNode s c)
    (ha : ∀ (parent : Option ℕ) (position : Pt),
      a ≠ .nodeCreate c parent position) :
    NeverNode (applyRedo s a) c := by
  obtain ⟨h1, h2, h3⟩ := h
  cases a with
  | nodeMove nid oldPos newPos =>
    dsimp only [applyRedo]
    split
    · exact ⟨neverNodes_updateNode s.nodes nid (fun n => { n with pos := newPos })
        (fun n => rfl) h1, h2, h3⟩
    · exact ⟨h1, h2, h3⟩
  | nodeCreate nid parent position =>
    have hnid : nid ≠ c := fun hq => ha parent position (by rw [hq])
    dsimp only [applyRedo]
    split
    · exact ⟨h1, h2, h3⟩
    · cases hf : s.nodesLimbo.find? (fun n => n.nid == nid) with
      | none => exact ⟨h1, h2, h3⟩
      | some n =>
        dsimp only
        have hn : n.nid = nid := by simpa using List.find?_some hf
        cases parent with
        | some p =>
          dsimp only
          split
          · refine ⟨?_, h2, h3⟩
            intro m hm
            rcases List.mem_append.mp hm with h' | h'
            · exact neverNodes_updateNode s.nodes p
                (fun m => { m with isContainer := true }) (fun m => rfl) h1 m h'
            · cases List.mem_singleton.mp h'
              show n.nid ≠ c
              rw [hn]; exact hnid
          · exact ⟨h1, h2, h3⟩
        | none =>
          dsimp only
          refine ⟨?_, h2, h3⟩
          intro m hm
          rcases List.mem_append.mp hm with h' | h'
          · exact h1 m h'
          · cases List.mem_singleton.mp h'
            show n.nid ≠ c
            rw [hn]; exact hnid
  | nodeDelete data restored =>
    dsimp only [applyRedo]
    cases restored with
    | none => exact ⟨h1, h2, h3⟩
    | some rid =>
      dsimp only
      split
      · refine ⟨?_, ?_, ?_⟩
        · intro n hn
          exact h1 n ((deleteNodeFuel_nodes_sublist s.nodes.length s rid false).mem hn)
        · have hfr : (deleteNodeFuel s.nodes.length s rid false).fresh = s.fresh :=
            deleteNodeFuel_fresh s.nodes.length s rid false
          exact lt_of_lt_of_eq h2 hfr.symm
        · intro p q hmem
          have hmem' : UAction.nodeCreate c p q ∈
              (deleteNodeFuel s.nodes.length s rid false).redoStack := hmem
          rw [(deleteNodeFuel_stacks_false s.nodes.length s rid).2] at hmem'
          exact h3 p q hmem'
      · exact ⟨h1, h2, h3⟩
  | nodeTypeChange nid oldType newType oldTitle =>
    dsimp only [applyRedo]
    split
    · exact ⟨neverNodes_updateNode s.nodes nid (fun n => setNodeTypeData n newType)
        (fun n => setNodeTypeData_nid n newType) h1, h2, h3⟩
    · exact ⟨h1, h2, h3⟩
  | nodeResize nid oldRect newRect =>
    dsimp only [applyRedo]
    split
    · exact ⟨neverNodes_updateNode s.nodes nid (fun n => { n with rect := newRect })
        (fun n => rfl) h1, h2, h3⟩
    · exact ⟨h1, h2, h3⟩
  | nodeInitialChange nid was isNow =>
    dsimp only [applyRedo]
    cases hlk : lookupNode s.nodes nid with
    | none => exact ⟨h1, h2, h3⟩
    | some n =>
      dsimp only
      split
      · exact ⟨neverNodes_updateNode s.nodes nid (fun m => { m with isInitial := isNow })
          (fun m => rfl) h1, h2, h3⟩
      · exact ⟨h1, h2, h3⟩
  | edgeCreate eid sid tid =>
    dsimp only [applyRedo]
    split
    · exact ⟨h1, h2, h3⟩
    · split
      · exact ⟨h1, h2, h3⟩
      · cases hf : s.edgesLimbo.find? (fun e => e.eid == eid) with
        | none => exact ⟨h1, h2, h3⟩
        | some e => exact ⟨h1, h2, h3⟩
  | edgeDelete data restored =>
    dsimp only [applyRedo]
    cases restored with
    | none => exact ⟨h1, h2, h3⟩
    | some rid =>
      dsimp only
      split
      · refine ⟨?_, ?_, ?_⟩
        · intro n hn
          have hn' : n ∈ s.nodes := by
            rw [← deleteEdge_nodes s rid false]; exact hn
          exact h1 n hn'
        · exact lt_of_lt_of_eq h2 (deleteEdge_fresh s rid false).symm
        · intro p q hmem
          have hmem' : UAction.nodeCreate c p q ∈ (deleteEdge s rid false).redoStack :=
            hmem
          rw [deleteEdge_redo s rid false] at hmem'
          exact h3 p q hmem'
      · exact ⟨h1, h2, h3⟩
  | edgeConnectionChange eid isStart oldOff newOff =>
    dsimp only [applyRedo]
    split
    · exact ⟨h1, h2, h3⟩
    · exact ⟨h1, h2, h3⟩
  | edgeWaypointChange eid oldR newR =>
    dsimp only [applyRedo]
    split
    · exact ⟨h1, h2, h3⟩
    · exact ⟨h1, h2, h3⟩
  | nodeTitleChange nid oldT newT =>
    dsimp only [applyRedo]
    split
    · exact ⟨neverNodes_updateNode s.nodes nid (fun n => { n with title := newT })
        (fun n => rfl) h1, h2, h3⟩
    · exact ⟨h1, h2, h3⟩
  | edgeTitleChange eid oldT newT =>
    dsimp only [applyRedo]
    split
    · exact ⟨h1, h2, h3⟩
    · exact ⟨h1, h2, h3⟩
  | nodeReparent nid oldParent newParent oldPos newPos =>
    dsimp only [applyRedo]
    split
    · have base1 : ∀ n ∈ updateNode s.nodes nid (fun n => { n with parent := none }),
          n.nid ≠ c :=
        neverNodes_updateNode s.nodes nid (fun n => { n with parent := none })
          (fun n => rfl) h1
      cases newParent with
      | some pp =>
        have hA : ∀ n ∈ updateNode s.nodes pp (fun n => { n with isContainer := true }),
            n.nid ≠ c :=
          neverNodes_updateNode s.nodes pp (fun n => { n with isContainer := true })
            (fun n => rfl) h1
        have hB : ∀ n ∈ updateNode
            (updateNode s.nodes pp (fun n => { n with isContainer := true })) nid
            (fun n => { n with parent := some pp }), n.nid ≠ c :=
          neverNodes_updateNode _ nid (fun n => { n with parent := some pp })
            (fun n => rfl) hA
        dsimp only
        split
        · exact ⟨neverNodes_updateNode _ nid (fun n => { n with pos := newPos })
            (fun n => rfl) hB, h2, h3⟩
        · exact ⟨hB, h2, h3⟩
      | none =>
        dsimp only
        split
        · exact ⟨neverNodes_updateNode _ nid (fun n => { n with pos := newPos })
            (fun n => rfl) base1, h2, h3⟩
        · exact ⟨base1, h2, h3⟩
    · exact ⟨h1, h2, h3⟩

/-- `redo_action` as a whole cannot revive a dead identity. -/
lemma neverNode_redo (c : ℕ) (s : EditorState) (h : NeverNode s c) :
    NeverNode (redoAction s) c := by
  unfold redoAction
  cases hr : s.redoStack with
  | nil =>
    dsimp only
    exact ⟨h.1, h.2.1, fun p q hm => absurd hm (List.not_mem_nil _)⟩
  | cons a rest =>
    dsimp only
    have h' : NeverNode { s with redoStack := rest } c :=
      ⟨h.1, h.2.1, fun p q hmem => h.2.2 p q (by rw [hr]; exact List.mem_cons_of_mem a hmem)⟩
    refine neverNode_applyRedo _ a c h' ?_
    intro p q hq
    exact h.2.2 p q (by rw [hr, hq]; exact List.mem_cons_self _ _)

/-- `c`'s parent chain (of length < fuel) reaches `x`: `c` is a strict
descendant of `x` in the scene hierarchy. -/
def isDescFuel (nodes : List NodeData) : ℕ → ℕ → ℕ → Bool
  | 0, _, _ => false
  | fuel + 1, d, x =>
    match lookupNode nodes d with
    | none => false
    | some n =>
      match n.parent with
      | none => false
      | some p => if p = x then true else isDescFuel nodes fuel p x

/-- Any interleaved sequence of undo (`true`) and redo (`false`) presses. -/
def applyOps (s : EditorState) : List Bool → EditorState
  | [] => s
  | b :: bs => applyOps (if b then undoAction s else redoAction s) bs

lemma nodeExists_eq_false {s : EditorState} {c : ℕ}
    (h : ∀ n ∈ s.nodes, n.nid ≠ c) : nodeExists s c = false := by
  unfold nodeExists
  simp only [List.any_eq_false]
  intro n hn
  simpa using h n hn

lemma isDescFuel_exists {nodes : List NodeData} {fuel c x : ℕ}
    (h : isDescFuel nodes fuel c x = true) : ∃ n ∈ nodes, n.nid = c := by
  cases fuel with
  | zero => simp [isDescFuel] at h
  | succ fuel =>
    rw [isDescFuel] at h
    cases hlk : lookupNode nodes c with
    | none => rw [hlk] at h; simp at h
    | some n => exact ⟨n, lookupNode_mem hlk, lookupNode_nid hlk⟩

/-- Recursive deletion removes every strict descendant of the deleted node. -/
lemma deleteNode_kills_descendants (s : EditorState) (x : ℕ)
    (hnd : (s.nodes.map NodeData.nid).Nodup)
    (hcl : ParentClosed s.nodes)
    (hb : subtreeBounded s.nodes s.nodes.length x = true) :
    ∀ (fuel c : ℕ), isDescFuel s.nodes fuel c x = true →
      ∀ m ∈ (deleteNode s x true).nodes, m.nid ≠ c := by
  obtain ⟨hsub, hpc, hx⟩ := deleteNodeFuel_core s.nodes.length s x true hnd hcl hb
  intro fuel
  induction fuel with
  | zero => intro c h; simp [isDescFuel] at h
  | succ fuel ih =>
    intro c h m hm hmc
    rw [isDescFuel] at h
    cases hlk : lookupNode s.nodes c with
    | none => rw [hlk] at h; simp at h
    | some n =>
      rw [hlk] at h
      dsimp only at h
      cases hpar : n.parent with
      | none => rw [hpar] at h; simp at h
      | some p =>
        rw [hpar] at h
        dsimp only at h
        have hm_s : m ∈ s.nodes := hsub.mem hm
        have hmn : m = n :=
          List.inj_on_of_nodup_map hnd hm_s (lookupNode_mem hlk)
            (by rw [hmc, lookupNode_nid hlk])
        obtain ⟨q, hq, hqn⟩ := hpc m hm p (by rw [hmn]; exact hpar)
        by_cases hpx : p = x
        · exact hx q hq (by rw [hqn, hpx])
        · rw [if_neg hpx] at h
          exact ih p h q hq hqn

lemma neverNode_applyOps (c : ℕ) :
    ∀ (ops : List Bool) (s : EditorState), NeverNode s c →
      NeverNode (applyOps s ops) c := by
  intro ops
  induction ops with
  | nil => intro s h; exact h
  | cons b bs ih =>
    intro s h
    cases b with
    | true => exact ih _ (neverNode_undo c s h)
    | false => exact ih _ (neverNode_redo c s h)

/-- C10: deleting a node with children deletes the node and every strict
descendant as well (a); the only node snapshot among the new undo records is
the deleted node's own (children are deleted with `record_for_undo=False`
and never recorded; the remaining new records are edge deletions) (b); the
next undo recreates exactly one node — a fresh-identity copy of the deleted
node's snapshot (stated for a root node) (c); and no former descendant is
ever restored, neither by that undo nor by any later sequence of undos and
redos (d).  Hypotheses: live node ids are distinct and below the
fresh-identity watermark, parent references point at live nodes, and the
subtree height is bounded by the node count (all invariants of states the
editor actually builds). -/
theorem C10_cascade_delete (s : EditorState) (x : ℕ) (node : NodeData)
    (hnd : (s.nodes.map NodeData.nid).Nodup)
    (hcl : ParentClosed s.nodes)
    (hb : subtreeBounded s.nodes s.nodes.length x = true)
    (hlk : lookupNode s.nodes x = some node)
    (hfr : ∀ n ∈ s.nodes, n.nid < s.fresh) :
    (nodeExists (deleteNode s x true) x = false ∧
      ∀ (fuel c : ℕ), isDescFuel s.nodes fuel c x = true →
        nodeExists (deleteNode s x true) c = false) ∧
    (∀ a ∈ (deleteNode s x true).undoStack,
      a ∈ s.undoStack ∨
      (∃ d r, a = UAction.nodeDelete d r ∧ d.nodeId = x) ∨
      (∃ d r, a = UAction.edgeDelete d r)) ∧
    (node.parent = none →
      (undoAction (deleteNode s x true)).nodes =
        (deleteNode s x true).nodes ++
          [⟨s.fresh, node.title, node.pos, node.ntype, node.isInitial, false,
            node.rect, none, 0⟩]) ∧
    (∀ (fuel c : ℕ), isDescFuel s.nodes fuel c x = true →
      ∀ ops : List Bool, nodeExists (applyOps (deleteNode s x true) ops) c = false) := by
  obtain ⟨hsub, hpc, hx⟩ := deleteNodeFuel_core s.nodes.length s x true hnd hcl hb
  have hkill := deleteNode_kills_descendants s x hnd hcl hb
  have hne : s.nodes ≠ [] := by
    intro hnil
    rw [hnil] at hlk
    simp [lookupNode] at hlk
  obtain ⟨k, hk⟩ : ∃ k, s.nodes.length = k + 1 := by
    cases hL : s.nodes.length with
    | zero => exact absurd (List.length_eq_zero.mp hL) hne
    | succ k => exact ⟨k, rfl⟩
  have hD : deleteNode s x true = deleteNodeFuel (k + 1) s x true := by
    unfold deleteNode; rw [hk]
  have hshape := deleteNodeFuel_record_shape k s x node hlk
  rw [← hD] at hshape
  obtain ⟨hredo, tail, htail⟩ := hshape
  have hfresh : (deleteNode s x true).fresh = s.fresh :=
    deleteNodeFuel_fresh s.nodes.length s x true
  have hxe : nodeExists (deleteNode s x true) x = false := nodeExists_eq_false hx
  refine ⟨⟨hxe, ?_⟩, ?_, ?_, ?_⟩
  · intro fuel c hdesc
    exact nodeExists_eq_false (hkill fuel c hdesc)
  · intro a ha
    have ha' : a ∈ (deleteNodeFuel (k + 1) s x true).undoStack := by
      rw [← hD]; exact ha
    exact deleteNodeFuel_undo_mem_true k s x a ha'
  · intro hroot
    have hval : validateUndoAction (deleteNode s x true)
        (UAction.nodeDelete
          ⟨node.title, node.pos, node.ntype, node.isInitial, node.rect,
            node.parent, node.nid⟩ none) = true := by
      show (!nodeExists (deleteNode s x true) node.nid) = true
      rw [lookupNode_nid hlk, hxe]
      rfl
    rw [undoAction_cons (deleteNode s x true) _ tail htail, if_pos hval]
    dsimp only [applyUndo]
    rw [hroot]
    dsimp only
    rw [hfresh]
    rfl
  · intro fuel c hdesc ops
    obtain ⟨n, hn_mem, hn_nid⟩ := isDescFuel_exists hdesc
    have hcfr : c < s.fresh := hn_nid ▸ hfr n hn_mem
    have hnever : NeverNode (deleteNode s x true) c := by
      refine ⟨hkill fuel c hdesc, ?_, ?_⟩
      · rw [hfresh]; exact hcfr
      · intro p q hmem
        rw [hredo] at hmem
        exact absurd hmem (List.not_mem_nil _)
    exact nodeExists_eq_false (neverNode_applyOps c ops _ hnever).1

/-- A depth-2 nested instance: container A (id 1) holds container B (id 2),
which holds C (id 3). -/
def c10A : NodeData :=
  ⟨1, "Node A", ⟨0, 0⟩, some .stateMachine, false, true, ⟨0, 0, 200, 100⟩, none, 0⟩

def c10B : NodeData :=
  ⟨2, "Node B", ⟨10, 10⟩, some .state, false, true, ⟨0, 0, 80, 40⟩, some 1, 0⟩

def c10C : NodeData :=
  ⟨3, "Node C", ⟨5, 5⟩, some .state, false, false, ⟨0, 0, 40, 20⟩, some 2, 0⟩

def c10S : EditorState := ⟨[c10A, c10B, c10C], [], [], [], [], [], 10, ""⟩

theorem C10_cascade_delete_witness :
    lookupNode c10S.nodes 1 = some c10A ∧
    isDescFuel c10S.nodes 2 3 1 = true ∧
    nodeExists (deleteNode c10S 1 true) 2 = false ∧
    nodeExists (deleteNode c10S 1 true) 3 = false ∧
    (undoAction (deleteNode c10S 1 true)).nodes =
      (deleteNode c10S 1 true).nodes ++
        [⟨10, "Node A", ⟨0, 0⟩, some NType.stateMachine, false, false,
          ⟨0, 0, 200, 100⟩, none, 0⟩] ∧
    nodeExists (applyOps (deleteNode c10S 1 true) [true]) 3 = false := by
  have hcl : ParentClosed c10S.nodes := by
    intro m hm p hp
    have hm' : m = c10A ∨ m = c10B ∨ m = c10C := by simpa [c10S] using hm
    rcases hm' with rfl | rfl | rfl
    · exact absurd hp (by simp [c10A])
    · refine ⟨c10A, by simp [c10S], ?_⟩
      have h1 : (1 : ℕ) = p := by simpa [c10B] using hp
      simp [c10A, ← h1]
    · refine ⟨c10B, by simp [c10S], ?_⟩
      have h1 : (2 : ℕ) = p := by simpa [c10C] using hp
      simp [c10B, ← h1]
  have H := C10_cascade_delete c10S 1 c10A (by decide) hcl (by decide) rfl (by decide)
  refine ⟨rfl, by decide, ?_, ?_, ?_, ?_⟩
  · exact H.1.2 1 2 (by decide)
  · exact H.1.2 2 3 (by decide)
  · exact H.2.2.1 rfl
  · exact H.2.2.2 2 3 (by decide) [true]

/-! ### Container parent/child maintenance (`Node.add_child_node`,
`Node.remove_child_node`, `Node._check_and_update_parent`) -/

def titleHeight : ℚ := 30

def containerPadding : ℚ := 10

def Rect.translate (r : Rect) (p : Pt) : Rect :=
  ⟨r.x + p.x, r.y + p.y, r.w, r.h⟩

/-- `QRectF.contains(QRectF)`: edge-inclusive containment. -/
def Rect.containsRect (a b : Rect) : Prop :=
  a.x ≤ b.x ∧ a.y ≤ b.y ∧ b.x + b.w ≤ a.x + a.w ∧ b.y + b.h ≤ a.y + a.h

instance (a b : Rect) : Decidable (Rect.containsRect a b) := by
  unfold Rect.containsRect; infer_instance

/-- The fallback position `add_child_node` picks when no position is given:
below the child whose bottom bounding edge is lowest (Python `max` keeps the
first maximum), indented from the left. -/
def autoStackPos (children : List NodeData) : Pt :=
  match children with
  | [] => ⟨containerPadding + 10, titleHeight + containerPadding + 10⟩
  | c :: cs =>
    let last := cs.foldl (fun best m =>
      if best.pos.y + (nodeBoundingRect best.rect).h < m.pos.y + (nodeBoundingRect m.rect).h
      then m else best) c
    ⟨containerPadding + 10, last.pos.y + (nodeBoundingRect last.rect).h + 10⟩

/-- `Node.add_child_node(node, pos)`: promotes the parent to a container if
needed, reparents the child, and sets the child's position (the given one,
or the auto-stack fallback).  The parent's `rect` is deliberately NOT
touched ("Don't update size automatically" in the source). -/
def addChildNode (nodes : List NodeData) (pid cid : ℕ) (pos : Option Pt) :
    List NodeData :=
  match lookupNode nodes pid, lookupNode nodes cid with
  | some _, some _ =>
    let existing := (childrenOf nodes pid).filter (fun c => c.nid ≠ cid)
    let newPos := match pos with
      | some p => p
      | none => autoStackPos existing
    let nodes1 := updateNode nodes pid (fun n => { n with isContainer := true })
    updateNode nodes1 cid (fun n => { n with parent := some pid, pos := newPos })
  | _, _ => nodes

/-- `Node.remove_child_node(node)`: detaches the child if it is currently a
child of this parent; nothing else changes. -/
def removeChildNode (nodes : List NodeData) (pid cid : ℕ) : List NodeData :=
  updateNode nodes cid
    (fun n => if n.parent = some pid then { n with parent := none } else n)

lemma updateNode_map_pres {α : Type} (l : List NodeData) (k : ℕ)
    (f : NodeData → NodeData) (g : NodeData → α) (hf : ∀ n, g (f n) = g n) :
    (updateNode l k f).map g = l.map g := by
  unfold updateNode
  rw [List.map_map]
  apply List.map_congr_left
  intro n _
  by_cases hk : n.nid = k
  · simp [hk, hf]
  · simp [hk]

/-- C8 (amended): a container's rectangle NEVER changes when a child is
added (`add_child_node` explicitly skips resizing), removed, or deleted —
there is no auto-grow at all: every node keeps its identity and its exact
rectangle across all three operations (deletion only drops nodes, keeping
the survivors' records untouched). -/
theorem C8_no_autogrow :
    (∀ (nodes : List NodeData) (pid cid : ℕ) (pos : Option Pt),
      (addChildNode nodes pid cid pos).map (fun n => (n.nid, n.rect)) =
        nodes.map (fun n => (n.nid, n.rect))) ∧
    (∀ (nodes : List NodeData) (pid cid : ℕ),
      (removeChildNode nodes pid cid).map (fun n => (n.nid, n.rect)) =
        nodes.map (fun n => (n.nid, n.rect))) ∧
    (∀ (s : EditorState) (x : ℕ) (rec : Bool),
      ∀ m ∈ (deleteNode s x rec).nodes, m ∈ s.nodes) := by
  refine ⟨?_, ?_, ?_⟩
  · intro nodes pid cid pos
    unfold addChildNode
    cases lookupNode nodes pid with
    | none => rfl
    | some parentN =>
      cases lookupNode nodes cid with
      | none => rfl
      | some child =>
        dsimp only
        refine (updateNode_map_pres _ cid _ _ ?_).trans
          (updateNode_map_pres _ pid _ _ ?_)
        · intro n; rfl
        · intro n; rfl
  · intro nodes pid cid
    unfold removeChildNode
    apply updateNode_map_pres
    intro n
    by_cases hp : n.parent = some pid
    · rw [if_pos hp]
    · rw [if_neg hp]
  · intro s x rec m hm
    exact (deleteNodeFuel_nodes_sublist s.nodes.length s x rec).mem hm

def c8P : NodeData :=
  ⟨1, "P", ⟨0, 0⟩, some .stateMachine, false, false, ⟨0, 0, 200, 100⟩, none, 0⟩

def c8C : NodeData :=
  ⟨2, "C", ⟨0, 0⟩, some .state, false, false, ⟨0, 0, 80, 40⟩, none, 0⟩

theorem C8_no_autogrow_witness :
    c8P ∈ (deleteNode ⟨[c8P, c8C], [], [], [], [], [], 10, ""⟩ 2 false).nodes ∧
    c8P ∈ ([c8P, c8C] : List NodeData) ∧
    (addChildNode [c8P, c8C] 1 2 none).map (fun n => (n.nid, n.rect)) =
      [c8P, c8C].map (fun n => (n.nid, n.rect)) :=
  ⟨by
    rw [show (deleteNode ⟨[c8P, c8C], [], [], [], [], [], 10, ""⟩ 2 false).nodes =
      [c8P] from rfl]
    exact List.mem_cons_self _ _,
    C8_no_autogrow.2.2 ⟨[c8P, c8C], [], [], [], [], [], 10, ""⟩ 2 false c8P
      (by
        rw [show (deleteNode ⟨[c8P, c8C], [], [], [], [], [], 10, ""⟩ 2 false).nodes =
          [c8P] from rfl]
        exact List.mem_cons_self _ _),
    C8_no_autogrow.1 [c8P, c8C] 1 2 none⟩


/-- Counterexample to C8 as stated: dropping a child at (500, 500) into a
200×100 container leaves the container's rectangle exactly as it was, which
does not contain the child's bounding extent (let alone extra padding) —
the container does not auto-grow. -/
theorem C8_autogrow_counterexample :
    (lookupNode (addChildNode [c8P, c8C] 1 2 (some ⟨500, 500⟩)) 1).map
        NodeData.rect = some ⟨0, 0, 200, 100⟩ ∧
    (lookupNode (addChildNode [c8P, c8C] 1 2 (some ⟨500, 500⟩)) 2).map
        (fun n => (n.parent, n.pos)) = some (some 1, ⟨500, 500⟩) ∧
    ¬ Rect.containsRect ⟨0, 0, 200, 100⟩
        ((nodeBoundingRect ⟨0, 0, 80, 40⟩).translate ⟨500, 500⟩) := by
  refine ⟨rfl, rfl, ?_⟩
  intro h
  have := h.2.2.1
  norm_num [nodeBoundingRect, Rect.adjusted, Rect.translate, nodePad] at this

/-! ### Z-order maintenance (`Node.update_z_order`) -/

/-- `QRectF.intersects`: non-empty area of overlap (strict). -/
def Rect.intersects (a b : Rect) : Prop :=
  a.x < b.x + b.w ∧ b.x < a.x + a.w ∧ a.y < b.y + b.h ∧ b.y < a.y + a.h

instance (a b : Rect) : Decidable (Rect.intersects a b) := by
  unfold Rect.intersects; infer_instance

/-- `QGraphicsItem.sceneBoundingRect()`: the bounding rect (with its painting
padding) mapped to scene coordinates. -/
def sceneBR (nodes : List NodeData) (n : NodeData) : Rect :=
  (nodeBoundingRect n.rect).translate (scenePos nodes n.nid)

/-- The `other_nodes` list of `update_z_order`: every other node whose scene
bounding rect intersects `self.mapRectToScene(self.rect)`. -/
def zOthers (s : EditorState) (x : ℕ) (self : NodeData) : List NodeData :=
  s.nodes.filter (fun n => decide (n.nid ≠ x ∧
    Rect.intersects (self.rect.translate (scenePos s.nodes x)) (sceneBR s.nodes n)))

/-- The `max_z` loop of `update_z_order`: the running maximum (seeded with
-1) of the z-values of overlapping nodes with strictly smaller area. -/
def zMax (s : EditorState) (x : ℕ) (self : NodeData) : ℚ :=
  (zOthers s x self).foldl
    (fun acc n =>
      if n.rect.w * n.rect.h < self.rect.w * self.rect.h then max acc n.z else acc)
    (-1)

/-- `Node.update_z_order`: default z = 0 only when NO other node overlaps at
all; otherwise raise to `max_z + 1` only under the guard
`max_z >= 0 and self.zValue() <= max_z`, and leave z unchanged otherwise. -/
def updateZOrder (s : EditorState) (x : ℕ) : EditorState :=
  match lookupNode s.nodes x with
  | none => s
  | some self =>
    if zOthers s x self = [] then
      { s with nodes := updateNode s.nodes x (fun n => { n with z := 0 }) }
    else
      if 0 ≤ zMax s x self ∧ self.z ≤ zMax s x self then
        { s with nodes := updateNode s.nodes x (fun n => { n with z := zMax s x self + 1 }) }
      else s

lemma foldl_zmax_ge_init (A : ℚ) :
    ∀ (l : List NodeData) (init : ℚ),
      init ≤ l.foldl
        (fun acc m => if m.rect.w * m.rect.h < A then max acc m.z else acc) init := by
  intro l
  induction l with
  | nil => intro init; exact le_refl _
  | cons m l ih =>
    intro init
    rw [List.foldl_cons]
    refine le_trans ?_ (ih _)
    by_cases hm : m.rect.w * m.rect.h < A
    · rw [if_pos hm]; exact le_max_left _ _
    · rw [if_neg hm]

lemma foldl_zmax_bound (A : ℚ) :
    ∀ (l : List NodeData) (init : ℚ) (n : NodeData), n ∈ l →
      n.rect.w * n.rect.h < A →
      n.z ≤ l.foldl
        (fun acc m => if m.rect.w * m.rect.h < A then max acc m.z else acc) init := by
  intro l
  induction l with
  | nil => intro init n hn; exact absurd hn (List.not_mem_nil _)
  | cons m l ih =>
    intro init n hn hsmall
    rw [List.foldl_cons]
    rcases List.mem_cons.mp hn with rfl | hn'
    · rw [if_pos hsmall]
      exact le_trans (le_max_right _ _) (foldl_zmax_ge_init A l _)
    · exact ih _ n hn' hsmall

/-- C9 (amended): the z-value 0 default applies only when NO other node
overlaps at all (not merely no smaller one); when overlapping nodes exist,
the z-value is raised to `max_z + 1` only under the source guard
`max_z >= 0 and z <= max_z`, where `max_z` starts at -1 and bounds the
z-values of all overlapping strictly-smaller nodes; in every other case —
including a node overlapping only larger nodes — the z-value is left
unchanged. -/
theorem C9_z_order (s : EditorState) (x : ℕ) (self : NodeData)
    (hlk : lookupNode s.nodes x = some self) :
    (zOthers s x self = [] →
      updateZOrder s x = { s with nodes := updateNode s.nodes x (fun n => { n with z := 0 }) }) ∧
    (zOthers s x self ≠ [] → 0 ≤ zMax s x self → self.z ≤ zMax s x self →
      updateZOrder s x = { s with nodes := updateNode s.nodes x (fun n => { n with z := zMax s x self + 1 }) }) ∧
    (zOthers s x self ≠ [] → (zMax s x self < 0 ∨ zMax s x self < self.z) →
      updateZOrder s x = s) ∧
    (∀ n ∈ zOthers s x self,
      n.rect.w * n.rect.h < self.rect.w * self.rect.h → n.z ≤ zMax s x self) := by
  refine ⟨?_, ?_, ?_, ?_⟩
  · intro hempty
    unfold updateZOrder
    rw [hlk]
    dsimp only
    rw [if_pos hempty]
  · intro hne h0 hz
    unfold updateZOrder
    rw [hlk]
    dsimp only
    rw [if_neg hne, if_pos ⟨h0, hz⟩]
  · intro hne hfail
    unfold updateZOrder
    rw [hlk]
    dsimp only
    rw [if_neg hne, if_neg]
    intro ⟨h0, hz⟩
    rcases hfail with h | h
    · exact absurd h0 (not_le.mpr h)
    · exact absurd hz (not_le.mpr h)
  · intro n hn hsmall
    exact foldl_zmax_bound _ _ _ n hn hsmall

theorem C9_z_order_witness :
    zOthers ⟨[⟨1, "S", ⟨0, 0⟩, some .state, false, false, ⟨0, 0, 10, 10⟩, none, 5⟩],
        [], [], [], [], [], 10, ""⟩ 1
      ⟨1, "S", ⟨0, 0⟩, some .state, false, false, ⟨0, 0, 10, 10⟩, none, 5⟩ = [] ∧
    updateZOrder ⟨[⟨1, "S", ⟨0, 0⟩, some .state, false, false, ⟨0, 0, 10, 10⟩, none, 5⟩],
        [], [], [], [], [], 10, ""⟩ 1 =
      { (⟨[⟨1, "S", ⟨0, 0⟩, some .state, false, false, ⟨0, 0, 10, 10⟩, none, 5⟩],
          [], [], [], [], [], 10, ""⟩ : EditorState) with
        nodes := updateNode [⟨1, "S", ⟨0, 0⟩, some .state, false, false, ⟨0, 0, 10, 10⟩, none, 5⟩] 1 (fun n => { n with z := 0 }) } := by
  constructor
  · rfl
  · exact (C9_z_order
      ⟨[⟨1, "S", ⟨0, 0⟩, some .state, false, false, ⟨0, 0, 10, 10⟩, none, 5⟩],
        [], [], [], [], [], 10, ""⟩ 1
      ⟨1, "S", ⟨0, 0⟩, some .state, false, false, ⟨0, 0, 10, 10⟩, none, 5⟩ rfl).1 rfl

def c9Small : NodeData :=
  ⟨1, "S", ⟨0, 0⟩, some .state, false, false, ⟨0, 0, 10, 10⟩, none, 5⟩

def c9Big : NodeData :=
  ⟨2, "B", ⟨0, 0⟩, some .stateMachine, false, false, ⟨0, 0, 1000, 1000⟩, none, 0⟩

def c9S : EditorState := ⟨[c9Small, c9Big], [], [], [], [], [], 10, ""⟩

/-- Counterexample to C9 as stated: node 1 (z = 5) overlaps only a strictly
LARGER node, so it has no overlapping smaller neighbors — the claim says it
gets the default z-value 0, but `update_z_order` leaves it at 5 (the
`max_z >= 0` guard fails with `max_z = -1`). -/
theorem C9_z_counterexample :
    (∀ n ∈ zOthers c9S 1 c9Small,
      ¬(n.rect.w * n.rect.h < c9Small.rect.w * c9Small.rect.h)) ∧
    updateZOrder c9S 1 = c9S ∧
    (lookupNode (updateZOrder c9S 1).nodes 1).map NodeData.z = some 5 ∧
    (5 : ℚ) ≠ 0 := by
  have hothers : zOthers c9S 1 c9Small = [c9Big] := by
    unfold zOthers
    rw [show c9S.nodes = [c9Small, c9Big] from rfl]
    have h1 : decide (c9Small.nid ≠ 1 ∧
        Rect.intersects (c9Small.rect.translate (scenePos [c9Small, c9Big] 1))
          (sceneBR [c9Small, c9Big] c9Small)) = false := by
      simp [c9Small]
    have h2 : decide (c9Big.nid ≠ 1 ∧
        Rect.intersects (c9Small.rect.translate (scenePos [c9Small, c9Big] 1))
          (sceneBR [c9Small, c9Big] c9Big)) = true := by
      rw [decide_eq_true_eq]
      refine ⟨by norm_num [c9Big], ?_⟩
      have e1 : scenePos [c9Small, c9Big] 1 = c9Small.pos := rfl
      have e2 : scenePos [c9Small, c9Big] c9Big.nid = c9Big.pos := rfl
      simp only [sceneBR]
      rw [e1, e2]
      norm_num [Rect.intersects, Rect.translate, nodeBoundingRect,
        Rect.adjusted, nodePad, c9Small, c9Big]
    rw [List.filter_cons, List.filter_cons, List.filter_nil, h1, h2]
    simp
  have hmax : zMax c9S 1 c9Small = -1 := by
    unfold zMax
    rw [hothers, List.foldl_cons, List.foldl_nil]
    rw [if_neg (show ¬(c9Big.rect.w * c9Big.rect.h < c9Small.rect.w * c9Small.rect.h)
      by norm_num [c9Big, c9Small])]
  have hupd : updateZOrder c9S 1 = c9S := by
    unfold updateZOrder
    rw [show lookupNode c9S.nodes 1 = some c9Small from rfl]
    dsimp only
    rw [if_neg (show ¬(zOthers c9S 1 c9Small = []) by rw [hothers]; simp),
      if_neg (show ¬(0 ≤ zMax c9S 1 c9Small ∧ c9Small.z ≤ zMax c9S 1 c9Small) by
        rw [hmax]; norm_num)]
  refine ⟨?_, hupd, ?_, by norm_num⟩
  · intro n hn
    rw [hothers] at hn
    rcases List.mem_singleton.mp hn with rfl
    norm_num [c9Big, c9Small]
  · rw [hupd]; rfl

/-! ### Drop-reparenting (`Node._check_and_update_parent`) -/

def areaOf (n : NodeData) : ℚ := n.rect.w * n.rect.h

/-- The parent chain starting at `nid` terminates within `fuel` steps. -/
def chainFuelOk (nodes : List NodeData) : ℕ → ℕ → Bool
  | 0, _ => false
  | fuel + 1, nid =>
    match lookupNode nodes nid with
    | none => true
    | some n =>
      match n.parent with
      | none => true
      | some p => chainFuelOk nodes fuel p

/-- The parent chain starting at `nid` terminates within `fuel` steps and
never passes through `x`. -/
def chainAvoids (nodes : List NodeData) : ℕ → ℕ → ℕ → Bool
  | 0, _, _ => false
  | fuel + 1, nid, x =>
    if nid = x then false
    else
      match lookupNode nodes nid with
      | none => true
      | some n =>
        match n.parent with
        | none => true
        | some p => chainAvoids nodes fuel p x

/-- Python's stable `sort` by area followed by `[0]`: the first element of
minimal area. -/
def minByArea : List NodeData → Option NodeData
  | [] => none
  | n :: ns => some (ns.foldl (fun best m => if areaOf m < areaOf best then m else best) n)

/-- The `potential_parents` filter of `_check_and_update_parent`: every other
node that is not a descendant of the dragged node, is not a strict ancestor
(unless it is the current parent), and whose scene bounding rect fully
contains the dragged node's scene bounding rect. -/
def c7candidates (nodes : List NodeData) (x : ℕ) (self : NodeData) : List NodeData :=
  nodes.filter (fun n => decide (
    n.nid ≠ x ∧
    isDescFuel nodes nodes.length n.nid x = false ∧
    (isDescFuel nodes nodes.length x n.nid = false ∨ self.parent = some n.nid) ∧
    Rect.containsRect (sceneBR nodes n) (sceneBR nodes self)))

/-- `Node._reparent_to(new_parent)`: save the scene position, make the new
parent a container, relink, and restore the position in the new parent's
local coordinates (`mapFromScene`). -/
def reparentTo (nodes : List NodeData) (x p : ℕ) : List NodeData :=
  let sp := scenePos nodes x
  let pp := scenePos nodes p
  let nodes1 := updateNode nodes p (fun n => { n with isContainer := true })
  updateNode nodes1 x (fun n => { n with parent := some p, pos := ⟨sp.x - pp.x, sp.y - pp.y⟩ })

/-- `Node._remove_from_parent()`: detach to the document root, restoring the
saved scene position. -/
def removeFromParent (nodes : List NodeData) (x : ℕ) : List NodeData :=
  let sp := scenePos nodes x
  updateNode nodes x (fun n => { n with parent := none, pos := sp })

/-- `Node._check_and_update_parent()` (after a drag completes). -/
def checkAndUpdateParent (nodes : List NodeData) (x : ℕ) : List NodeData :=
  match lookupNode nodes x with
  | none => nodes
  | some self =>
    match minByArea (c7candidates nodes x self) with
    | some np =>
      if self.parent = some np.nid then nodes
      else reparentTo nodes x np.nid
    | none =>
      match self.parent with
      | some _ => removeFromParent nodes x
      | none => nodes

lemma lookupNode_updateNode (l : List NodeData) (k : ℕ) (f : NodeData → NodeData)
    (hf : ∀ n, (f n).nid = n.nid) (q : ℕ) :
    lookupNode (updateNode l k f) q =
      (lookupNode l q).map (fun n => if n.nid = k then f n else n) := by
  induction l with
  | nil => rfl
  | cons a l ih =>
    unfold updateNode at *
    simp only [List.map_cons]
    unfold lookupNode at *
    rw [List.find?_cons, List.find?_cons]
    have hga : ((if a.nid = k then f a else a).nid == q) = (a.nid == q) := by
      by_cases h : a.nid = k
      · rw [if_pos h, hf]
      · rw [if_neg h]
    rw [hga]
    cases hq : (a.nid == q) with
    | true => rfl
    | false => exact ih

lemma updateNode_length (l : List NodeData) (k : ℕ) (f : NodeData → NodeData) :
    (updateNode l k f).length = l.length := by
  unfold updateNode
  exact List.length_map _ _

lemma chainFuelOk_mono (nodes : List NodeData) :
    ∀ (fuel : ℕ) (q : ℕ) (fuel' : ℕ), fuel ≤ fuel' →
      chainFuelOk nodes fuel q = true → chainFuelOk nodes fuel' q = true := by
  intro fuel
  induction fuel with
  | zero => intro q fuel' _ h; simp [chainFuelOk] at h
  | succ fuel ih =>
    intro q fuel' hle h
    obtain ⟨f', rfl⟩ : ∃ f', fuel' = f' + 1 := by
      cases fuel' with
      | zero => omega
      | succ f' => exact ⟨f', rfl⟩
    rw [chainFuelOk] at h ⊢
    cases hl : lookupNode nodes q with
    | none => rfl
    | some n =>
      rw [hl] at h
      dsimp only at h ⊢
      cases hp : n.parent with
      | none => rfl
      | some p =>
        rw [hp] at h
        dsimp only at h ⊢
        exact ih p f' (by omega) h

lemma isDescFuel_mono (nodes : List NodeData) (x : ℕ) :
    ∀ (fuel : ℕ) (q : ℕ) (fuel' : ℕ), fuel ≤ fuel' →
      isDescFuel nodes fuel q x = true → isDescFuel nodes fuel' q x = true := by
  intro fuel
  induction fuel with
  | zero => intro q fuel' _ h; simp [isDescFuel] at h
  | succ fuel ih =>
    intro q fuel' hle h
    obtain ⟨f', rfl⟩ : ∃ f', fuel' = f' + 1 := by
      cases fuel' with
      | zero => omega
      | succ f' => exact ⟨f', rfl⟩
    rw [isDescFuel] at h ⊢
    cases hl : lookupNode nodes q with
    | none => rw [hl] at h; simp at h
    | some n =>
      rw [hl] at h
      dsimp only at h ⊢
      cases hp : n.parent with
      | none => rw [hp] at h; simp at h
      | some p =>
        rw [hp] at h
        dsimp only at h ⊢
        by_cases hpx : p = x
        · simp [hpx]
        · simp only [hpx, if_false] at h ⊢
          exact ih p f' (by omega) h

lemma scenePosAux_stable (nodes : List NodeData) :
    ∀ (fuel : ℕ) (q : ℕ) (fuel' : ℕ), fuel ≤ fuel' →
      chainFuelOk nodes fuel q = true →
      scenePosAux nodes fuel' q = scenePosAux nodes fuel q := by
  intro fuel
  induction fuel with
  | zero => intro q fuel' _ h; simp [chainFuelOk] at h
  | succ fuel ih =>
    intro q fuel' hle h
    obtain ⟨f', rfl⟩ : ∃ f', fuel' = f' + 1 := by
      cases fuel' with
      | zero => omega
      | succ f' => exact ⟨f', rfl⟩
    rw [chainFuelOk] at h
    rw [scenePosAux, scenePosAux]
    cases hl : lookupNode nodes q with
    | none => rfl
    | some n =>
      rw [hl] at h
      dsimp only at h ⊢
      cases hp : n.parent with
      | none => rfl
      | some p =>
        rw [hp] at h
        dsimp only at h ⊢
        rw [ih p f' (by omega) h]

lemma chainAvoids_of (nodes : List NodeData) (x : ℕ) :
    ∀ (fuel : ℕ) (q : ℕ), chainFuelOk nodes fuel q = true → q ≠ x →
      isDescFuel nodes fuel q x = false → chainAvoids nodes fuel q x = true := by
  intro fuel
  induction fuel with
  | zero => intro q h; simp [chainFuelOk] at h
  | succ fuel ih =>
    intro q hterm hqx hdesc
    rw [chainFuelOk] at hterm
    rw [isDescFuel] at hdesc
    rw [chainAvoids, if_neg hqx]
    cases hl : lookupNode nodes q with
    | none => rfl
    | some n =>
      rw [hl] at hterm hdesc
      dsimp only at hterm hdesc ⊢
      cases hp : n.parent with
      | none => rfl
      | some p =>
        rw [hp] at hterm hdesc
        dsimp only at hterm hdesc ⊢
        by_cases hpx : p = x
        · simp [hpx] at hdesc
        · simp only [hpx, if_false] at hdesc
          exact ih p hterm hpx hdesc

lemma scenePosAux_congr (nodes nodes' : List NodeData) (x : ℕ)
    (h : ∀ q, q ≠ x → (lookupNode nodes' q).map (fun n => (n.pos, n.parent)) =
      (lookupNode nodes q).map (fun n => (n.pos, n.parent))) :
    ∀ (fuel : ℕ) (q : ℕ), chainAvoids nodes fuel q x = true →
      scenePosAux nodes' fuel q = scenePosAux nodes fuel q := by
  intro fuel
  induction fuel with
  | zero => intro q hq; simp [chainAvoids] at hq
  | succ fuel ih =>
    intro q hq
    rw [chainAvoids] at hq
    by_cases hqx : q = x
    · rw [if_pos hqx] at hq; exact absurd hq (by simp)
    · rw [if_neg hqx] at hq
      have hmap := h q hqx
      rw [scenePosAux, scenePosAux]
      cases hl : lookupNode nodes q with
      | none =>
        rw [hl] at hmap
        have hl' : lookupNode nodes' q = none := by
          cases hl2 : lookupNode nodes' q with
          | none => rfl
          | some m => rw [hl2] at hmap; simp at hmap
        rw [hl']
      | some n =>
        rw [hl] at hmap hq
        dsimp only at hq
        obtain ⟨n', hl2, hpos, hpar⟩ : ∃ n', lookupNode nodes' q = some n' ∧
            n'.pos = n.pos ∧ n'.parent = n.parent := by
          cases hl2 : lookupNode nodes' q with
          | none => rw [hl2] at hmap; simp at hmap
          | some m =>
            rw [hl2] at hmap
            simp only [Option.map_some'] at hmap
            injection hmap with hmap
            exact ⟨m, rfl, congrArg Prod.fst hmap, congrArg Prod.snd hmap⟩
        rw [hl2]
        dsimp only
        rw [hpar]
        cases hp : n.parent with
        | none => rw [hpos]
        | some p =>
          rw [hp] at hq
          dsimp only at hq
          dsimp only
          rw [ih p hq, hpos]

lemma minArea_foldl_mem :
    ∀ (l : List NodeData) (b : NodeData),
      l.foldl (fun best m => if areaOf m < areaOf best then m else best) b = b ∨
      l.foldl (fun best m => if areaOf m < areaOf best then m else best) b ∈ l := by
  intro l
  induction l with
  | nil => intro b; exact Or.inl rfl
  | cons a l ih =>
    intro b
    rw [List.foldl_cons]
    by_cases ha : areaOf a < areaOf b
    · rw [if_pos ha]
      rcases ih a with h | h
      · refine Or.inr ?_
        rw [h]
        exact List.mem_cons_self _ _
      · exact Or.inr (List.mem_cons_of_mem _ h)
    · rw [if_neg ha]
      rcases ih b with h | h
      · exact Or.inl h
      · exact Or.inr (List.mem_cons_of_mem _ h)

lemma minArea_foldl_le :
    ∀ (l : List NodeData) (b : NodeData),
      areaOf (l.foldl (fun best m => if areaOf m < areaOf best then m else best) b) ≤
        areaOf b := by
  intro l
  induction l with
  | nil => intro b; exact le_refl _
  | cons a l ih =>
    intro b
    rw [List.foldl_cons]
    by_cases ha : areaOf a < areaOf b
    · rw [if_pos ha]
      exact le_trans (ih a) (le_of_lt ha)
    · rw [if_neg ha]
      exact ih b

lemma minArea_foldl_min :
    ∀ (l : List NodeData) (b : NodeData) (m : NodeData), m ∈ l →
      areaOf (l.foldl (fun best mm => if areaOf mm < areaOf best then mm else best) b) ≤
        areaOf m := by
  intro l
  induction l with
  | nil => intro b m hm; exact absurd hm (List.not_mem_nil _)
  | cons a l ih =>
    intro b m hm
    rw [List.foldl_cons]
    rcases List.mem_cons.mp hm with rfl | hm'
    · by_cases ha : areaOf m < areaOf b
      · rw [if_pos ha]; exact minArea_foldl_le l m
      · rw [if_neg ha]
        exact le_trans (minArea_foldl_le l b) (not_lt.mp ha)
    · by_cases ha : areaOf a < areaOf b
      · rw [if_pos ha]; exact ih a m hm'
      · rw [if_neg ha]; exact ih b m hm'

lemma minByArea_mem {l : List NodeData} {n : NodeData}
    (h : minByArea l = some n) : n ∈ l := by
  cases l with
  | nil => simp [minByArea] at h
  | cons a l =>
    rw [minByArea] at h
    injection h with h
    rcases minArea_foldl_mem l a with h' | h'
    · rw [← h, h']; exact List.mem_cons_self _ _
    · rw [← h]; exact List.mem_cons_of_mem _ h'

lemma minByArea_min {l : List NodeData} {n : NodeData}
    (h : minByArea l = some n) : ∀ m ∈ l, areaOf n ≤ areaOf m := by
  cases l with
  | nil => simp [minByArea] at h
  | cons a l =>
    rw [minByArea] at h
    injection h with h
    intro m hm
    rcases List.mem_cons.mp hm with rfl | hm'
    · rw [← h]; exact minArea_foldl_le l m
    · rw [← h]; exact minArea_foldl_min l a m hm'

lemma reparent_scene_eq (pt s : Pt) :
    (⟨pt.x + (s.x - pt.x), pt.y + (s.y - pt.y)⟩ : Pt) = s := by
  cases s
  simp only [Pt.mk.injEq]
  constructor <;> ring

/-- C7: after a drag, if the candidate filter is nonempty the FIRST candidate
of minimal area becomes (or stays) the node's parent, and if it is empty a
currently-parented node is detached to the root; in both cases the node's
scene position is preserved across the coordinate-space change.  Hypotheses:
the dragged node exists, and every parent chain terminates within `D` steps
for some bound `D` below the node count (acyclicity of a well-formed forest). -/
theorem C7_containment_reparent (nodes : List NodeData) (x D : ℕ) (self : NodeData)
    (hlk : lookupNode nodes x = some self)
    (hD : D < nodes.length)
    (hterm : ∀ n ∈ nodes, chainFuelOk nodes D n.nid = true) :
    (∀ np, minByArea (c7candidates nodes x self) = some np →
      np ∈ c7candidates nodes x self ∧
      (∀ m ∈ c7candidates nodes x self, areaOf np ≤ areaOf m) ∧
      (lookupNode (checkAndUpdateParent nodes x) x).map NodeData.parent =
        some (some np.nid) ∧
      scenePos (checkAndUpdateParent nodes x) x = scenePos nodes x) ∧
    (minByArea (c7candidates nodes x self) = none → self.parent ≠ none →
      (lookupNode (checkAndUpdateParent nodes x) x).map NodeData.parent =
        some none ∧
      scenePos (checkAndUpdateParent nodes x) x = scenePos nodes x) ∧
    (minByArea (c7candidates nodes x self) = none → self.parent = none →
      checkAndUpdateParent nodes x = nodes) := by
  have hselfmem := lookupNode_mem hlk
  have hselfnid : self.nid = x := lookupNode_nid hlk
  obtain ⟨k, hk⟩ : ∃ k, nodes.length = k + 1 := by
    cases hL : nodes.length with
    | zero =>
      rw [List.length_eq_zero.mp hL] at hselfmem
      exact absurd hselfmem (List.not_mem_nil _)
    | succ k => exact ⟨k, rfl⟩
  refine ⟨?_, ?_, ?_⟩
  · -- branch A: a minimal-area candidate exists
    intro np hmb
    have hnp_mem_c : np ∈ c7candidates nodes x self := minByArea_mem hmb
    have hmin := minByArea_min hmb
    have hcond := List.of_mem_filter hnp_mem_c
    rw [decide_eq_true_eq] at hcond
    obtain ⟨hnpx, hnpdesc, _hanc, _hcont⟩ := hcond
    have hnp_nodes : np ∈ nodes := List.mem_of_mem_filter hnp_mem_c
    refine ⟨hnp_mem_c, hmin, ?_⟩
    by_cases hpar : self.parent = some np.nid
    · have hres : checkAndUpdateParent nodes x = nodes := by
        unfold checkAndUpdateParent
        rw [hlk]
        dsimp only
        rw [hmb]
        dsimp only
        rw [if_pos hpar]
      rw [hres, hlk]
      exact ⟨by simp [hpar], rfl⟩
    · have hres : checkAndUpdateParent nodes x = reparentTo nodes x np.nid := by
        unfold checkAndUpdateParent
        rw [hlk]
        dsimp only
        rw [hmb]
        dsimp only
        rw [if_neg hpar]
      have hselfne : ¬(self.nid = np.nid) := by
        rw [hselfnid]
        intro hh
        exact hnpx hh.symm
      have hlookupR : lookupNode (reparentTo nodes x np.nid) x =
          some { self with parent := some np.nid, pos := (⟨(scenePos nodes x).x - (scenePos nodes np.nid).x, (scenePos nodes x).y - (scenePos nodes np.nid).y⟩ : Pt) } := by
        unfold reparentTo
        dsimp only
        rw [lookupNode_updateNode]
        rw [lookupNode_updateNode]
        rw [hlk]
        simp only [Option.map_some']
        rw [if_neg hselfne, if_pos hselfnid]
        all_goals first
        | rfl
        | (intro n; rfl)
      -- chain facts for the new parent
      have ht : chainFuelOk nodes D np.nid = true := hterm np hnp_nodes
      have htk : chainFuelOk nodes k np.nid = true :=
        chainFuelOk_mono nodes D np.nid k (by omega) ht
      have hdk : isDescFuel nodes k np.nid x = false := by
        cases hdk : isDescFuel nodes k np.nid x with
        | false => rfl
        | true =>
          have := isDescFuel_mono nodes x k np.nid nodes.length (by omega) hdk
          rw [this] at hnpdesc
          exact Bool.noConfusion hnpdesc
      have havoid : chainAvoids nodes k np.nid x = true :=
        chainAvoids_of nodes x k np.nid htk hnpx hdk
      have hmapq : ∀ q, q ≠ x →
          (lookupNode (reparentTo nodes x np.nid) q).map (fun n => (n.pos, n.parent)) =
            (lookupNode nodes q).map (fun n => (n.pos, n.parent)) := by
        intro q hqx
        unfold reparentTo
        dsimp only
        rw [lookupNode_updateNode]
        rw [lookupNode_updateNode]
        cases hql : lookupNode nodes q with
        | none => rfl
        | some m =>
          have hmq : m.nid = q := lookupNode_nid hql
          simp only [Option.map_some']
          have houter : ∀ (y : NodeData), y.nid = q → ¬(y.nid = x) := by
            intro y hy hyx
            exact hqx (hy ▸ hyx)
          by_cases hmp : m.nid = np.nid
          · rw [if_pos hmp]
            rw [if_neg (houter _ hmq)]
          · rw [if_neg hmp]
            rw [if_neg (houter _ hmq)]
        all_goals first
        | rfl
        | (intro n; rfl)
      have hcongr : scenePosAux (reparentTo nodes x np.nid) k np.nid =
          scenePosAux nodes k np.nid :=
        scenePosAux_congr nodes (reparentTo nodes x np.nid) x hmapq k np.nid havoid
      have hstable : scenePosAux nodes (k + 1) np.nid = scenePosAux nodes k np.nid :=
        scenePosAux_stable nodes k np.nid (k + 1) (by omega) htk
      have hppk : scenePos nodes np.nid = scenePosAux nodes k np.nid := by
        unfold scenePos
        rw [hk]
        exact hstable
      have hlenR : (reparentTo nodes x np.nid).length = nodes.length := by
        unfold reparentTo
        dsimp only
        rw [updateNode_length, updateNode_length]
      rw [hres]
      constructor
      · rw [hlookupR]
        rfl
      · show scenePosAux (reparentTo nodes x np.nid)
          (reparentTo nodes x np.nid).length x = scenePos nodes x
        rw [hlenR, hk, scenePosAux, hlookupR]
        dsimp only
        rw [hcongr, ← hppk]
        exact reparent_scene_eq _ _
  · -- branch B: no candidate, currently parented: detach to root
    intro hmb hparne
    have hres : checkAndUpdateParent nodes x = removeFromParent nodes x := by
      unfold checkAndUpdateParent
      rw [hlk]
      dsimp only
      rw [hmb]
      dsimp only
      cases hp : self.parent with
      | none => exact absurd hp hparne
      | some pp => rfl
    have hlookupR : lookupNode (removeFromParent nodes x) x =
        some { self with parent := none, pos := scenePos nodes x } := by
      unfold removeFromParent
      dsimp only
      rw [lookupNode_updateNode]
      rw [hlk]
      simp only [Option.map_some']
      rw [if_pos hselfnid]
      all_goals first
      | rfl
      | (intro n; rfl)
    rw [hres]
    constructor
    · rw [hlookupR]
      rfl
    · show scenePosAux (removeFromParent nodes x)
        (removeFromParent nodes x).length x = scenePos nodes x
      have hlenR : (removeFromParent nodes x).length = nodes.length := by
        unfold removeFromParent
        dsimp only
        rw [updateNode_length]
      rw [hlenR, hk, scenePosAux, hlookupR]
  · -- branch C: no candidate and no parent: nothing happens
    intro hmb hparnone
    unfold checkAndUpdateParent
    rw [hlk]
    dsimp only
    rw [hmb]
    dsimp only
    rw [hparnone]

def c7Root : NodeData :=
  ⟨1, "Root", ⟨0, 0⟩, some .stateMachine, false, true, ⟨0, 0, 200, 200⟩, none, 0⟩

def c7ChildA : NodeData :=
  ⟨2, "A", ⟨10, 40⟩, some .state, false, false, ⟨0, 0, 50, 50⟩, some 1, 0⟩

def c7ChildB : NodeData :=
  ⟨5, "B", ⟨10, 100⟩, some .state, false, false, ⟨0, 0, 50, 50⟩, some 1, 0⟩

def c7nodes : List NodeData := [c7Root, c7ChildA, c7ChildB]

theorem C7_containment_reparent_witness :
    lookupNode c7nodes 1 = some c7Root ∧
    2 < c7nodes.length ∧
    (∀ n ∈ c7nodes, chainFuelOk c7nodes 2 n.nid = true) ∧
    minByArea (c7candidates c7nodes 1 c7Root) = none ∧
    c7Root.parent = none ∧
    checkAndUpdateParent c7nodes 1 = c7nodes := by
  refine ⟨rfl, by decide, by decide, rfl, rfl, ?_⟩
  exact (C7_containment_reparent c7nodes 1 2 c7Root rfl (by decide) (by decide)).2.2
    rfl rfl

/-! ### Save / load round-trip (`save_design`, `load_design`) -/

/-- One entry of the `nodes` array in the saved JSON document. -/
structure SavedNode where
  title : String
  pos : Pt
  rect : Rect
  node_type : Option NType
  is_container : Bool
  is_initial : Bool
  parent_id : Option ℕ
  sid : ℕ
deriving DecidableEq, Repr

/-- One entry of the `edges` array in the saved JSON document. -/
structure SavedEdge where
  start_id : Option ℕ
  end_id : Option ℕ
  title : String
  ratio : Option ℚ
  start_off : Option Pt
  end_off : Option Pt
deriving DecidableEq, Repr

structure Design where
  nodes : List SavedNode
  edges : List SavedEdge
deriving DecidableEq, Repr

/-- The `collect_all_nodes` preorder traversal of `save_design`: each root
followed by its (recursively collected) children. -/
def preorderFuel (nodes : List NodeData) : ℕ → List NodeData → List NodeData
  | 0, _ => []
  | fuel + 1, roots =>
    (roots.map (fun n => n :: preorderFuel nodes fuel (childrenOf nodes n.nid))).join

/-- The window's `self.nodes` bookkeeping list, resolved against the scene.
`load_design` appends only top-level nodes to it, `add_node` and the
undo/redo recreation branches append new nodes — but `_reparent_to` and
`_remove_from_parent` never touch it, so after drag-reparenting it can go
stale: a detached ex-child is in no list, a dragged-in root stays listed. -/
def windowNodes (nodes : List NodeData) (winNodes : List ℕ) : List NodeData :=
  winNodes.filterMap (lookupNode nodes)

/-- `collect_all_nodes(self.nodes)`: the preorder traversal `save_design`
actually performs — it starts from the (possibly stale) bookkeeping list,
not from the true set of parentless nodes. -/
def collectAllNodes (nodes : List NodeData) (winNodes : List ℕ) : List NodeData :=
  preorderFuel nodes nodes.length (windowNodes nodes winNodes)

def saveNode (n : NodeData) : SavedNode :=
  ⟨n.title, n.pos, n.rect, n.ntype, n.isContainer, n.isInitial, n.parent, n.nid⟩

/-- The offset actually written out: the cached offset when it is truthy
(`if edge.start_offset:` — `QPointF(0, 0)` is falsy), else the control
point's offset when a control exists. -/
def savedOff (cached ctl : Option Pt) : Option Pt :=
  match cached with
  | some p => if p ≠ ⟨0, 0⟩ then some p else ctl
  | none => ctl

def saveEdge (e : EdgeData) : SavedEdge :=
  ⟨some e.startId, some e.endId, e.title, some e.ratio,
    savedOff e.startOff e.startCtl, savedOff e.endOff e.endCtl⟩

/-- `save_design`: serialize the nodes reached from the window's
bookkeeping list, then all edges. -/
def saveDesign (s : EditorState) (winNodes : List ℕ) : Design :=
  ⟨(collectAllNodes s.nodes winNodes).map saveNode, s.edges.map saveEdge⟩

/-- `if parent_id and parent_id in id_to_node:` — the parent reference is
used only when it is truthy (nonzero) and resolvable. -/
def truthyId (ids : List ℕ) : Option ℕ → Option ℕ
  | none => none
  | some p => if p ≠ 0 ∧ p ∈ ids then some p else none

/-- The new identity assigned to the node saved under `oid`: the objects are
created in file order, so the identity is the base plus the index of the
(first) saved node with that id. -/
def loadRename (d : Design) (base : ℕ) (oid : ℕ) : ℕ :=
  base + d.nodes.findIdx (fun m => m.sid == oid)

/-- A self-contained indexed enumeration (`enumerate` in the loops). -/
def enumFromM {α : Type} : ℕ → List α → List (ℕ × α)
  | _, [] => []
  | i, a :: l => (i, a) :: enumFromM (i + 1) l

/-- The scene mutations of the second pass of `load_design`, in source
order: for every saved node with a resolvable parent, `add_child_node`
promotes the parent to a container and sets the child's parent link and its
saved local position. -/
def nodeOps (d : Design) (base : ℕ) : List (ℕ × (NodeData → NodeData)) :=
  ((enumFromM 0 d.nodes).map (fun p =>
    match truthyId (d.nodes.map SavedNode.sid) p.2.parent_id with
    | some pr =>
      [(loadRename d base pr, fun n => { n with isContainer := true }),
       (base + p.1, fun n => { n with parent := some (loadRename d base pr), pos := p.2.pos })]
    | none => [])).join

def autoOffsetId (nodes : List NodeData) (nid other : ℕ) : Pt :=
  match lookupNode nodes nid with
  | some n => autoOffset nodes n other
  | none => ⟨0, 0⟩

/-- The first pass of `load_design`: every saved node is recreated with a
fresh identity `base + index`, its saved geometry and flags, the type set
via `set_node_type` and the title restored afterwards, and no parent yet. -/
def loadPass1 (d : Design) (base : ℕ) : List NodeData :=
  (enumFromM 0 d.nodes).map (fun p =>
    ({ nid := base + p.1, title := p.2.title, pos := p.2.pos, ntype := p.2.node_type,
       isInitial := p.2.is_initial, isContainer := p.2.is_container, rect := p.2.rect,
       parent := none, z := 0 } : NodeData))

def loadNodes (d : Design) (base : ℕ) : List NodeData :=
  (nodeOps d base).foldl (fun l kf => updateNode l kf.1 kf.2) (loadPass1 d base)

/-- `if start_node_id in id_to_node and end_node_id in id_to_node:` — an
edge is recreated only when both endpoints resolve. -/
def edgeAccept (ids : List ℕ) (se : SavedEdge) : Bool :=
  match se.start_id, se.end_id with
  | some sid, some tid => decide (sid ∈ ids) && decide (tid ∈ ids)
  | _, _ => false

/-- One recreated edge: new identity, renamed endpoints, saved title, saved
ratio (`None` falling back to 0.5), and the stored offsets restored into
both the control and the cache (a missing stored offset leaves the
recreated control at its constructed border position). -/
def loadEdge (d : Design) (base ebase : ℕ) (nodes1 : List NodeData)
    (p : ℕ × SavedEdge) : EdgeData :=
  let ns := loadRename d base (p.2.start_id.getD 0)
  let nt := loadRename d base (p.2.end_id.getD 0)
  let sVal := match p.2.start_off with
    | some q => q
    | none => autoOffsetId nodes1 ns nt
  let eVal := match p.2.end_off with
    | some q => q
    | none => autoOffsetId nodes1 nt ns
  let rat := match p.2.ratio with
    | some r => r
    | none => 1 / 2
  { eid := ebase + p.1, startId := ns, endId := nt, title := p.2.title,
    ratio := rat, startOff := some sVal, endOff := some eVal,
    startCtl := some sVal, endCtl := some eVal,
    startPosRaw := scenePos nodes1 ns, endPosRaw := scenePos nodes1 ns }

/-- `load_design` on an in-memory document. -/
def loadDesign (d : Design) (base ebase : ℕ) : EditorState :=
  ⟨loadNodes d base,
    (enumFromM 0 (d.edges.filter (edgeAccept (d.nodes.map SavedNode.sid)))).map
      (loadEdge d base ebase (loadNodes d base)),
    [], [], [], [], base + d.nodes.length + d.edges.length,
    "Design loaded successfully!"⟩

/-- The bookkeeping list `load_design` leaves in `self.nodes`: only the
top-level loaded nodes are appended (the second pass appends a node to the
window list exactly when its parent reference does not resolve). -/
def loadWinNodes (d : Design) (base : ℕ) : List ℕ :=
  (enumFromM 0 d.nodes).filterMap (fun p =>
    match truthyId (d.nodes.map SavedNode.sid) p.2.parent_id with
    | some _ => none
    | none => some (base + p.1))

lemma enumFromM_length {α : Type} :
    ∀ (l : List α) (i0 : ℕ), (enumFromM i0 l).length = l.length := by
  intro l
  induction l with
  | nil => intro i0; rfl
  | cons a l ih => intro i0; rw [enumFromM, List.length_cons, List.length_cons, ih]

lemma enumFromM_get? {α : Type} :
    ∀ (l : List α) (i0 j : ℕ),
      (enumFromM i0 l).get? j = (l.get? j).map (fun a => (i0 + j, a)) := by
  intro l
  induction l with
  | nil => intro i0 j; cases j <;> rfl
  | cons a l ih =>
    intro i0 j
    cases j with
    | zero => simp [enumFromM]
    | succ j =>
      rw [enumFromM]
      show (enumFromM (i0 + 1) l).get? j = _
      rw [ih]
      have hij : i0 + 1 + j = i0 + (j + 1) := by omega
      rw [hij]
      rfl

lemma mem_enumFromM {α : Type} :
    ∀ (l : List α) (i0 : ℕ) (p : ℕ × α), p ∈ enumFromM i0 l →
      ∃ j, l.get? j = some p.2 ∧ p.1 = i0 + j := by
  intro l
  induction l with
  | nil => intro i0 p h; exact absurd h (List.not_mem_nil _)
  | cons a l ih =>
    intro i0 p h
    rw [enumFromM] at h
    rcases List.mem_cons.mp h with rfl | h'
    · exact ⟨0, rfl, (Nat.add_zero i0).symm⟩
    · obtain ⟨j, hj1, hj2⟩ := ih (i0 + 1) p h'
      exact ⟨j + 1, hj1, by omega⟩

lemma mem_enumFromM_intro {α : Type} (l : List α) (i0 j : ℕ) (a : α)
    (h : l.get? j = some a) : (i0 + j, a) ∈ enumFromM i0 l := by
  have hg : (enumFromM i0 l).get? j = some (i0 + j, a) := by
    rw [enumFromM_get?, h]
    rfl
  exact List.get?_mem hg

lemma foldl_updateNode_map :
    ∀ (ops : List (ℕ × (NodeData → NodeData))) (acc : List NodeData),
      ops.foldl (fun l kf => updateNode l kf.1 kf.2) acc =
        acc.map (fun e => ops.foldl (fun m kf => if m.nid = kf.1 then kf.2 m else m) e) := by
  intro ops
  induction ops with
  | nil => intro acc; simp
  | cons kf ops ih =>
    intro acc
    rw [List.foldl_cons, ih]
    unfold updateNode
    rw [List.map_map]
    apply List.map_congr_left
    intro e _
    rfl

lemma stepFold_inv (Q : NodeData → Prop) :
    ∀ (ops : List (ℕ × (NodeData → NodeData))) (e : NodeData), Q e →
      (∀ kf ∈ ops, ∀ n : NodeData, Q n → Q (if n.nid = kf.1 then kf.2 n else n)) →
      Q (ops.foldl (fun m kf => if m.nid = kf.1 then kf.2 m else m) e) := by
  intro ops
  induction ops with
  | nil => intro e he _; exact he
  | cons kf ops ih =>
    intro e he hop
    rw [List.foldl_cons]
    exact ih _ (hop kf (List.mem_cons_self _ _) e he)
      (fun kf' h' => hop kf' (List.mem_cons_of_mem _ h'))

lemma stepFold_pp (enid pn : ℕ) (v : Pt) :
    ∀ (ops : List (ℕ × (NodeData → NodeData))) (e : NodeData),
      e.nid = enid →
      (∀ kf ∈ ops, ∀ n : NodeData, (kf.2 n).nid = n.nid) →
      (∀ kf ∈ ops, kf.1 = enid → ∀ n : NodeData,
        ((kf.2 n).parent = n.parent ∧ (kf.2 n).pos = n.pos) ∨
        ((kf.2 n).parent = some pn ∧ (kf.2 n).pos = v)) →
      (∃ kf ∈ ops, kf.1 = enid ∧ ∀ n : NodeData,
        (kf.2 n).parent = some pn ∧ (kf.2 n).pos = v) →
      ((ops.foldl (fun m kf => if m.nid = kf.1 then kf.2 m else m) e).parent = some pn ∧
        (ops.foldl (fun m kf => if m.nid = kf.1 then kf.2 m else m) e).pos = v) := by
  intro ops
  induction ops with
  | nil =>
    intro e _ _ _ hex
    obtain ⟨kf, hkf, _⟩ := hex
    exact absurd hkf (List.not_mem_nil _)
  | cons kf0 ops ih =>
    intro e he hnid hpp hex
    rw [List.foldl_cons]
    have hinv : ∀ (m : NodeData), m.nid = enid → m.parent = some pn → m.pos = v →
        ((ops.foldl (fun m kf => if m.nid = kf.1 then kf.2 m else m) m).parent = some pn ∧
          (ops.foldl (fun m kf => if m.nid = kf.1 then kf.2 m else m) m).pos = v) := by
      intro m hm1 hm2 hm3
      have hQ := stepFold_inv (fun n => n.nid = enid ∧ n.parent = some pn ∧ n.pos = v)
        ops m ⟨hm1, hm2, hm3⟩ ?_
      · exact ⟨hQ.2.1, hQ.2.2⟩
      · intro kf' hkf' n hn
        by_cases hnk : n.nid = kf'.1
        · rw [if_pos hnk]
          refine ⟨(hnid kf' (List.mem_cons_of_mem _ hkf') n).trans hn.1, ?_⟩
          rcases hpp kf' (List.mem_cons_of_mem _ hkf') (hnk.symm.trans hn.1) n with
            ⟨h1, h2⟩ | ⟨h1, h2⟩
          · exact ⟨h1.trans hn.2.1, h2.trans hn.2.2⟩
          · exact ⟨h1, h2⟩
        · rw [if_neg hnk]
          exact hn
    rcases hex with ⟨kfw, hkfw_mem, hkfw_key, hkfw_set⟩
    rcases List.mem_cons.mp hkfw_mem with rfl | hkfw_in
    · rw [if_pos (by rw [he, hkfw_key])]
      exact hinv _ ((hnid kfw (List.mem_cons_self _ _) e).trans he)
        (hkfw_set e).1 (hkfw_set e).2
    · by_cases hek : e.nid = kf0.1
      · rw [if_pos hek]
        rcases hpp kf0 (List.mem_cons_self _ _) (hek.symm.trans he) e with
          ⟨h1, h2⟩ | ⟨h1, h2⟩
        · exact ih (kf0.2 e) ((hnid kf0 (List.mem_cons_self _ _) e).trans he)
            (fun kf h => hnid kf (List.mem_cons_of_mem _ h))
            (fun kf h => hpp kf (List.mem_cons_of_mem _ h))
            ⟨kfw, hkfw_in, hkfw_key, hkfw_set⟩
        · exact hinv _ ((hnid kf0 (List.mem_cons_self _ _) e).trans he) h1 h2
      · rw [if_neg hek]
        exact ih e he
          (fun kf h => hnid kf (List.mem_cons_of_mem _ h))
          (fun kf h => hpp kf (List.mem_cons_of_mem _ h))
          ⟨kfw, hkfw_in, hkfw_key, hkfw_set⟩

lemma mem_nodeOps {d : Design} {base : ℕ} {kf : ℕ × (NodeData → NodeData)}
    (h : kf ∈ nodeOps d base) :
    ∃ j sn pr, d.nodes.get? j = some sn ∧
      truthyId (d.nodes.map SavedNode.sid) sn.parent_id = some pr ∧
      (kf = (loadRename d base pr, fun n => { n with isContainer := true }) ∨
       kf = (base + j,
        fun n => { n with parent := some (loadRename d base pr), pos := sn.pos })) := by
  unfold nodeOps at h
  rw [List.mem_join] at h
  obtain ⟨blk, hblk, hkf⟩ := h
  rw [List.mem_map] at hblk
  obtain ⟨p, hp, rfl⟩ := hblk
  obtain ⟨j, hj, hji⟩ := mem_enumFromM _ _ _ hp
  cases htr : truthyId (d.nodes.map SavedNode.sid) p.2.parent_id with
  | none =>
    rw [htr] at hkf
    dsimp only at hkf
    exact absurd hkf (List.not_mem_nil _)
  | some pr =>
    rw [htr] at hkf
    dsimp only at hkf
    refine ⟨j, p.2, pr, hj, htr, ?_⟩
    rcases List.mem_cons.mp hkf with rfl | hkf'
    · exact Or.inl rfl
    · rcases List.mem_cons.mp hkf' with rfl | h0
      · right
        rw [hji, Nat.zero_add]
      · exact absurd h0 (List.not_mem_nil _)

lemma own_mem_nodeOps (d : Design) (base j : ℕ) (sn : SavedNode) (pr : ℕ)
    (hj : d.nodes.get? j = some sn)
    (htr : truthyId (d.nodes.map SavedNode.sid) sn.parent_id = some pr) :
    ((base + j,
      fun n => { n with parent := some (loadRename d base pr), pos := sn.pos }) :
      ℕ × (NodeData → NodeData)) ∈ nodeOps d base := by
  unfold nodeOps
  rw [List.mem_join]
  refine ⟨_, List.mem_map_of_mem _ (mem_enumFromM_intro d.nodes 0 j sn hj), ?_⟩
  dsimp only
  rw [htr]
  simp only [Nat.zero_add]
  exact List.mem_cons_of_mem _ (List.mem_cons_self _ _)

lemma findIdx_sid_of_nodup :
    ∀ (l : List SavedNode) (i : ℕ) (sn : SavedNode),
      (l.map SavedNode.sid).Nodup → l.get? i = some sn →
      l.findIdx (fun m => m.sid == sn.sid) = i := by
  intro l
  induction l with
  | nil => intro i sn _ h; exact Option.noConfusion h
  | cons a l ih =>
    intro i sn hnd h
    rw [List.map_cons, List.nodup_cons] at hnd
    cases i with
    | zero =>
      injection h with h
      subst h
      rw [List.findIdx_cons]
      simp
    | succ i =>
      have hmem : sn ∈ l := List.get?_mem h
      have hane : (a.sid == sn.sid) = false := by
        rw [beq_eq_false_iff_ne]
        intro heq
        exact hnd.1 (heq ▸ List.mem_map_of_mem _ hmem)
      rw [List.findIdx_cons, hane]
      simp only [cond_false]
      rw [ih i sn hnd.2 h]

lemma saveDesign_sids (s : EditorState) (winNodes : List ℕ) :
    (saveDesign s winNodes).nodes.map SavedNode.sid =
      (collectAllNodes s.nodes winNodes).map NodeData.nid := by
  show ((collectAllNodes s.nodes winNodes).map saveNode).map SavedNode.sid = _
  rw [List.map_map]
  rfl

lemma loadNodes_eq (d : Design) (base : ℕ) :
    loadNodes d base = (loadPass1 d base).map
      (fun e => (nodeOps d base).foldl
        (fun m kf => if m.nid = kf.1 then kf.2 m else m) e) :=
  foldl_updateNode_map _ _

lemma nodeOps_nid {d : Design} {base : ℕ} :
    ∀ kf ∈ nodeOps d base, ∀ n : NodeData, (kf.2 n).nid = n.nid := by
  intro kf hkf n
  obtain ⟨j, sn, pr, _, _, hor⟩ := mem_nodeOps hkf
  rcases hor with rfl | rfl <;> rfl

/-- C2 (amended): loading the saved document reproduces a structurally
isomorphic graph under the explicit (injective) identity renaming
`loadRename` — same node count; per node the same title, position,
rectangle, type, initial flag and renamed parent link; per edge the same
renamed endpoints, title, waypoint ratio and stored/control offsets — but
ONLY when the window's bookkeeping list is accurate, i.e. the save
traversal started from it enumerates every live node exactly once.
Reparenting never maintains that list, so the guarantee covers states
built without drag-reparenting; `C2_stale_nodes_counterexample` shows a
reachable stale state whose save drops a node.  Further hypotheses:
identities are distinct and nonzero, parent links resolve, edge endpoints
are live, and each edge carries synced nonzero control offsets (the state
`update_path` maintains for connected edges). -/
theorem C2_save_load_roundtrip (s : EditorState) (winNodes : List ℕ)
    (base ebase : ℕ)
    (hN : (collectAllNodes s.nodes winNodes).Perm s.nodes)
    (hnd : (s.nodes.map NodeData.nid).Nodup)
    (hnz : ∀ n ∈ s.nodes, n.nid ≠ 0)
    (hcl : ParentClosed s.nodes)
    (hedge : ∀ e ∈ s.edges, (∃ n ∈ s.nodes, n.nid = e.startId) ∧
      (∃ n ∈ s.nodes, n.nid = e.endId))
    (hctl : ∀ e ∈ s.edges,
      (∃ p : Pt, p ≠ ⟨0, 0⟩ ∧ e.startCtl = some p ∧ e.startOff = some p) ∧
      (∃ q : Pt, q ≠ ⟨0, 0⟩ ∧ e.endCtl = some q ∧ e.endOff = some q)) :
    (loadDesign (saveDesign s winNodes) base ebase).nodes.length = s.nodes.length ∧
    (∀ a ∈ s.nodes, ∀ b ∈ s.nodes,
      loadRename (saveDesign s winNodes) base a.nid = loadRename (saveDesign s winNodes) base b.nid →
      a.nid = b.nid) ∧
    (∀ n ∈ s.nodes, ∃ m ∈ (loadDesign (saveDesign s winNodes) base ebase).nodes,
      m.nid = loadRename (saveDesign s winNodes) base n.nid ∧
      m.title = n.title ∧ m.pos = n.pos ∧ m.rect = n.rect ∧
      m.ntype = n.ntype ∧ m.isInitial = n.isInitial ∧
      m.parent = n.parent.map (loadRename (saveDesign s winNodes) base)) ∧
    (loadDesign (saveDesign s winNodes) base ebase).edges.length = s.edges.length ∧
    (∀ e ∈ s.edges, ∃ e' ∈ (loadDesign (saveDesign s winNodes) base ebase).edges,
      e'.startId = loadRename (saveDesign s winNodes) base e.startId ∧
      e'.endId = loadRename (saveDesign s winNodes) base e.endId ∧
      e'.title = e.title ∧ e'.ratio = e.ratio ∧
      e'.startOff = e.startOff ∧ e'.endOff = e.endOff ∧
      e'.startCtl = e.startCtl ∧ e'.endCtl = e.endCtl) := by
  have hndN : ((collectAllNodes s.nodes winNodes).map NodeData.nid).Nodup :=
    ((hN.map NodeData.nid).nodup_iff).mpr hnd
  have hsidsN : (saveDesign s winNodes).nodes.map SavedNode.sid =
      (collectAllNodes s.nodes winNodes).map NodeData.nid := saveDesign_sids s winNodes
  have hnodsids : ((saveDesign s winNodes).nodes.map SavedNode.sid).Nodup := by
    rw [hsidsN]; exact hndN
  have hdget : ∀ (i : ℕ) (n : NodeData), (collectAllNodes s.nodes winNodes).get? i = some n →
      (saveDesign s winNodes).nodes.get? i = some (saveNode n) := by
    intro i n hi
    show ((collectAllNodes s.nodes winNodes).map saveNode).get? i = _
    rw [List.get?_map, hi]
    rfl
  have hrename : ∀ (i : ℕ) (n : NodeData), (collectAllNodes s.nodes winNodes).get? i = some n →
      loadRename (saveDesign s winNodes) base n.nid = base + i := by
    intro i n hi
    show base + (saveDesign s winNodes).nodes.findIdx (fun m => m.sid == (saveNode n).sid) =
      base + i
    rw [findIdx_sid_of_nodup (saveDesign s winNodes).nodes i (saveNode n) hnodsids (hdget i n hi)]
  have hmemid : ∀ p, (∃ q ∈ s.nodes, q.nid = p) →
      p ∈ (saveDesign s winNodes).nodes.map SavedNode.sid := by
    intro p ⟨q, hq, hqe⟩
    rw [hsidsN]
    exact hqe ▸ List.mem_map_of_mem _ (hN.mem_iff.mpr hq)
  refine ⟨?_, ?_, ?_, ?_, ?_⟩
  · -- node count
    show (loadNodes (saveDesign s winNodes) base).length = _
    rw [loadNodes_eq, List.length_map]
    unfold loadPass1
    rw [List.length_map, enumFromM_length]
    show ((collectAllNodes s.nodes winNodes).map saveNode).length = _
    rw [List.length_map, hN.length_eq]
  · -- renaming is injective on live identities
    intro a ha b hb hr
    obtain ⟨ia, hia⟩ := List.get?_of_mem (hN.mem_iff.mpr ha)
    obtain ⟨ib, hib⟩ := List.get?_of_mem (hN.mem_iff.mpr hb)
    rw [hrename ia a hia, hrename ib b hib] at hr
    have : ia = ib := by omega
    rw [this, hib] at hia
    injection hia with hia
    rw [hia]
  · -- node correspondence
    intro n hns
    obtain ⟨i, hi⟩ := List.get?_of_mem (hN.mem_iff.mpr hns)
    have hd_i := hdget i n hi
    have hpeq : (loadPass1 (saveDesign s winNodes) base).get? i = some
        ({ nid := base + i, title := n.title, pos := n.pos, ntype := n.ntype,
           isInitial := n.isInitial, isContainer := n.isContainer, rect := n.rect,
           parent := none, z := 0 } : NodeData) := by
      unfold loadPass1
      rw [List.get?_map, enumFromM_get?, hd_i]
      show some _ = _
      rw [Nat.zero_add]
      rfl
    have hm_i : (loadNodes (saveDesign s winNodes) base).get? i = some
        ((nodeOps (saveDesign s winNodes) base).foldl
          (fun m kf => if m.nid = kf.1 then kf.2 m else m)
          ({ nid := base + i, title := n.title, pos := n.pos, ntype := n.ntype,
             isInitial := n.isInitial, isContainer := n.isContainer, rect := n.rect,
             parent := none, z := 0 } : NodeData)) := by
      rw [loadNodes_eq, List.get?_map, hpeq]
      rfl
    refine ⟨_, List.get?_mem hm_i, ?_⟩
    have hQ := stepFold_inv (fun nn => nn.nid = base + i ∧ nn.title = n.title ∧
        nn.pos = n.pos ∧ nn.rect = n.rect ∧ nn.ntype = n.ntype ∧
        nn.isInitial = n.isInitial)
      (nodeOps (saveDesign s winNodes) base)
      ({ nid := base + i, title := n.title, pos := n.pos, ntype := n.ntype,
         isInitial := n.isInitial, isContainer := n.isContainer, rect := n.rect,
         parent := none, z := 0 } : NodeData) ⟨rfl, rfl, rfl, rfl, rfl, rfl⟩ ?_
    · refine ⟨?_, hQ.2.1, hQ.2.2.1, hQ.2.2.2.1, hQ.2.2.2.2.1, hQ.2.2.2.2.2, ?_⟩
      · rw [hQ.1, hrename i n hi]
      · -- the parent link
        cases hp : n.parent with
        | none =>
          have hQ2 := stepFold_inv (fun nn => nn.nid = base + i ∧ nn.parent = none)
            (nodeOps (saveDesign s winNodes) base)
            ({ nid := base + i, title := n.title, pos := n.pos, ntype := n.ntype,
               isInitial := n.isInitial, isContainer := n.isContainer, rect := n.rect,
               parent := none, z := 0 } : NodeData) ⟨rfl, rfl⟩ ?_
          · rw [hQ2.2]
            rfl
          · intro kf hkf nn hnn
            by_cases hnk : nn.nid = kf.1
            · rw [if_pos hnk]
              obtain ⟨j, sn, pr, hj, htr, hor⟩ := mem_nodeOps hkf
              rcases hor with rfl | rfl
              · exact hnn
              · have hij : i = j := by
                  have := hnn.1.symm.trans hnk
                  omega
                rw [← hij] at hj
                rw [hd_i] at hj
                injection hj with hj
                rw [← hj] at htr
                have htr' : truthyId ((saveDesign s winNodes).nodes.map SavedNode.sid)
                    n.parent = some pr := htr
                rw [hp] at htr'
                exact Option.noConfusion htr'
            · rw [if_neg hnk]
              exact hnn
        | some p =>
          obtain ⟨q, hqmem, hqe⟩ := hcl n hns p hp
          have hp0 : p ≠ 0 := hqe ▸ hnz q hqmem
          have hpin : p ∈ (saveDesign s winNodes).nodes.map SavedNode.sid :=
            hmemid p ⟨q, hqmem, hqe⟩
          have htrn : truthyId ((saveDesign s winNodes).nodes.map SavedNode.sid)
              (saveNode n).parent_id = some p := by
            show truthyId _ n.parent = some p
            rw [hp]
            unfold truthyId
            dsimp only
            rw [if_pos ⟨hp0, hpin⟩]
          have hown := own_mem_nodeOps (saveDesign s winNodes) base i (saveNode n) p hd_i htrn
          have hpp := stepFold_pp (base + i) (loadRename (saveDesign s winNodes) base p) n.pos
            (nodeOps (saveDesign s winNodes) base)
            ({ nid := base + i, title := n.title, pos := n.pos, ntype := n.ntype,
               isInitial := n.isInitial, isContainer := n.isContainer, rect := n.rect,
               parent := none, z := 0 } : NodeData) rfl nodeOps_nid ?_ ?_
          · rw [hpp.1]
            rfl
          · intro kf hkf hkey nn
            obtain ⟨j, sn, pr, hj, htr, hor⟩ := mem_nodeOps hkf
            rcases hor with rfl | rfl
            · exact Or.inl ⟨rfl, rfl⟩
            · have hij : i = j := by
                have : base + j = base + i := hkey
                omega
              rw [← hij] at hj
              rw [hd_i] at hj
              injection hj with hj
              rw [← hj] at htr
              have hpr : pr = p := by
                have h1 : truthyId ((saveDesign s winNodes).nodes.map SavedNode.sid)
                    (saveNode n).parent_id = some pr := htr
                rw [htrn] at h1
                injection h1 with h1
                exact h1.symm
              right
              rw [← hj, hpr]
              exact ⟨rfl, rfl⟩
          · refine ⟨_, hown, rfl, ?_⟩
            intro nn
            exact ⟨rfl, rfl⟩
    · intro kf hkf nn hnn
      by_cases hnk : nn.nid = kf.1
      · rw [if_pos hnk]
        obtain ⟨j, sn, pr, hj, htr, hor⟩ := mem_nodeOps hkf
        rcases hor with rfl | rfl
        · exact hnn
        · have hij : i = j := by
            have := hnn.1.symm.trans hnk
            omega
          rw [← hij] at hj
          rw [hd_i] at hj
          injection hj with hj
          refine ⟨hnn.1, hnn.2.1, ?_, hnn.2.2.2⟩
          show sn.pos = n.pos
          rw [← hj]
          rfl
      · rw [if_neg hnk]
        exact hnn
  · -- edge count
    have hfilter : (saveDesign s winNodes).edges.filter
        (edgeAccept ((saveDesign s winNodes).nodes.map SavedNode.sid)) =
        (saveDesign s winNodes).edges := by
      rw [List.filter_eq_self]
      intro se hse
      obtain ⟨e, he, rfl⟩ := List.mem_map.mp hse
      show edgeAccept _ (saveEdge e) = true
      unfold edgeAccept saveEdge
      dsimp only
      rw [Bool.and_eq_true, decide_eq_true_eq, decide_eq_true_eq]
      exact ⟨hmemid e.startId (hedge e he).1, hmemid e.endId (hedge e he).2⟩
    show ((enumFromM 0 _).map _).length = _
    rw [List.length_map, enumFromM_length, hfilter]
    show ((s.edges).map saveEdge).length = _
    rw [List.length_map]
  · -- edge correspondence
    have hfilter : (saveDesign s winNodes).edges.filter
        (edgeAccept ((saveDesign s winNodes).nodes.map SavedNode.sid)) =
        (saveDesign s winNodes).edges := by
      rw [List.filter_eq_self]
      intro se hse
      obtain ⟨e, he, rfl⟩ := List.mem_map.mp hse
      show edgeAccept _ (saveEdge e) = true
      unfold edgeAccept saveEdge
      dsimp only
      rw [Bool.and_eq_true, decide_eq_true_eq, decide_eq_true_eq]
      exact ⟨hmemid e.startId (hedge e he).1, hmemid e.endId (hedge e he).2⟩
    intro e he
    obtain ⟨j, hj⟩ := List.get?_of_mem he
    have hdj : (saveDesign s winNodes).edges.get? j = some (saveEdge e) := by
      show (s.edges.map saveEdge).get? j = _
      rw [List.get?_map, hj]
      rfl
    have hLj : (loadDesign (saveDesign s winNodes) base ebase).edges.get? j = some
        (loadEdge (saveDesign s winNodes) base ebase (loadNodes (saveDesign s winNodes) base)
          (0 + j, saveEdge e)) := by
      show ((enumFromM 0 _).map _).get? j = _
      rw [List.get?_map, enumFromM_get?, hfilter, hdj]
      rfl
    obtain ⟨ps, hps0, hpsc, hpso⟩ := (hctl e he).1
    obtain ⟨pe, hpe0, hpec, hpeo⟩ := (hctl e he).2
    have hso : (saveEdge e).start_off = some ps := by
      show savedOff e.startOff e.startCtl = some ps
      rw [hpso]
      unfold savedOff
      dsimp only
      rw [if_pos hps0]
    have heo : (saveEdge e).end_off = some pe := by
      show savedOff e.endOff e.endCtl = some pe
      rw [hpeo]
      unfold savedOff
      dsimp only
      rw [if_pos hpe0]
    refine ⟨_, List.get?_mem hLj, rfl, rfl, rfl, rfl, ?_, ?_, ?_, ?_⟩
    · show some (match (saveEdge e).start_off with
        | some q => q
        | none => autoOffsetId _ _ _) = e.startOff
      rw [hso, hpso]
    · show some (match (saveEdge e).end_off with
        | some q => q
        | none => autoOffsetId _ _ _) = e.endOff
      rw [heo, hpeo]
    · show some (match (saveEdge e).start_off with
        | some q => q
        | none => autoOffsetId _ _ _) = e.startCtl
      rw [hso, hpsc]
    · show some (match (saveEdge e).end_off with
        | some q => q
        | none => autoOffsetId _ _ _) = e.endCtl
      rw [heo, hpec]

/-- A depth-2 nested scene with two edges carrying custom offsets and
non-default waypoint ratios. -/
def c2A : NodeData :=
  ⟨1, "Root", ⟨0, 0⟩, some .stateMachine, false, true, ⟨0, 0, 400, 300⟩, none, 0⟩

def c2B : NodeData :=
  ⟨2, "Mid", ⟨20, 40⟩, some .stateMachine, false, true, ⟨0, 0, 200, 150⟩, some 1, 0⟩

def c2C : NodeData :=
  ⟨3, "Leaf", ⟨15, 45⟩, some .state, true, false, ⟨0, 0, 80, 40⟩, some 2, 0⟩

def c2E1 : EdgeData :=
  ⟨4, 1, 3, "EV_GO", 7/10, some ⟨5, 6⟩, some ⟨7, 8⟩, some ⟨5, 6⟩, some ⟨7, 8⟩,
    ⟨0, 0⟩, ⟨0, 0⟩⟩

def c2E2 : EdgeData :=
  ⟨5, 3, 2, "EV_BACK", 1/4, some ⟨1, 2⟩, some ⟨3, 4⟩, some ⟨1, 2⟩, some ⟨3, 4⟩,
    ⟨0, 0⟩, ⟨0, 0⟩⟩

def c2S : EditorState := ⟨[c2A, c2B, c2C], [c2E1, c2E2], [], [], [], [], 10, ""⟩

theorem C2_save_load_roundtrip_witness :
    collectAllNodes c2S.nodes [1] = c2S.nodes ∧
    (∀ n ∈ c2S.nodes, n.nid ≠ 0) ∧
    (loadDesign (saveDesign c2S [1]) 100 200).nodes.length = 3 ∧
    (loadDesign (saveDesign c2S [1]) 100 200).edges.length = 2 := by
  have hN : (collectAllNodes c2S.nodes [1]).Perm c2S.nodes := by
    rw [show collectAllNodes c2S.nodes [1] = c2S.nodes from rfl]
  have hcl : ParentClosed c2S.nodes := by
    intro m hm p hp
    have hm' : m = c2A ∨ m = c2B ∨ m = c2C := by simpa [c2S] using hm
    rcases hm' with rfl | rfl | rfl
    · exact absurd hp (by simp [c2A])
    · refine ⟨c2A, by simp [c2S], ?_⟩
      have h1 : (1 : ℕ) = p := by simpa [c2B] using hp
      simp [c2A, ← h1]
    · refine ⟨c2B, by simp [c2S], ?_⟩
      have h1 : (2 : ℕ) = p := by simpa [c2C] using hp
      simp [c2B, ← h1]
  have hctl : ∀ e ∈ c2S.edges,
      (∃ p : Pt, p ≠ ⟨0, 0⟩ ∧ e.startCtl = some p ∧ e.startOff = some p) ∧
      (∃ q : Pt, q ≠ ⟨0, 0⟩ ∧ e.endCtl = some q ∧ e.endOff = some q) := by
    intro e he
    have he' : e = c2E1 ∨ e = c2E2 := by simpa [c2S] using he
    rcases he' with rfl | rfl
    · exact ⟨⟨⟨5, 6⟩, by norm_num [Pt.mk.injEq], rfl, rfl⟩,
        ⟨⟨7, 8⟩, by norm_num [Pt.mk.injEq], rfl, rfl⟩⟩
    · exact ⟨⟨⟨1, 2⟩, by norm_num [Pt.mk.injEq], rfl, rfl⟩,
        ⟨⟨3, 4⟩, by norm_num [Pt.mk.injEq], rfl, rfl⟩⟩
  have H := C2_save_load_roundtrip c2S [1] 100 200 hN (by decide) (by decide) hcl
    (by decide) hctl
  exact ⟨rfl, by decide, H.1.trans (by rfl), H.2.2.2.1.trans (by rfl)⟩


/-- A saved design with a root container and one nested child. -/
def c2D0 : Design :=
  ⟨[⟨"Root", ⟨0, 0⟩, ⟨0, 0, 400, 300⟩, some .stateMachine, true, false, none, 1⟩,
    ⟨"Kid", ⟨10, 40⟩, ⟨0, 0, 80, 40⟩, some .state, false, false, some 1, 2⟩],
   []⟩

/-- Counterexample to C2 as stated: `save_design` iterates the window's
`self.nodes` bookkeeping list, which reparenting never maintains.  Load the
nested design (only the root enters the bookkeeping list), detach the child
to the document root (`_remove_from_parent` updates the scene but not the
list), and save: the detached child is in no list, so the saved document —
and hence the reloaded graph — has one node where the live scene has two.
`load(save(graph))` is not structurally isomorphic for this reachable
state. -/
theorem C2_stale_nodes_counterexample :
    loadWinNodes c2D0 100 = [100] ∧
    (removeFromParent (loadDesign c2D0 100 200).nodes 101).map
      (fun n => (n.nid, n.parent)) = [(100, none), (101, none)] ∧
    (saveDesign { loadDesign c2D0 100 200 with
        nodes := removeFromParent (loadDesign c2D0 100 200).nodes 101 }
      (loadWinNodes c2D0 100)).nodes.map SavedNode.sid = [100] ∧
    (loadDesign (saveDesign { loadDesign c2D0 100 200 with
        nodes := removeFromParent (loadDesign c2D0 100 200).nodes 101 }
      (loadWinNodes c2D0 100)) 300 400).nodes.length = 1 := by
  refine ⟨rfl, rfl, rfl, rfl⟩

end Modeller
